import Mathlib

/-!
# Verification of the AIMLAB-XR-Wireless restructuring scripts

This file is a shallow embedding of the two near-duplicate Python scripts
`clean.py` and `restructure_project.py` (class `ProjectRestructurer`).
The filesystem is modelled as a finite association list from paths
(relative to the base path, as lists of components) to nodes (directories
or files with string contents).  Each filesystem primitive used by the
scripts is modelled with its Python semantics:

* `FPath.mkdir(exist_ok=True)`            → `FS.mkdir1` (requires the parent
  to be an existing directory; a file at the path is an error);
* `FPath.mkdir(parents=True, exist_ok=True)` → `FS.mkdirParents` (creates
  every missing ancestor; a file at any ancestor is an error);
* `open(p, "w")` + `write`               → `FS.writeFile` (truncates an
  existing file, errors if `p` is a directory or the parent is missing);
* `shutil.copy2(src, dst)`               → `FS.copy2` (errors when `src` is
  not a regular file; when `dst` is an existing directory the file is
  copied *into* it under the basename of `src`, as `shutil` does);
* `p.exists()`                           → `(FS.lookup fs p).isSome`;
* `src.rglob("*")` filtered by `is_file` → `FS.filesUnder`.

A fallible operation returns `Option FS`; `none` models an uncaught Python
exception aborting the run.
-/

/-- A path relative to the base path, as a list of components.  `[]` is the
base path itself. -/
abbrev FPath := List String

/-- A filesystem node: a directory or a regular file with its contents. -/
inductive Node where
  | dir : Node
  | file (content : String) : Node
deriving DecidableEq, Repr

/-- A filesystem state: a finite association list from paths to nodes.
Lookups take the first matching entry. -/
abbrev FS := List (FPath × Node)

/-- Look up the node at a path (first matching entry). -/
def FS.lookup (fs : FS) (p : FPath) : Option Node :=
  match fs with
  | [] => none
  | e :: rest => if e.1 = p then some e.2 else FS.lookup rest p

/-- Write a node at a path: replace the first entry with that key in place,
or append a new entry. -/
def FS.set (fs : FS) (p : FPath) (n : Node) : FS :=
  match fs with
  | [] => [(p, n)]
  | e :: rest => if e.1 = p then (p, n) :: rest else e :: FS.set rest p n

/-- Apply a list of writes in order. -/
def FS.applySets (fs : FS) (ws : List (FPath × Node)) : FS :=
  ws.foldl (fun s w => FS.set s w.1 w.2) fs

/-- `FPath.mkdir(exist_ok=True)` (no `parents`): ok if the path is already a
directory; error if it is a file; otherwise create it, provided the parent
is an existing directory. -/
def FS.mkdir1 (fs : FS) (p : FPath) : Option FS :=
  match FS.lookup fs p with
  | some Node.dir => some fs
  | some (Node.file _) => none
  | none =>
    if FS.lookup fs p.dropLast = some Node.dir then some (FS.set fs p Node.dir)
    else none

/-- One step of `mkdir(parents=True, exist_ok=True)`: create `p` as a
directory ignoring the parent (the caller has already ensured it). -/
def FS.mkDirAt (fs : FS) (p : FPath) : Option FS :=
  match FS.lookup fs p with
  | some Node.dir => some fs
  | some (Node.file _) => none
  | none => some (FS.set fs p Node.dir)

/-- The chain of paths `base, base++[c₁], …, base++rest` that
`mkdir(parents=True)` on `base++rest` creates in order. -/
def buildChain (base : FPath) (rest : List String) : List FPath :=
  match rest with
  | [] => [base]
  | c :: cs => base :: buildChain (base ++ [c]) cs

/-- `FPath.mkdir(parents=True, exist_ok=True)` on `base ++ rest`, creating
every path of `buildChain base rest` in order. -/
def FS.mkdirParentsFrom (fs : FS) (base : FPath) (rest : List String) : Option FS :=
  match rest with
  | [] => FS.mkDirAt fs base
  | c :: cs =>
    match FS.mkDirAt fs base with
    | none => none
    | some fs₁ => FS.mkdirParentsFrom fs₁ (base ++ [c]) cs

/-- `p.mkdir(parents=True, exist_ok=True)` relative to the base path:
creates the base path and every ancestor of `p` down to `p` itself. -/
def FS.mkdirParents (fs : FS) (p : FPath) : Option FS :=
  FS.mkdirParentsFrom fs [] p

/-- `open(p, "w")` followed by writing `c`: errors if `p` is a directory or
the parent is not an existing directory; otherwise creates or truncates the
file. -/
def FS.writeFile (fs : FS) (p : FPath) (c : String) : Option FS :=
  match FS.lookup fs p with
  | some Node.dir => none
  | _ =>
    if FS.lookup fs p.dropLast = some Node.dir then some (FS.set fs p (Node.file c))
    else none

/-- `shutil.copy2(src, dest)`: errors unless `src` is a regular file; when
`dest` is an existing directory, copies into `dest` under the basename of
`src` (`shutil` redirects `dst` to `dst/basename(src)`). -/
def FS.copy2 (fs : FS) (src dest : FPath) : Option FS :=
  match FS.lookup fs src with
  | some (Node.file c) =>
    match FS.lookup fs dest with
    | some Node.dir => FS.writeFile fs (dest ++ [src.getLastD ""]) c
    | _ => FS.writeFile fs dest c
  | _ => none

/-- Select an entry that is a regular file strictly under `src`. -/
def entryFile (src : FPath) (e : FPath × Node) : Option FPath :=
  match e.2 with
  | Node.file _ => if src <+: e.1 ∧ e.1 ≠ src then some e.1 else none
  | Node.dir => none

/-- The regular files strictly under `src`, in entry order: the model of
`for item in src.rglob("*"): if item.is_file()`. -/
def FS.filesUnder (fs : FS) (src : FPath) : List FPath :=
  fs.filterMap (entryFile src)

/-- A filesystem state is well formed when every proper prefix of an
entry's path is a directory (as on a real filesystem, where a file or
directory exists only inside an existing chain of parent directories). -/
def FS.WF (fs : FS) : Prop :=
  ∀ e ∈ fs, ∀ q ∈ buildChain [] e.1, q ≠ e.1 → FS.lookup fs q = some Node.dir

instance (fs : FS) : Decidable (FS.WF fs) := by
  unfold FS.WF
  infer_instance

/-! ## Basic lemmas about the filesystem primitives -/

theorem FS.lookup_set (fs : FS) (p : FPath) (n : Node) (q : FPath) :
    FS.lookup (FS.set fs p n) q = if q = p then some n else FS.lookup fs q := by
  induction fs with
  | nil =>
    simp only [FS.set, FS.lookup]
    by_cases h : q = p
    · simp [h]
    · have h' : ¬ p = q := fun hh => h hh.symm
      simp [h, h']
  | cons e rest ih =>
    simp only [FS.set]
    by_cases he : e.1 = p
    · simp only [he, if_pos rfl, FS.lookup]
      by_cases hq : q = p
      · simp [hq]
      · have hq' : ¬ p = q := fun hh => hq hh.symm
        simp [FS.lookup, hq, hq', he]
    · rw [if_neg he]
      simp only [FS.lookup, ih]
      by_cases hq : e.1 = q
      · have : ¬ q = p := fun h => he (hq.trans h)
        simp [hq, this]
      · simp [hq]

theorem FS.set_self (fs : FS) (p : FPath) (n : Node)
    (h : FS.lookup fs p = some n) : FS.set fs p n = fs := by
  induction fs with
  | nil => simp [FS.lookup] at h
  | cons e rest ih =>
    simp only [FS.lookup] at h
    by_cases he : e.1 = p
    · rw [if_pos he] at h
      have he2 : e = (p, n) := by
        cases e
        simp_all
      subst he2
      simp [FS.set]
    · rw [if_neg he] at h
      simp [FS.set, he, ih h]

theorem FS.applySets_nil (fs : FS) : FS.applySets fs [] = fs := rfl

theorem FS.applySets_cons (fs : FS) (w : FPath × Node) (ws : List (FPath × Node)) :
    FS.applySets fs (w :: ws) = FS.applySets (FS.set fs w.1 w.2) ws := rfl

theorem FS.applySets_append (fs : FS) (a b : List (FPath × Node)) :
    FS.applySets fs (a ++ b) = FS.applySets (FS.applySets fs a) b := by
  simp [FS.applySets, List.foldl_append]

theorem FS.lookup_applySets_of_notkey (fs : FS) (ws : List (FPath × Node)) (p : FPath)
    (h : ∀ w ∈ ws, w.1 ≠ p) :
    FS.lookup (FS.applySets fs ws) p = FS.lookup fs p := by
  induction ws generalizing fs with
  | nil => rfl
  | cons w ws ih =>
    rw [FS.applySets_cons, ih _ (fun x hx => h x (List.mem_cons_of_mem _ hx)),
      FS.lookup_set]
    have : ¬ p = w.1 := fun hh => h w (List.mem_cons_self _ _) hh.symm
    simp [this]

theorem FS.lookup_applySets_changed (fs : FS) (ws : List (FPath × Node)) (p : FPath)
    (h : FS.lookup (FS.applySets fs ws) p ≠ FS.lookup fs p) :
    ∃ w ∈ ws, w.1 = p := by
  by_contra hc
  push_neg at hc
  exact h (FS.lookup_applySets_of_notkey fs ws p hc)

theorem FS.set_eq_applySets (fs : FS) (p : FPath) (n : Node) :
    FS.set fs p n = FS.applySets fs [(p, n)] := rfl

/-! ## The scripts' fixed data

Transcribed from `clean.py` and `restructure_project.py`: the directory
plan, the asset manifests, the legacy source locations, and the templated
configuration and documentation contents. -/

/-- `self.new_structure`: top-level directory names with their subdirectories. -/
def newStructure : List (String × List String) :=
  [("public", ["assets", "models", "textures", "audio"]),
   ("src", ["components", "utils", "styles"]),
   ("docs", [])]

/-- `aframe_components`: the fixed component file list of `move_assets`. -/
def aframeComponents : List String :=
  ["pinchable.js", "color-change.js", "slider.js",
   "size-change.js", "button.js", "menu.js",
   "pressable.js", "event-manager.js", "info-message.js"]

/-- `util_files`: the fixed utility file list of `move_assets`. -/
def utilFiles : List String := ["hit-test.js", "stereo-util.js"]

/-- `texture_sources`: the two legacy media directories with their
destinations, from `_move_media_files`. -/
def textureSources : List (FPath × FPath) :=
  [(["webxr-samples-main", "media", "textures"], ["public", "textures"]),
   (["webxr-samples-main", "media", "gltf"], ["public", "models"])]

/-- `old_dirs`: the legacy directories `cleanup_old_files` reports on
(and, by design, never deletes). -/
def oldDirs : List String :=
  ["Campus-Tour-NYUAD-main", "webxr-samples-main", ".git"]

/-! ## JSON values and the `json.dump(..., indent=2)` serializer -/

/-- A JSON value as built by the scripts (strings, numbers, arrays,
objects with insertion-ordered fields). -/
inductive JValue where
  | str (s : String)
  | num (n : Nat)
  | arr (elems : List JValue)
  | obj (fields : List (String × JValue))

/-- JSON string escaping (the template strings only need quote and
backslash escapes; Python additionally escapes control and non-ASCII
characters, which do not occur here). -/
def jsonEscapeChar (c : Char) : String :=
  if c = '"' then "\\\"" else if c = '\\' then "\\\\" else String.singleton c

/-- Escape a string for JSON output. -/
def jsonEscape (s : String) : String :=
  String.join (s.data.map jsonEscapeChar)

/-- `n` spaces. -/
def jsonIndent (n : Nat) : String := String.mk (List.replicate n ' ')

mutual

/-- `json.dump(v, f, indent=2)` at indentation level `ind`: keys in
insertion order, items separated by `,\n`, key separator `: `, closing
bracket at the enclosing level. -/
def JValue.dumps (ind : Nat) : JValue → String
  | JValue.str s => "\"" ++ jsonEscape s ++ "\""
  | JValue.num n => toString n
  | JValue.arr [] => "[]"
  | JValue.arr (x :: xs) =>
    "[\n" ++ String.intercalate ",\n" (dumpsItems (ind + 2) (x :: xs)) ++
      "\n" ++ jsonIndent ind ++ "]"
  | JValue.obj [] => "\x7b\x7d"
  | JValue.obj (f :: fs) =>
    "\x7b\n" ++ String.intercalate ",\n" (dumpsFields (ind + 2) (f :: fs)) ++
      "\n" ++ jsonIndent ind ++ "\x7d"

/-- Serialize array items, each on its own indented line. -/
def dumpsItems (ind : Nat) : List JValue → List String
  | [] => []
  | x :: xs => (jsonIndent ind ++ JValue.dumps ind x) :: dumpsItems ind xs

/-- Serialize object fields, each on its own indented line. -/
def dumpsFields (ind : Nat) : List (String × JValue) → List String
  | [] => []
  | (k, v) :: fs =>
    (jsonIndent ind ++ "\"" ++ jsonEscape k ++ "\": " ++ JValue.dumps ind v) ::
      dumpsFields ind fs

end

/-- The `package_json` dictionary of `create_config_files` (identical in
both scripts). -/
def packageJsonObj : JValue :=
  JValue.obj
    [("name", JValue.str "aimlab-xr-wireless"),
     ("version", JValue.str "1.0.0"),
     ("description", JValue.str "AIMLAB Wireless XR - Interactive AR Experience with Hand Tracking"),
     ("author", JValue.str "Pi Ko <pi.ko@nyu.edu>"),
     ("license", JValue.str "MIT"),
     ("scripts", JValue.obj
       [("dev", JValue.str "npx serve ."),
        ("build", JValue.str "echo \x27No build step required\x27"),
        ("preview", JValue.str "npx serve .")]),
     ("keywords", JValue.arr
       [JValue.str "webxr", JValue.str "ar", JValue.str "vr",
        JValue.str "hand-tracking", JValue.str "aframe"]),
     ("repository", JValue.obj
       [("type", JValue.str "git"),
        ("url", JValue.str "https://github.com/yourusername/aimlab-xr-wireless")])]

/-- The `vercel_config` dictionary of `clean.py create_config_files`. -/
def vercelObj : JValue :=
  JValue.obj
    [("version", JValue.num 2),
     ("builds", JValue.arr
       [JValue.obj [("src", JValue.str "index.html"), ("use", JValue.str "@vercel/static")]]),
     ("routes", JValue.arr
       [JValue.obj [("src", JValue.str "/(.*)"), ("dest", JValue.str "/$1")]]),
     ("headers", JValue.arr
       [JValue.obj
         [("source", JValue.str "/(.*)"),
          ("headers", JValue.arr
            [JValue.obj [("key", JValue.str "Cross-Origin-Embedder-Policy"),
                         ("value", JValue.str "require-corp")],
             JValue.obj [("key", JValue.str "Cross-Origin-Opener-Policy"),
                         ("value", JValue.str "same-origin")]])]])]

/-- The `vercel_config` dictionary of `restructure_project.py
create_config_files` (one extra Permissions-Policy header). -/
def vercelObjR : JValue :=
  JValue.obj
    [("version", JValue.num 2),
     ("builds", JValue.arr
       [JValue.obj [("src", JValue.str "index.html"), ("use", JValue.str "@vercel/static")]]),
     ("routes", JValue.arr
       [JValue.obj [("src", JValue.str "/(.*)"), ("dest", JValue.str "/$1")]]),
     ("headers", JValue.arr
       [JValue.obj
         [("source", JValue.str "/(.*)"),
          ("headers", JValue.arr
            [JValue.obj [("key", JValue.str "Cross-Origin-Embedder-Policy"),
                         ("value", JValue.str "require-corp")],
             JValue.obj [("key", JValue.str "Cross-Origin-Opener-Policy"),
                         ("value", JValue.str "same-origin")],
             JValue.obj [("key", JValue.str "Permissions-Policy"),
                         ("value", JValue.str "xr-spatial-tracking=(self)")]])]])]

/-- The `.gitignore` template written by `clean.py create_config_files`. -/
def gitignoreContent : String := "# Dependencies
node_modules/
npm-debug.log*
yarn-debug.log*
yarn-error.log*

# Build output
dist/
build/
.vercel/

# OS files
.DS_Store
Thumbs.db

# IDE files
.vscode/
.idea/
*.swp
*.swo

# Environment files
.env
.env.local
.env.production

# Temporary files
*.tmp
*.temp
"

/-- The `README.md` template written by `clean.py create_documentation`. -/
def readmeContent : String := "# AIMLAB Wireless XR

An interactive AR experience combining hand tracking with immersive augmented reality.

## 🚀 Features

- **Hand Tracking**: Natural hand gesture interactions
- **AR Passthrough**: See-through AR experience on compatible devices
- **Interactive Objects**: Pinchable and manipulable 3D objects
- **Planet System**: Animated solar system visualization
- **Control Panel**: Interactive UI elements in 3D space

## 🛠️ Technology Stack

- **A-Frame**: WebVR/AR framework
- **WebXR API**: Modern AR/VR web standard
- **Three.js**: 3D graphics (via A-Frame)

## 📁 Project Structure

```
aimlab-xr-wireless/
├── index.html          # Main application file
├── public/             # Static assets
│   ├── assets/        # General assets
│   ├── models/        # 3D models (GLTF)
│   ├── textures/      # Texture files
│   └── audio/         # Sound files
├── src/               # Source code
│   ├── components/    # A-Frame components
│   ├── utils/         # Utility functions
│   └── styles/        # CSS styles
├── docs/              # Documentation
├── package.json       # Project configuration
└── vercel.json        # Vercel deployment config
```

## 🚀 Quick Start

1. **Clone the repository**
   ```bash
   git clone https://github.com/yourusername/aimlab-xr-wireless
   cd aimlab-xr-wireless
   ```

2. **Install dependencies** (optional, for development server)
   ```bash
   npm install
   ```

3. **Run development server**
   ```bash
   npm run dev
   ```

4. **Open in browser**
   Navigate to `http://localhost:3000`

## 📱 AR Mode

To experience AR mode:
1. Open on a WebXR-compatible device (e.g., Meta Quest, Android with ARCore)
2. Click \"Enter AR Mode\" button
3. Use hand gestures to interact with objects

## 🎮 Controls

- **Pinch**: Grab and move objects
- **Point**: Interact with buttons
- **Look**: Gaze-based cursor control (fallback)

## 🌐 Deployment

### Deploy to Vercel

[![Deploy with Vercel](https://vercel.com/button)](https://vercel.com/new/clone?repository-url=https://github.com/yourusername/aimlab-xr-wireless)

Or manually:

```bash
npm i -g vercel
vercel
```

## 🤝 Contributing

Contributions are welcome! Please feel free to submit a Pull Request.

## 📄 License

This project is licensed under the MIT License.

## 👨‍💻 Author

**Pi Ko**  
Email: [pi.ko@nyu.edu](mailto:pi.ko@nyu.edu)

## 🙏 Acknowledgments

- A-Frame community for the excellent WebXR framework
- WebXR samples for reference implementations
- NYU Abu Dhabi for campus tour example code
"

/-- The `docs/TECHNICAL.md` template written by `clean.py create_documentation`. -/
def techDoc : String := "# Technical Documentation - AIMLAB XR Wireless

## Architecture Overview

The application uses a component-based architecture built on A-Frame, which abstracts WebXR APIs for easier development.

## Key Components

### 1. AR Session Manager
- Handles WebXR session initialization
- Manages AR/VR mode transitions
- Controls passthrough visibility

### 2. Interactive Components
- **interactive-button**: Touch-enabled 3D buttons
- **pinchable**: Hand-tracking grab interactions
- **planet-system**: Animated celestial bodies
- **aimlab-title**: 3D title animation

## WebXR Features Used

- `immersive-ar`: AR session mode
- `hand-tracking`: Hand pose detection
- `dom-overlay`: UI overlay in AR
- `hit-test`: Surface detection (future feature)
- `anchors`: Persistent AR anchors (future feature)

## Performance Considerations

1. **Texture Optimization**: Use compressed textures for better performance
2. **Model Complexity**: Keep polygon counts reasonable
3. **Update Loops**: Minimize per-frame calculations

## Browser Compatibility

- Chrome 79+ (Android)
- Edge 79+ (Windows Mixed Reality)
- Firefox Reality
- Oculus Browser
- Safari (WebXR Viewer app)

## Security Considerations

- HTTPS required for WebXR
- Permissions needed: Camera, Motion sensors
- CORS headers configured for asset loading
"

/-- The `README.md` template written by `restructure_project.py create_documentation`. -/
def readmeContentR : String := "# AIMLAB Wireless XR

An interactive AR experience combining hand tracking with immersive augmented reality.

## 🚀 Features

- **Hand Tracking**: Natural hand gesture interactions
- **AR Passthrough**: See-through AR experience on compatible devices
- **Interactive Objects**: Pinchable and manipulable 3D objects
- **Planet System**: Animated solar system visualization
- **Control Panel**: Interactive UI elements in 3D space

## 🛠️ Technology Stack

- **A-Frame**: WebVR/AR framework
- **WebXR API**: Modern AR/VR web standard
- **Three.js**: 3D graphics (via A-Frame)

## 🚀 Quick Start

1. **Run development server**
   ```bash
   npm run dev
   ```

2. **Open in browser**
   Navigate to `http://localhost:3000`

## 📱 AR Mode

To experience AR mode:
1. Open on a WebXR-compatible device
2. Click \"Enter AR Mode\" button
3. Use hand gestures to interact with objects

## 🌐 Deployment

Deploy to Vercel:
```bash
npm i -g vercel
vercel
```

## 👨‍💻 Author

**Pi Ko**  
Email: [pi.ko@nyu.edu](mailto:pi.ko@nyu.edu)
"

/-! ## The steps of `ProjectRestructurer` -/

/-- The inner loop of `create_directory_structure`: make one subdirectory. -/
def mkdirSub (d : String) (s : FS) (sd : String) : Option FS :=
  FS.mkdir1 s [d, sd]

/-- One iteration of `create_directory_structure`: `mkdir` a main directory
and each of its subdirectories (`exist_ok=True`). -/
def mkdirTree (s : FS) (md : String × List String) : Option FS :=
  (FS.mkdir1 s [md.1]).bind (fun s₁ => md.2.foldlM (mkdirSub md.1) s₁)

/-- `create_directory_structure`: for each main directory of
`new_structure`, `mkdir(exist_ok=True)` it and each of its subdirectories. -/
def createDirectoryStructure (fs : FS) : Option FS :=
  newStructure.foldlM mkdirTree fs

/-- One iteration of the copy loops in `move_assets`: if
`srcdir/<name>` exists, `shutil.copy2` it to `destdir/<name>`;
otherwise skip silently. -/
def copyStep (srcdir destdir : FPath) (s : FS) (name : String) : Option FS :=
  if (FS.lookup s (srcdir ++ [name])).isSome then
    FS.copy2 s (srcdir ++ [name]) (destdir ++ [name])
  else some s

/-- The component-copy loop of `move_assets`: for each component name, if
`base/Campus-Tour-NYUAD-main/<name>` exists, `shutil.copy2` it to
`base/src/components/<name>`. -/
def copyComps (fs : FS) : Option FS :=
  aframeComponents.foldlM (copyStep ["Campus-Tour-NYUAD-main"] ["src", "components"]) fs

/-- The utility-copy loop of `move_assets`: when
`base/webxr-samples-main/js` exists, for each utility name present there,
`shutil.copy2` it to `base/src/utils/<name>`. -/
def copyUtils (fs : FS) : Option FS :=
  if (FS.lookup fs ["webxr-samples-main", "js"]).isSome then
    utilFiles.foldlM (copyStep ["webxr-samples-main", "js"] ["src", "utils"]) fs
  else some fs

/-- One iteration of the `rglob` loop in `_move_media_files`: make the
destination file's parent directories (`parents=True, exist_ok=True`) and
`shutil.copy2` the file, preserving the relative sub-path. -/
def copyMediaItem (pr : FPath × FPath) (s : FS) (item : FPath) : Option FS :=
  (FS.mkdirParents s (pr.2 ++ item.drop pr.1.length).dropLast).bind
    (fun s₁ => FS.copy2 s₁ item (pr.2 ++ item.drop pr.1.length))

/-- One `(src, dest)` pair of `_move_media_files`: if the legacy source
exists, copy every regular file found under it. -/
def moveMediaOne (s : FS) (pr : FPath × FPath) : Option FS :=
  if (FS.lookup s pr.1).isSome then
    (FS.filesUnder s pr.1).foldlM (copyMediaItem pr) s
  else some s

/-- `_move_media_files`: both legacy media directories in order. -/
def moveMediaFiles (fs : FS) : Option FS :=
  textureSources.foldlM moveMediaOne fs

/-- `move_assets`: components, then utilities, then media files. -/
def moveAssets (fs : FS) : Option FS :=
  (copyComps fs).bind (fun s => (copyUtils s).bind moveMediaFiles)

/-- `clean.py create_config_files`: write `package.json`, `vercel.json`
(via `json.dump(..., indent=2)`) and `.gitignore`. -/
def createConfigFiles (fs : FS) : Option FS :=
  (FS.writeFile fs ["package.json"] (JValue.dumps 0 packageJsonObj)).bind (fun s₁ =>
    (FS.writeFile s₁ ["vercel.json"] (JValue.dumps 0 vercelObj)).bind (fun s₂ =>
      FS.writeFile s₂ [".gitignore"] gitignoreContent))

/-- `restructure_project.py create_config_files`: write `package.json` and
`vercel.json` only (no `.gitignore`). -/
def createConfigFilesR (fs : FS) : Option FS :=
  (FS.writeFile fs ["package.json"] (JValue.dumps 0 packageJsonObj)).bind (fun s₁ =>
    FS.writeFile s₁ ["vercel.json"] (JValue.dumps 0 vercelObjR))

/-- `clean.py create_documentation`: write `README.md`, create `docs`
(`exist_ok=True`), write `docs/TECHNICAL.md`. -/
def createDocumentation (fs : FS) : Option FS :=
  (FS.writeFile fs ["README.md"] readmeContent).bind (fun s₁ =>
    (FS.mkdir1 s₁ ["docs"]).bind (fun s₂ =>
      FS.writeFile s₂ ["docs", "TECHNICAL.md"] techDoc))

/-- `restructure_project.py create_documentation`: write `README.md` only. -/
def createDocumentationR (fs : FS) : Option FS :=
  FS.writeFile fs ["README.md"] readmeContentR

/-- `clean.py cleanup_old_files`: checks each of `oldDirs` for existence
and prints a "would remove" notice; the `shutil.rmtree` call is commented
out in the source, so the step performs no filesystem mutation at all. -/
def cleanupOldFiles (fs : FS) : Option FS := some fs

/-- `clean.py create_index_html`: prints only, no filesystem mutation. -/
def createIndexHtml (fs : FS) : Option FS := some fs

/-- `clean.py run()`: the full ordered pipeline. -/
def cleanRun (fs : FS) : Option FS :=
  (createDirectoryStructure fs).bind (fun s₁ =>
    (moveAssets s₁).bind (fun s₂ =>
      (createConfigFiles s₂).bind (fun s₃ =>
        (createDocumentation s₃).bind (fun s₄ =>
          (createIndexHtml s₄).bind cleanupOldFiles))))

/-- `restructure_project.py run()`: the full ordered pipeline. -/
def restructureRun (fs : FS) : Option FS :=
  (createDirectoryStructure fs).bind (fun s₁ =>
    (moveAssets s₁).bind (fun s₂ =>
      (createConfigFilesR s₂).bind createDocumentationR))

/-! ## General machinery: folds over `Option`, write lists, chains -/

theorem foldlM_id {α : Type} (f : FS → α → Option FS) (b : FS) (l : List α)
    (h : ∀ a ∈ l, f b a = some b) : l.foldlM f b = some b := by
  induction l with
  | nil => rfl
  | cons a l ih =>
    rw [List.foldlM_cons, h a (List.mem_cons_self _ _)]
    exact ih (fun x hx => h x (List.mem_cons_of_mem _ hx))

theorem foldlM_split {α : Type} (f : FS → α → Option FS) (l : List α) (b r : FS) (a : α)
    (hmem : a ∈ l) (h : l.foldlM f b = some r) :
    ∃ l₁ l₂ s s', l = l₁ ++ a :: l₂ ∧ l₁.foldlM f b = some s ∧ f s a = some s' ∧
      l₂.foldlM f s' = some r := by
  induction l generalizing b with
  | nil => simp at hmem
  | cons c cs ih =>
    rw [List.foldlM_cons] at h
    obtain ⟨s₁, hs₁, hrest⟩ := Option.bind_eq_some.1 h
    rcases List.mem_cons.1 hmem with rfl | hmem'
    · exact ⟨[], cs, b, s₁, rfl, rfl, hs₁, hrest⟩
    · obtain ⟨l₁, l₂, s, s', heq, h1, h2, h3⟩ := ih s₁ hmem' hrest
      exact ⟨c :: l₁, l₂, s, s', by rw [heq]; rfl, by rw [List.foldlM_cons, hs₁]; exact h1, h2, h3⟩

theorem foldlM_writes {α : Type} (f : FS → α → Option FS) (K : α → FPath × Node → Prop)
    (hf : ∀ s s' a, f s a = some s' → ∃ ws, s' = FS.applySets s ws ∧ ∀ w ∈ ws, K a w) :
    ∀ (l : List α) (b r : FS), l.foldlM f b = some r →
      ∃ ws, r = FS.applySets b ws ∧ ∀ w ∈ ws, ∃ a ∈ l, K a w := by
  intro l
  induction l with
  | nil =>
    intro b r h
    have hbr : b = r := by simpa using h
    subst hbr
    exact ⟨[], rfl, by simp⟩
  | cons a l ih =>
    intro b r h
    rw [List.foldlM_cons] at h
    obtain ⟨s₁, hs₁, hrest⟩ := Option.bind_eq_some.1 h
    obtain ⟨ws₁, hw1, hk1⟩ := hf b s₁ a hs₁
    obtain ⟨ws₂, hw2, hk2⟩ := ih s₁ r hrest
    refine ⟨ws₁ ++ ws₂, ?_, ?_⟩
    · rw [FS.applySets_append, ← hw1, ← hw2]
    · intro w hw
      rcases List.mem_append.1 hw with h1 | h2
      · exact ⟨a, List.mem_cons_self _ _, hk1 w h1⟩
      · obtain ⟨x, hx, hkx⟩ := hk2 w h2
        exact ⟨x, List.mem_cons_of_mem _ hx, hkx⟩

theorem FS.dir_applySets (fs : FS) (ws : List (FPath × Node)) (p : FPath)
    (hd : FS.lookup fs p = some Node.dir)
    (h : ∀ w ∈ ws, w.1 = p → w.2 = Node.dir) :
    FS.lookup (FS.applySets fs ws) p = some Node.dir := by
  induction ws generalizing fs with
  | nil => exact hd
  | cons w ws ih =>
    rw [FS.applySets_cons]
    refine ih _ ?_ (fun x hx => h x (List.mem_cons_of_mem _ hx))
    rw [FS.lookup_set]
    by_cases hp : p = w.1
    · rw [if_pos hp, h w (List.mem_cons_self _ _) hp.symm]
    · rw [if_neg hp]; exact hd

theorem entryFile_of_not (src q : FPath) (n : Node) (h : ¬ (src <+: q ∧ q ≠ src)) :
    entryFile src (q, n) = none := by
  cases n with
  | dir => rfl
  | file c => simp [entryFile, h]

theorem FS.filesUnder_cons (e : FPath × Node) (rest : FS) (src : FPath) :
    FS.filesUnder (e :: rest) src =
      match entryFile src e with
      | none => FS.filesUnder rest src
      | some q => q :: FS.filesUnder rest src := by
  cases he : entryFile src e <;> simp [FS.filesUnder, List.filterMap_cons, he]

theorem FS.filesUnder_set (fs : FS) (p : FPath) (n : Node) (src : FPath)
    (h : ¬ (src <+: p ∧ p ≠ src)) :
    FS.filesUnder (FS.set fs p n) src = FS.filesUnder fs src := by
  induction fs with
  | nil =>
    show FS.filesUnder [(p, n)] src = FS.filesUnder [] src
    rw [FS.filesUnder_cons, entryFile_of_not _ _ _ h]
  | cons e rest ih =>
    by_cases he : e.1 = p
    · have hsetc : FS.set (e :: rest) p n = (p, n) :: rest := by
        simp [FS.set, he]
      rw [hsetc, FS.filesUnder_cons, entryFile_of_not _ _ _ h, FS.filesUnder_cons]
      have he2 : e = (p, e.2) := by cases e; simp_all
      rw [he2, entryFile_of_not _ _ _ h]
    · have hsetc : FS.set (e :: rest) p n = e :: FS.set rest p n := by
        simp [FS.set, he]
      rw [hsetc, FS.filesUnder_cons, FS.filesUnder_cons, ih]

theorem FS.filesUnder_applySets (fs : FS) (ws : List (FPath × Node)) (src : FPath)
    (h : ∀ w ∈ ws, ¬ (src <+: w.1 ∧ w.1 ≠ src)) :
    FS.filesUnder (FS.applySets fs ws) src = FS.filesUnder fs src := by
  induction ws generalizing fs with
  | nil => rfl
  | cons w ws ih =>
    rw [FS.applySets_cons, ih _ (fun x hx => h x (List.mem_cons_of_mem _ hx)),
      FS.filesUnder_set _ _ _ _ (h w (List.mem_cons_self _ _))]

theorem FS.lookup_mem (fs : FS) (p : FPath) (n : Node) (h : FS.lookup fs p = some n) :
    (p, n) ∈ fs := by
  induction fs with
  | nil => simp [FS.lookup] at h
  | cons e rest ih =>
    simp only [FS.lookup] at h
    by_cases he : e.1 = p
    · rw [if_pos he] at h
      have : e = (p, n) := by cases e; simp_all
      rw [← this]; exact List.mem_cons_self _ _
    · rw [if_neg he] at h
      exact List.mem_cons_of_mem _ (ih h)

theorem FS.mem_filesUnder (fs : FS) (src q : FPath) (b : String)
    (h : FS.lookup fs q = some (Node.file b)) (hpre : src <+: q) (hne : q ≠ src) :
    q ∈ FS.filesUnder fs src := by
  refine List.mem_filterMap.2 ⟨(q, Node.file b), FS.lookup_mem _ _ _ h, ?_⟩
  simp [entryFile, hpre, hne]

theorem FS.filesUnder_spec (fs : FS) (src q : FPath) (h : q ∈ FS.filesUnder fs src) :
    src <+: q ∧ q ≠ src := by
  obtain ⟨e, _, he⟩ := List.mem_filterMap.1 h
  obtain ⟨p, n⟩ := e
  cases n with
  | dir => simp [entryFile] at he
  | file c =>
    by_cases hc : src <+: p ∧ p ≠ src
    · have hpq : p = q := by simpa [entryFile, hc] using he
      subst hpq
      exact hc
    · simp [entryFile, hc] at he

theorem mem_buildChain (rest : List String) (base q : FPath) :
    q ∈ buildChain base rest ↔ ∃ t, t <+: rest ∧ q = base ++ t := by
  induction rest generalizing base with
  | nil =>
    simp only [buildChain, List.mem_singleton]
    constructor
    · rintro rfl; exact ⟨[], List.prefix_rfl, by simp⟩
    · rintro ⟨t, ht, rfl⟩
      have : t = [] := List.prefix_nil.1 ht
      simp [this]
  | cons c cs ih =>
    simp only [buildChain, List.mem_cons, ih]
    constructor
    · rintro (rfl | ⟨t, ht, rfl⟩)
      · exact ⟨[], ⟨c :: cs, rfl⟩, by simp⟩
      · exact ⟨c :: t, List.cons_prefix_cons.2 ⟨rfl, ht⟩, by simp⟩
    · rintro ⟨t, ht, rfl⟩
      cases t with
      | nil => exact Or.inl (by simp)
      | cons c' t' =>
        obtain ⟨rfl, ht'⟩ := List.cons_prefix_cons.1 ht
        exact Or.inr ⟨t', ht', by simp⟩

theorem mem_buildChain_nil (p q : FPath) : q ∈ buildChain [] p ↔ q <+: p := by
  rw [mem_buildChain]
  constructor
  · rintro ⟨t, ht, rfl⟩; simpa using ht
  · intro h; exact ⟨q, h, by simp⟩

theorem prefix_of_mem_chain_dropLast (l q : FPath) (hl : l ≠ [])
    (h : q ∈ buildChain [] l.dropLast) : q <+: l ∧ q ≠ l := by
  rw [mem_buildChain_nil] at h
  have hq : q <+: l := h.trans (List.dropLast_prefix l)
  refine ⟨hq, ?_⟩
  intro hfalse
  have h1 := h.length_le
  have h2 : l.dropLast.length = l.length - 1 := by simp
  rw [h2] at h1
  have h3 : q.length = l.length := by rw [hfalse]
  have h4 : 0 < l.length := List.length_pos.2 hl
  omega

theorem mem_chain_dropLast_of_proper (l q : FPath) (hq : q <+: l) (hne : q ≠ l) :
    q ∈ buildChain [] l.dropLast := by
  rw [mem_buildChain_nil]
  obtain ⟨t, rfl⟩ := hq
  cases t with
  | nil => simp at hne
  | cons a as =>
    rw [List.dropLast_append_of_ne_nil _ (by simp)]
    exact ⟨(a :: as).dropLast, rfl⟩

/-! ## Lemmas about the atomic filesystem operations -/

theorem FS.mkDirAt_cases (fs fs₂ : FS) (p : FPath) (h : FS.mkDirAt fs p = some fs₂) :
    (FS.lookup fs p = some Node.dir ∧ fs₂ = fs) ∨
    (FS.lookup fs p = none ∧ fs₂ = FS.set fs p Node.dir) := by
  unfold FS.mkDirAt at h
  cases hl : FS.lookup fs p with
  | none =>
    rw [hl] at h
    exact Or.inr ⟨rfl, by simpa using h.symm⟩
  | some n =>
    cases n with
    | dir =>
      rw [hl] at h
      exact Or.inl ⟨rfl, by simpa using h.symm⟩
    | file c =>
      rw [hl] at h
      simp at h

theorem FS.mkDirAt_writes (fs fs₂ : FS) (p : FPath) (h : FS.mkDirAt fs p = some fs₂) :
    ∃ ws, fs₂ = FS.applySets fs ws ∧ ∀ w ∈ ws, w = (p, Node.dir) := by
  rcases FS.mkDirAt_cases fs fs₂ p h with ⟨_, rfl⟩ | ⟨_, rfl⟩
  · exact ⟨[], rfl, by simp⟩
  · exact ⟨[(p, Node.dir)], rfl, by simp⟩

theorem FS.mkDirAt_post (fs fs₂ : FS) (p : FPath) (h : FS.mkDirAt fs p = some fs₂) :
    FS.lookup fs₂ p = some Node.dir := by
  rcases FS.mkDirAt_cases fs fs₂ p h with ⟨hl, rfl⟩ | ⟨_, rfl⟩
  · exact hl
  · rw [FS.lookup_set]; simp

theorem FS.mkDirAt_noop (fs : FS) (p : FPath) (h : FS.lookup fs p = some Node.dir) :
    FS.mkDirAt fs p = some fs := by
  unfold FS.mkDirAt
  rw [h]

theorem FS.mkDirAt_dirMono (fs fs₂ : FS) (p q : FPath) (h : FS.mkDirAt fs p = some fs₂)
    (hq : FS.lookup fs q = some Node.dir) : FS.lookup fs₂ q = some Node.dir := by
  rcases FS.mkDirAt_cases fs fs₂ p h with ⟨_, rfl⟩ | ⟨_, rfl⟩
  · exact hq
  · rw [FS.lookup_set]
    by_cases hqp : q = p
    · simp [hqp]
    · rw [if_neg hqp]; exact hq

theorem FS.mkdir1_cases (fs fs₂ : FS) (p : FPath) (h : FS.mkdir1 fs p = some fs₂) :
    (FS.lookup fs p = some Node.dir ∧ fs₂ = fs) ∨
    (FS.lookup fs p = none ∧ FS.lookup fs p.dropLast = some Node.dir ∧
      fs₂ = FS.set fs p Node.dir) := by
  unfold FS.mkdir1 at h
  cases hl : FS.lookup fs p with
  | none =>
    rw [hl] at h
    by_cases hpar : FS.lookup fs p.dropLast = some Node.dir
    · rw [if_pos hpar] at h
      exact Or.inr ⟨rfl, hpar, by simpa using h.symm⟩
    · rw [if_neg hpar] at h
      simp at h
  | some n =>
    cases n with
    | dir =>
      rw [hl] at h
      exact Or.inl ⟨rfl, by simpa using h.symm⟩
    | file c =>
      rw [hl] at h
      simp at h

theorem FS.mkdir1_writes (fs fs₂ : FS) (p : FPath) (h : FS.mkdir1 fs p = some fs₂) :
    ∃ ws, fs₂ = FS.applySets fs ws ∧ ∀ w ∈ ws, w = (p, Node.dir) := by
  rcases FS.mkdir1_cases fs fs₂ p h with ⟨_, rfl⟩ | ⟨_, _, rfl⟩
  · exact ⟨[], rfl, by simp⟩
  · exact ⟨[(p, Node.dir)], rfl, by simp⟩

theorem FS.mkdir1_post (fs fs₂ : FS) (p : FPath) (h : FS.mkdir1 fs p = some fs₂) :
    FS.lookup fs₂ p = some Node.dir := by
  rcases FS.mkdir1_cases fs fs₂ p h with ⟨hl, rfl⟩ | ⟨_, _, rfl⟩
  · exact hl
  · rw [FS.lookup_set]; simp

theorem FS.mkdir1_noop (fs : FS) (p : FPath) (h : FS.lookup fs p = some Node.dir) :
    FS.mkdir1 fs p = some fs := by
  unfold FS.mkdir1
  rw [h]

theorem FS.mkdir1_dirMono (fs fs₂ : FS) (p q : FPath) (h : FS.mkdir1 fs p = some fs₂)
    (hq : FS.lookup fs q = some Node.dir) : FS.lookup fs₂ q = some Node.dir := by
  rcases FS.mkdir1_cases fs fs₂ p h with ⟨_, rfl⟩ | ⟨_, _, rfl⟩
  · exact hq
  · rw [FS.lookup_set]
    by_cases hqp : q = p
    · simp [hqp]
    · rw [if_neg hqp]; exact hq

theorem FS.writeFile_success (fs fs₂ : FS) (p : FPath) (c : String)
    (h : FS.writeFile fs p c = some fs₂) :
    FS.lookup fs p ≠ some Node.dir ∧ FS.lookup fs p.dropLast = some Node.dir ∧
      fs₂ = FS.set fs p (Node.file c) := by
  unfold FS.writeFile at h
  cases hl : FS.lookup fs p with
  | none =>
    rw [hl] at h
    by_cases hpar : FS.lookup fs p.dropLast = some Node.dir
    · rw [if_pos hpar] at h
      exact ⟨by simp, hpar, by simpa using h.symm⟩
    · rw [if_neg hpar] at h; simp at h
  | some n =>
    cases n with
    | dir => rw [hl] at h; simp at h
    | file b =>
      rw [hl] at h
      by_cases hpar : FS.lookup fs p.dropLast = some Node.dir
      · rw [if_pos hpar] at h
        exact ⟨by simp [hl], hpar, by simpa using h.symm⟩
      · rw [if_neg hpar] at h; simp at h

theorem FS.writeFile_post (fs fs₂ : FS) (p : FPath) (c : String)
    (h : FS.writeFile fs p c = some fs₂) :
    FS.lookup fs₂ p = some (Node.file c) ∧ ∀ q, q ≠ p → FS.lookup fs₂ q = FS.lookup fs q := by
  obtain ⟨_, _, rfl⟩ := FS.writeFile_success fs fs₂ p c h
  constructor
  · rw [FS.lookup_set]; simp
  · intro q hq
    rw [FS.lookup_set, if_neg hq]

theorem FS.writeFile_writes (fs fs₂ : FS) (p : FPath) (c : String)
    (h : FS.writeFile fs p c = some fs₂) :
    ∃ ws, fs₂ = FS.applySets fs ws ∧ ∀ w ∈ ws, w = (p, Node.file c) := by
  obtain ⟨_, _, rfl⟩ := FS.writeFile_success fs fs₂ p c h
  exact ⟨[(p, Node.file c)], rfl, by simp⟩

theorem FS.writeFile_noop (fs : FS) (p : FPath) (c : String)
    (h1 : FS.lookup fs p = some (Node.file c))
    (h2 : FS.lookup fs p.dropLast = some Node.dir) :
    FS.writeFile fs p c = some fs := by
  unfold FS.writeFile
  rw [h1, if_pos h2, FS.set_self fs p (Node.file c) h1]

theorem FS.writeFile_dirMono (fs fs₂ : FS) (p q : FPath) (c : String)
    (h : FS.writeFile fs p c = some fs₂)
    (hq : FS.lookup fs q = some Node.dir) : FS.lookup fs₂ q = some Node.dir := by
  obtain ⟨hnd, _, rfl⟩ := FS.writeFile_success fs fs₂ p c h
  rw [FS.lookup_set]
  by_cases hqp : q = p
  · exact absurd (hqp ▸ hq) hnd
  · rw [if_neg hqp]; exact hq

theorem FS.copy2_success (fs fs₂ : FS) (src dest : FPath) (h : FS.copy2 fs src dest = some fs₂) :
    ∃ b, FS.lookup fs src = some (Node.file b) ∧
      ((FS.lookup fs dest ≠ some Node.dir ∧ FS.writeFile fs dest b = some fs₂) ∨
       (FS.lookup fs dest = some Node.dir ∧
         FS.writeFile fs (dest ++ [src.getLastD ""]) b = some fs₂)) := by
  unfold FS.copy2 at h
  cases hl : FS.lookup fs src with
  | none => rw [hl] at h; simp at h
  | some n =>
    cases n with
    | dir => rw [hl] at h; simp at h
    | file b =>
      rw [hl] at h
      refine ⟨b, rfl, ?_⟩
      cases hd : FS.lookup fs dest with
      | none =>
        rw [hd] at h
        exact Or.inl ⟨by simp, h⟩
      | some m =>
        cases m with
        | dir =>
          rw [hd] at h
          exact Or.inr ⟨rfl, h⟩
        | file b' =>
          rw [hd] at h
          exact Or.inl ⟨by simp [hd], h⟩

theorem FS.copy2_dirMono (fs fs₂ : FS) (src dest q : FPath) (h : FS.copy2 fs src dest = some fs₂)
    (hq : FS.lookup fs q = some Node.dir) : FS.lookup fs₂ q = some Node.dir := by
  obtain ⟨b, _, hcase⟩ := FS.copy2_success fs fs₂ src dest h
  rcases hcase with ⟨_, hw⟩ | ⟨_, hw⟩
  · exact FS.writeFile_dirMono _ _ _ _ _ hw hq
  · exact FS.writeFile_dirMono _ _ _ _ _ hw hq

theorem FS.mpf_writes (rest : List String) (base : FPath) (fs fs₂ : FS)
    (h : FS.mkdirParentsFrom fs base rest = some fs₂) :
    ∃ ws, fs₂ = FS.applySets fs ws ∧
      ∀ w ∈ ws, w.2 = Node.dir ∧ w.1 ∈ buildChain base rest := by
  induction rest generalizing base fs with
  | nil =>
    obtain ⟨ws, hw, hk⟩ := FS.mkDirAt_writes fs fs₂ base h
    exact ⟨ws, hw, fun w hww => by
      rw [hk w hww]
      exact ⟨rfl, by simp [buildChain]⟩⟩
  | cons c cs ih =>
    unfold FS.mkdirParentsFrom at h
    cases hm : FS.mkDirAt fs base with
    | none => rw [hm] at h; simp at h
    | some fs₁ =>
      rw [hm] at h
      obtain ⟨ws₁, hw1, hk1⟩ := FS.mkDirAt_writes fs fs₁ base hm
      obtain ⟨ws₂, hw2, hk2⟩ := ih (base ++ [c]) fs₁ h
      refine ⟨ws₁ ++ ws₂, by rw [FS.applySets_append, ← hw1, ← hw2], ?_⟩
      intro w hw
      rcases List.mem_append.1 hw with h1 | h2
      · rw [hk1 w h1]
        exact ⟨rfl, by simp [buildChain]⟩
      · obtain ⟨hv, hkk⟩ := hk2 w h2
        exact ⟨hv, by simp [buildChain, hkk]⟩

theorem FS.mpf_post : ∀ (rest : List String) (base : FPath) (fs fs₂ : FS),
    FS.mkdirParentsFrom fs base rest = some fs₂ →
    ∀ q ∈ buildChain base rest, FS.lookup fs₂ q = some Node.dir := by
  intro rest
  induction rest with
  | nil =>
    intro base fs fs₂ h q hq
    simp only [buildChain, List.mem_singleton] at hq
    subst hq
    exact FS.mkDirAt_post fs fs₂ q h
  | cons c cs ih =>
    intro base fs fs₂ h q hq
    unfold FS.mkdirParentsFrom at h
    cases hm : FS.mkDirAt fs base with
    | none => rw [hm] at h; simp at h
    | some fs₁ =>
      rw [hm] at h
      simp only [buildChain, List.mem_cons] at hq
      rcases hq with rfl | hq'
      · obtain ⟨ws, hw, hk⟩ := FS.mpf_writes cs (q ++ [c]) fs₁ fs₂ h
        rw [hw]
        exact FS.dir_applySets _ _ _ (FS.mkDirAt_post fs fs₁ q hm)
          (fun w hww _ => (hk w hww).1)
      · exact ih (base ++ [c]) fs₁ fs₂ h q hq'

theorem FS.mpf_noop (rest : List String) (base : FPath) (fs : FS)
    (h : ∀ q ∈ buildChain base rest, FS.lookup fs q = some Node.dir) :
    FS.mkdirParentsFrom fs base rest = some fs := by
  induction rest generalizing base with
  | nil =>
    exact FS.mkDirAt_noop fs base (h base (by simp [buildChain]))
  | cons c cs ih =>
    unfold FS.mkdirParentsFrom
    rw [FS.mkDirAt_noop fs base (h base (by simp [buildChain]))]
    exact ih (base ++ [c]) (fun q hq => h q (by simp [buildChain, hq]))

theorem FS.mpf_dirMono (rest : List String) (base : FPath) (fs fs₂ : FS) (q : FPath)
    (h : FS.mkdirParentsFrom fs base rest = some fs₂)
    (hq : FS.lookup fs q = some Node.dir) : FS.lookup fs₂ q = some Node.dir := by
  obtain ⟨ws, hw, hk⟩ := FS.mpf_writes rest base fs fs₂ h
  rw [hw]
  exact FS.dir_applySets _ _ _ hq (fun w hww _ => (hk w hww).1)

/-! ## Lemmas about the copy loops -/

theorem FS.lookup_applySets_mem (fs : FS) (ws : List (FPath × Node)) (p : FPath) :
    FS.lookup (FS.applySets fs ws) p = FS.lookup fs p ∨
      ∃ w ∈ ws, w.1 = p ∧ FS.lookup (FS.applySets fs ws) p = some w.2 := by
  induction ws generalizing fs with
  | nil => exact Or.inl rfl
  | cons w ws ih =>
    rw [FS.applySets_cons]
    rcases ih (FS.set fs w.1 w.2) with h | ⟨x, hx, hk, hv⟩
    · rw [h, FS.lookup_set]
      by_cases hp : p = w.1
      · exact Or.inr ⟨w, List.mem_cons_self _ _, hp.symm, by rw [if_pos hp]⟩
      · rw [if_neg hp]
        exact Or.inl rfl
    · exact Or.inr ⟨x, List.mem_cons_of_mem _ hx, hk, hv⟩

theorem foldlM_dirMono {α : Type} (f : FS → α → Option FS)
    (hf : ∀ s s' a q, f s a = some s' →
      FS.lookup s q = some Node.dir → FS.lookup s' q = some Node.dir)
    (l : List α) (b r : FS) (q : FPath) (h : l.foldlM f b = some r)
    (hq : FS.lookup b q = some Node.dir) : FS.lookup r q = some Node.dir := by
  induction l generalizing b with
  | nil =>
    have : b = r := by simpa using h
    exact this ▸ hq
  | cons a l ih =>
    rw [List.foldlM_cons] at h
    obtain ⟨s₁, hs₁, hrest⟩ := Option.bind_eq_some.1 h
    exact ih s₁ hrest (hf b s₁ a q hs₁ hq)

theorem copyStep_step_writes (srcdir destdir : FPath) (s s' : FS) (c : String)
    (h : copyStep srcdir destdir s c = some s') :
    ∃ ws, s' = FS.applySets s ws ∧ ∀ w ∈ ws,
      (∃ b, w.2 = Node.file b) ∧ (w.1 = destdir ++ [c] ∨ w.1 = destdir ++ [c, c]) := by
  unfold copyStep at h
  by_cases hg : (FS.lookup s (srcdir ++ [c])).isSome
  · rw [if_pos hg] at h
    obtain ⟨b, hsrc, hcase⟩ := FS.copy2_success s s' _ _ h
    rcases hcase with ⟨_, hw⟩ | ⟨_, hw⟩
    · obtain ⟨ws, hws, hk⟩ := FS.writeFile_writes _ _ _ _ hw
      refine ⟨ws, hws, fun w hww => ?_⟩
      rw [hk w hww]
      exact ⟨⟨b, rfl⟩, Or.inl rfl⟩
    · obtain ⟨ws, hws, hk⟩ := FS.writeFile_writes _ _ _ _ hw
      refine ⟨ws, hws, fun w hww => ?_⟩
      rw [hk w hww]
      refine ⟨⟨b, rfl⟩, Or.inr ?_⟩
      rw [List.getLastD_concat, List.append_assoc]
      rfl
  · rw [if_neg hg] at h
    have : s = s' := by simpa using h
    subst this
    exact ⟨[], rfl, by simp⟩

theorem copyStep_dirMono (srcdir destdir : FPath) (s s' : FS) (c : String) (q : FPath)
    (h : copyStep srcdir destdir s c = some s')
    (hq : FS.lookup s q = some Node.dir) : FS.lookup s' q = some Node.dir := by
  unfold copyStep at h
  by_cases hg : (FS.lookup s (srcdir ++ [c])).isSome
  · rw [if_pos hg] at h
    exact FS.copy2_dirMono _ _ _ _ _ h hq
  · rw [if_neg hg] at h
    have : s = s' := by simpa using h
    exact this ▸ hq

theorem copyFold_writes (srcdir destdir : FPath) (l : List String) (fs fs₂ : FS)
    (h : l.foldlM (copyStep srcdir destdir) fs = some fs₂) :
    ∃ ws, fs₂ = FS.applySets fs ws ∧ ∀ w ∈ ws, ∃ c ∈ l,
      (∃ b, w.2 = Node.file b) ∧ (w.1 = destdir ++ [c] ∨ w.1 = destdir ++ [c, c]) := by
  exact foldlM_writes (copyStep srcdir destdir)
    (fun c w => (∃ b, w.2 = Node.file b) ∧ (w.1 = destdir ++ [c] ∨ w.1 = destdir ++ [c, c]))
    (fun s s' c hs => copyStep_step_writes srcdir destdir s s' c hs) l fs fs₂ h

theorem copyStep_lookup_frame (srcdir destdir : FPath) (s s' : FS) (c : String) (q : FPath)
    (h : copyStep srcdir destdir s c = some s')
    (hq1 : q ≠ destdir ++ [c]) (hq2 : q ≠ destdir ++ [c, c]) :
    FS.lookup s' q = FS.lookup s q := by
  obtain ⟨ws, rfl, hk⟩ := copyStep_step_writes srcdir destdir s s' c h
  refine FS.lookup_applySets_of_notkey s ws q (fun w hw => ?_)
  rcases (hk w hw).2 with h1 | h1
  · rw [h1]; exact fun hh => hq1 hh.symm
  · rw [h1]; exact fun hh => hq2 hh.symm

theorem copyStep_file_or_same (srcdir destdir : FPath) (s s' : FS) (c : String) (q : FPath)
    (h : copyStep srcdir destdir s c = some s') :
    FS.lookup s' q = FS.lookup s q ∨ ∃ b, FS.lookup s' q = some (Node.file b) := by
  obtain ⟨ws, rfl, hk⟩ := copyStep_step_writes srcdir destdir s s' c h
  rcases FS.lookup_applySets_mem s ws q with h1 | ⟨w, hw, _, hv⟩
  · exact Or.inl h1
  · obtain ⟨b, hb⟩ := (hk w hw).1
    exact Or.inr ⟨b, by rw [hv, hb]⟩

theorem copyFold_src_ok (srcdir destdir : FPath) (l : List String) (fs fs₂ : FS) (name : String)
    (hne : ∀ (n : String) (m : FPath), m ≠ [] → srcdir ++ [n] ≠ destdir ++ m)
    (h : l.foldlM (copyStep srcdir destdir) fs = some fs₂) (hmem : name ∈ l) :
    FS.lookup fs (srcdir ++ [name]) = none ∨
      ∃ b, FS.lookup fs (srcdir ++ [name]) = some (Node.file b) := by
  obtain ⟨l₁, l₂, s, s', _, h1, h2, _⟩ := foldlM_split _ l fs fs₂ name hmem h
  obtain ⟨ws, rfl, hk⟩ := copyFold_writes srcdir destdir l₁ fs s h1
  have hfr : FS.lookup (FS.applySets fs ws) (srcdir ++ [name]) =
      FS.lookup fs (srcdir ++ [name]) := by
    refine FS.lookup_applySets_of_notkey fs ws _ (fun w hw => ?_)
    obtain ⟨c, _, _, hkey⟩ := hk w hw
    rcases hkey with h4 | h4 <;> rw [h4] <;>
      exact fun heq2 => hne name _ (by simp) heq2.symm
  unfold copyStep at h2
  by_cases hg : (FS.lookup (FS.applySets fs ws) (srcdir ++ [name])).isSome
  · rw [if_pos hg] at h2
    obtain ⟨b, hsrc, _⟩ := FS.copy2_success _ _ _ _ h2
    right
    exact ⟨b, by rw [← hfr]; exact hsrc⟩
  · rw [if_neg hg] at h2
    left
    rw [← hfr]
    exact Option.not_isSome_iff_eq_none.1 hg

theorem copyFold_absent (srcdir destdir : FPath) (l : List String) (fs fs₂ : FS) (name : String)
    (hne : ∀ (n : String) (m : FPath), m ≠ [] → srcdir ++ [n] ≠ destdir ++ m)
    (h : l.foldlM (copyStep srcdir destdir) fs = some fs₂) (hmem : name ∈ l)
    (hsrc : FS.lookup fs (srcdir ++ [name]) = none) :
    FS.lookup fs₂ (destdir ++ [name]) = FS.lookup fs (destdir ++ [name]) := by
  induction l generalizing fs with
  | nil => simp at hmem
  | cons c cs ih =>
    rw [List.foldlM_cons] at h
    obtain ⟨s₁, hs₁, hrest⟩ := Option.bind_eq_some.1 h
    have hsfr : FS.lookup s₁ (srcdir ++ [name]) = FS.lookup fs (srcdir ++ [name]) :=
      copyStep_lookup_frame srcdir destdir fs s₁ c _ hs₁
        (hne name [c] (by simp)) (hne name [c, c] (by simp))
    by_cases hcn : name ∈ cs
    · have hstep_dest : FS.lookup s₁ (destdir ++ [name]) = FS.lookup fs (destdir ++ [name]) := by
        by_cases hcname : c = name
        · subst hcname
          unfold copyStep at hs₁
          rw [if_neg (by rw [hsrc]; simp)] at hs₁
          have : fs = s₁ := by simpa using hs₁
          rw [← this]
        · refine copyStep_lookup_frame srcdir destdir fs s₁ c _ hs₁ ?_ ?_
          · intro heq
            have hnc : name = c := by simpa using List.append_cancel_left heq
            exact hcname hnc.symm
          · intro heq
            have := List.append_cancel_left heq
            simp at this
      rw [← hstep_dest]
      exact ih s₁ hrest hcn (by rw [hsfr]; exact hsrc)
    · have hcn2 : c = name := by
        rcases List.mem_cons.1 hmem with h4 | h4
        · exact h4.symm
        · exact absurd h4 hcn
      subst hcn2
      unfold copyStep at hs₁
      rw [if_neg (by rw [hsrc]; simp)] at hs₁
      have hfs : fs = s₁ := by simpa using hs₁
      subst hfs
      obtain ⟨ws, rfl, hk⟩ := copyFold_writes srcdir destdir cs fs fs₂ hrest
      refine FS.lookup_applySets_of_notkey fs ws _ (fun w hw => ?_)
      obtain ⟨c', hc', _, hkey⟩ := hk w hw
      rcases hkey with h4 | h4 <;> rw [h4] <;> intro heq
      · have hcc : c' = c := by simpa using List.append_cancel_left heq
        exact hcn (hcc ▸ hc')
      · have := List.append_cancel_left heq
        simp at this

theorem copyFold_pos (srcdir destdir : FPath) (l : List String) (fs fs₂ : FS)
    (name : String) (b : String)
    (hne : ∀ (n : String) (m : FPath), m ≠ [] → srcdir ++ [n] ≠ destdir ++ m)
    (h : l.foldlM (copyStep srcdir destdir) fs = some fs₂) (hmem : name ∈ l)
    (hsrc : FS.lookup fs (srcdir ++ [name]) = some (Node.file b)) :
    (FS.lookup fs (destdir ++ [name]) ≠ some Node.dir →
      FS.lookup fs₂ (destdir ++ [name]) = some (Node.file b)) ∧
    (FS.lookup fs (destdir ++ [name]) = some Node.dir →
      FS.lookup fs₂ (destdir ++ [name]) = some Node.dir ∧
      FS.lookup fs₂ (destdir ++ [name, name]) = some (Node.file b)) := by
  induction l generalizing fs with
  | nil => simp at hmem
  | cons c cs ih =>
    rw [List.foldlM_cons] at h
    obtain ⟨s₁, hs₁, hrest⟩ := Option.bind_eq_some.1 h
    have hsfr : FS.lookup s₁ (srcdir ++ [name]) = FS.lookup fs (srcdir ++ [name]) :=
      copyStep_lookup_frame srcdir destdir fs s₁ c _ hs₁
        (hne name [c] (by simp)) (hne name [c, c] (by simp))
    by_cases hcn : name ∈ cs
    · have ihr := ih s₁ hrest hcn (by rw [hsfr]; exact hsrc)
      constructor
      · intro hnd
        apply ihr.1
        rcases copyStep_file_or_same srcdir destdir fs s₁ c (destdir ++ [name]) hs₁ with
          h4 | ⟨b', h4⟩
        · rw [h4]; exact hnd
        · rw [h4]; simp
      · intro hd
        have hstep : FS.lookup s₁ (destdir ++ [name]) = some Node.dir := by
          by_cases hcname : c = name
          · subst hcname
            unfold copyStep at hs₁
            rw [if_pos (by rw [hsrc]; rfl)] at hs₁
            obtain ⟨b', hsrc', hcase⟩ := FS.copy2_success _ _ _ _ hs₁
            rcases hcase with ⟨hnd', _⟩ | ⟨_, hw⟩
            · exact absurd hd hnd'
            · obtain ⟨_, hfr2⟩ := FS.writeFile_post _ _ _ _ hw
              rw [hfr2 _ (by simp)]
              exact hd
          · rw [copyStep_lookup_frame srcdir destdir fs s₁ c _ hs₁ ?_ ?_]
            · exact hd
            · intro heq
              have hnc : name = c := by simpa using List.append_cancel_left heq
              exact hcname hnc.symm
            · intro heq
              have := List.append_cancel_left heq
              simp at this
        exact ihr.2 hstep
    · have hcn2 : c = name := by
        rcases List.mem_cons.1 hmem with h4 | h4
        · exact h4.symm
        · exact absurd h4 hcn
      subst hcn2
      unfold copyStep at hs₁
      rw [if_pos (by rw [hsrc]; rfl)] at hs₁
      obtain ⟨b', hsrc', hcase⟩ := FS.copy2_success _ _ _ _ hs₁
      have hbb : b' = b := by
        rw [hsrc] at hsrc'
        cases hsrc'
        rfl
      subst hbb
      have hframe1 : FS.lookup fs₂ (destdir ++ [c]) = FS.lookup s₁ (destdir ++ [c]) := by
        obtain ⟨ws, rfl, hk⟩ := copyFold_writes srcdir destdir cs s₁ fs₂ hrest
        refine FS.lookup_applySets_of_notkey s₁ ws _ (fun w hw => ?_)
        obtain ⟨c', hc', _, hkey⟩ := hk w hw
        rcases hkey with h4 | h4 <;> rw [h4] <;> intro heq
        · have hcc : c' = c := by simpa using List.append_cancel_left heq
          exact hcn (hcc ▸ hc')
        · have := List.append_cancel_left heq
          simp at this
      have hframe2 : FS.lookup fs₂ (destdir ++ [c, c]) = FS.lookup s₁ (destdir ++ [c, c]) := by
        obtain ⟨ws, rfl, hk⟩ := copyFold_writes srcdir destdir cs s₁ fs₂ hrest
        refine FS.lookup_applySets_of_notkey s₁ ws _ (fun w hw => ?_)
        obtain ⟨c', hc', _, hkey⟩ := hk w hw
        rcases hkey with h4 | h4 <;> rw [h4] <;> intro heq
        · have := List.append_cancel_left heq
          simp at this
        · have hcc : c' = c := by
            have := List.append_cancel_left heq
            simpa using this
          exact hcn (hcc ▸ hc')
      rcases hcase with ⟨hnd', hw⟩ | ⟨hdd, hw⟩
      · obtain ⟨hpost, _⟩ := FS.writeFile_post _ _ _ _ hw
        constructor
        · intro _
          rw [hframe1, hpost]
        · intro hd
          exact absurd hd hnd'
      · have hkey : (destdir ++ [c]) ++ [(srcdir ++ [c]).getLastD ""] = destdir ++ [c, c] := by
          rw [List.getLastD_concat]
          simp
        rw [hkey] at hw
        obtain ⟨hpost, hfr2⟩ := FS.writeFile_post _ _ _ _ hw
        constructor
        · intro hnd
          exact absurd hdd hnd
        · intro _
          constructor
          · rw [hframe1, hfr2 _ ?_]
            · exact hdd
            · intro heq
              have := List.append_cancel_left heq
              simp at this
          · rw [hframe2, hpost]

theorem copyStep_noop (srcdir destdir : FPath) (fs : FS) (name : String)
    (h : FS.lookup fs (srcdir ++ [name]) = none ∨
      ∃ b, FS.lookup fs (srcdir ++ [name]) = some (Node.file b) ∧
        ((FS.lookup fs destdir = some Node.dir ∧
            FS.lookup fs (destdir ++ [name]) = some (Node.file b)) ∨
         (FS.lookup fs (destdir ++ [name]) = some Node.dir ∧
           FS.lookup fs (destdir ++ [name, name]) = some (Node.file b)))) :
    copyStep srcdir destdir fs name = some fs := by
  unfold copyStep
  rcases h with h | ⟨b, hsrc, hcase⟩
  · rw [if_neg (by rw [h]; simp)]
  · rw [if_pos (by rw [hsrc]; rfl)]
    unfold FS.copy2
    rw [hsrc]
    rcases hcase with ⟨hpar, hdest⟩ | ⟨hdd, hred⟩
    · rw [hdest]
      show FS.writeFile fs (destdir ++ [name]) b = some fs
      refine FS.writeFile_noop _ _ _ hdest ?_
      rw [List.dropLast_concat]
      exact hpar
    · rw [hdd]
      show FS.writeFile fs ((destdir ++ [name]) ++ [(srcdir ++ [name]).getLastD ""]) b = some fs
      have hkey : (destdir ++ [name]) ++ [(srcdir ++ [name]).getLastD ""] =
          destdir ++ [name, name] := by
        rw [List.getLastD_concat]
        simp
      rw [hkey]
      refine FS.writeFile_noop _ _ _ hred ?_
      have hsplit : destdir ++ [name, name] = (destdir ++ [name]) ++ [name] := by simp
      rw [hsplit, List.dropLast_concat]
      exact hdd

/-! ## Lemmas about the media copy -/

/-- `PubKey k`: `k` is the base path or starts with `public` — the only
paths `_move_media_files` ever writes. -/
def PubKey (k : FPath) : Prop := k = [] ∨ ∃ t, k = "public" :: t

theorem pubKey_of_prefix (t : List String) (q : FPath) (h : q <+: "public" :: t) :
    PubKey q := by
  cases q with
  | nil => exact Or.inl rfl
  | cons a as =>
    obtain ⟨rfl, _⟩ := List.cons_prefix_cons.1 h
    exact Or.inr ⟨as, rfl⟩

theorem FS.mpf_filePres (rest : List String) (base : FPath) (fs fs₂ : FS) (k : FPath)
    (b : String) (h : FS.mkdirParentsFrom fs base rest = some fs₂)
    (hk : FS.lookup fs k = some (Node.file b)) :
    FS.lookup fs₂ k = some (Node.file b) := by
  induction rest generalizing base fs with
  | nil =>
    rcases FS.mkDirAt_cases fs fs₂ base h with ⟨_, rfl⟩ | ⟨hnone, rfl⟩
    · exact hk
    · rw [FS.lookup_set]
      by_cases hbk : k = base
      · rw [hbk, hnone] at hk; cases hk
      · rw [if_neg hbk]; exact hk
  | cons c cs ih =>
    unfold FS.mkdirParentsFrom at h
    cases hm : FS.mkDirAt fs base with
    | none => rw [hm] at h; simp at h
    | some fs₁ =>
      rw [hm] at h
      refine ih (base ++ [c]) fs₁ h ?_
      rcases FS.mkDirAt_cases fs fs₁ base hm with ⟨_, rfl⟩ | ⟨hnone, rfl⟩
      · exact hk
      · rw [FS.lookup_set]
        by_cases hbk : k = base
        · rw [hbk, hnone] at hk; cases hk
        · rw [if_neg hbk]; exact hk

theorem copyMediaItem_writes (pr : FPath × FPath) (s s' : FS) (item : FPath)
    (h : copyMediaItem pr s item = some s') :
    ∃ ws, s' = FS.applySets s ws ∧ ∀ w ∈ ws,
      (w.2 = Node.dir ∧ w.1 ∈ buildChain [] (pr.2 ++ item.drop pr.1.length).dropLast) ∨
      (∃ b, w.2 = Node.file b ∧
        (w.1 = pr.2 ++ item.drop pr.1.length ∨
         w.1 = (pr.2 ++ item.drop pr.1.length) ++ [item.getLastD ""])) := by
  unfold copyMediaItem FS.mkdirParents at h
  obtain ⟨s₁, hmk, hcp⟩ := Option.bind_eq_some.1 h
  obtain ⟨ws₁, hw1, hk1⟩ := FS.mpf_writes _ _ _ _ hmk
  obtain ⟨b, _, hcase⟩ := FS.copy2_success _ _ _ _ hcp
  have hw2 : ∃ ws₂, s' = FS.applySets s₁ ws₂ ∧ ∀ w ∈ ws₂,
      ∃ b', w.2 = Node.file b' ∧
        (w.1 = pr.2 ++ item.drop pr.1.length ∨
         w.1 = (pr.2 ++ item.drop pr.1.length) ++ [item.getLastD ""]) := by
    rcases hcase with ⟨_, hw⟩ | ⟨_, hw⟩
    · obtain ⟨ws₂, hws, hk⟩ := FS.writeFile_writes _ _ _ _ hw
      refine ⟨ws₂, hws, fun w hww => ?_⟩
      rw [hk w hww]
      exact ⟨b, rfl, Or.inl rfl⟩
    · obtain ⟨ws₂, hws, hk⟩ := FS.writeFile_writes _ _ _ _ hw
      refine ⟨ws₂, hws, fun w hww => ?_⟩
      rw [hk w hww]
      exact ⟨b, rfl, Or.inr rfl⟩
  obtain ⟨ws₂, hws2, hk2⟩ := hw2
  refine ⟨ws₁ ++ ws₂, by rw [FS.applySets_append, ← hw1, ← hws2], ?_⟩
  intro w hw
  rcases List.mem_append.1 hw with h1 | h2
  · exact Or.inl ⟨(hk1 w h1).1, (hk1 w h1).2⟩
  · obtain ⟨b', hv, hkk⟩ := hk2 w h2
    exact Or.inr ⟨b', hv, hkk⟩

theorem copyMediaItem_dirMono (pr : FPath × FPath) (s s' : FS) (item q : FPath)
    (h : copyMediaItem pr s item = some s')
    (hq : FS.lookup s q = some Node.dir) : FS.lookup s' q = some Node.dir := by
  unfold copyMediaItem FS.mkdirParents at h
  obtain ⟨s₁, hmk, hcp⟩ := Option.bind_eq_some.1 h
  exact FS.copy2_dirMono _ _ _ _ _ hcp (FS.mpf_dirMono _ _ _ _ _ hmk hq)

theorem copyMediaItem_filePres (pr : FPath × FPath) (s s' : FS) (item k : FPath) (b : String)
    (h : copyMediaItem pr s item = some s')
    (hk : FS.lookup s k = some (Node.file b))
    (h1 : k ≠ pr.2 ++ item.drop pr.1.length)
    (h2 : k ≠ (pr.2 ++ item.drop pr.1.length) ++ [item.getLastD ""]) :
    FS.lookup s' k = some (Node.file b) := by
  unfold copyMediaItem FS.mkdirParents at h
  obtain ⟨s₁, hmk, hcp⟩ := Option.bind_eq_some.1 h
  have hk1 : FS.lookup s₁ k = some (Node.file b) := FS.mpf_filePres _ _ _ _ _ _ hmk hk
  obtain ⟨b', _, hcase⟩ := FS.copy2_success _ _ _ _ hcp
  rcases hcase with ⟨_, hw⟩ | ⟨_, hw⟩
  · obtain ⟨_, hfr⟩ := FS.writeFile_post _ _ _ _ hw
    rw [hfr _ h1]
    exact hk1
  · obtain ⟨_, hfr⟩ := FS.writeFile_post _ _ _ _ hw
    rw [hfr _ h2]
    exact hk1

theorem itemsFold_writes (pr : FPath × FPath) (l : List FPath) (s s₂ : FS)
    (h : l.foldlM (copyMediaItem pr) s = some s₂) :
    ∃ ws, s₂ = FS.applySets s ws ∧ ∀ w ∈ ws, ∃ item ∈ l,
      (w.2 = Node.dir ∧ w.1 ∈ buildChain [] (pr.2 ++ item.drop pr.1.length).dropLast) ∨
      (∃ b, w.2 = Node.file b ∧
        (w.1 = pr.2 ++ item.drop pr.1.length ∨
         w.1 = (pr.2 ++ item.drop pr.1.length) ++ [item.getLastD ""])) := by
  exact foldlM_writes (copyMediaItem pr) _
    (fun s s' c hs => copyMediaItem_writes pr s s' c hs) l s s₂ h

theorem mediaKey_pub (pr : FPath × FPath) (t2 : List String) (hpr2 : pr.2 = "public" :: t2)
    (item : FPath) (w : FPath × Node)
    (hkey : (w.2 = Node.dir ∧
        w.1 ∈ buildChain [] (pr.2 ++ item.drop pr.1.length).dropLast) ∨
      (∃ b, w.2 = Node.file b ∧
        (w.1 = pr.2 ++ item.drop pr.1.length ∨
         w.1 = (pr.2 ++ item.drop pr.1.length) ++ [item.getLastD ""]))) :
    PubKey w.1 := by
  rcases hkey with ⟨_, hmem⟩ | ⟨b, _, hk⟩
  · have h := (mem_buildChain_nil _ _).1 hmem
    have h2 : w.1 <+: pr.2 ++ item.drop pr.1.length :=
      h.trans (List.dropLast_prefix _)
    rw [hpr2] at h2
    exact pubKey_of_prefix _ _ (by simpa using h2)
  · rcases hk with hk | hk <;> rw [hk, hpr2]
    · exact Or.inr ⟨t2 ++ item.drop pr.1.length, by simp⟩
    · exact Or.inr ⟨t2 ++ (item.drop pr.1.length ++ [item.getLastD ""]), by simp⟩

theorem pubKey_ne_cons (k : FPath) (hp : PubKey k) (h : String) (t : FPath)
    (hh : h ≠ "public") : k ≠ h :: t := by
  rcases hp with rfl | ⟨u, rfl⟩
  · simp
  · intro heq
    injection heq with h1 _
    exact hh h1.symm

theorem pubKey_not_strictly_under (k : FPath) (hp : PubKey k) (h : String) (t : FPath)
    (hh : h ≠ "public") : ¬ ((h :: t) <+: k ∧ k ≠ h :: t) := by
  rintro ⟨hpre, _⟩
  rcases hp with rfl | ⟨u, rfl⟩
  · have := List.prefix_nil.1 hpre
    simp at this
  · obtain ⟨heq, _⟩ := List.cons_prefix_cons.1 hpre
    exact hh heq

theorem head_of_prefix_cons (a : String) (t c : FPath) (h : (a :: t) <+: c) :
    ∃ c', c = a :: c' := by
  cases c with
  | nil =>
    have := List.prefix_nil.1 h
    simp at this
  | cons x xs =>
    obtain ⟨rfl, _⟩ := List.cons_prefix_cons.1 h
    exact ⟨xs, rfl⟩

theorem itemsFold_pub_frame (pr : FPath × FPath) (t2 : List String)
    (hpr2 : pr.2 = "public" :: t2) (l : List FPath) (s s₂ : FS)
    (h : l.foldlM (copyMediaItem pr) s = some s₂) (q : FPath) (hq : ¬ PubKey q) :
    FS.lookup s₂ q = FS.lookup s q := by
  obtain ⟨ws, rfl, hk⟩ := itemsFold_writes pr l s s₂ h
  refine FS.lookup_applySets_of_notkey s ws q (fun w hw => ?_)
  obtain ⟨item, _, hkey⟩ := hk w hw
  intro heq
  exact hq (heq ▸ mediaKey_pub pr t2 hpr2 item w hkey)

theorem itemsFold_src_files (pr : FPath × FPath) (t1 t2 : List String)
    (hpr1 : pr.1 = "webxr-samples-main" :: t1) (hpr2 : pr.2 = "public" :: t2)
    (l : List FPath) (s s₂ : FS)
    (hl : ∀ c ∈ l, pr.1 <+: c)
    (h : l.foldlM (copyMediaItem pr) s = some s₂) (c : FPath) (hmem : c ∈ l) :
    ∃ bc, FS.lookup s c = some (Node.file bc) := by
  obtain ⟨c', hc'⟩ := head_of_prefix_cons _ _ c (hpr1 ▸ hl c hmem)
  have hcnotpub : ¬ PubKey c := by
    intro hp
    exact pubKey_ne_cons c hp "webxr-samples-main" c' (by decide) hc'
  obtain ⟨l₁, l₂, si, si', _, h1, h2, _⟩ := foldlM_split _ l s s₂ c hmem h
  have hfr : FS.lookup si c = FS.lookup s c :=
    itemsFold_pub_frame pr t2 hpr2 l₁ s si h1 c hcnotpub
  unfold copyMediaItem FS.mkdirParents at h2
  obtain ⟨sm, hmk, hcp⟩ := Option.bind_eq_some.1 h2
  obtain ⟨bc, hsrc, _⟩ := FS.copy2_success _ _ _ _ hcp
  have hfr2 : FS.lookup sm c = FS.lookup si c := by
    obtain ⟨ws₁, rfl, hk1⟩ := FS.mpf_writes _ _ _ _ hmk
    refine FS.lookup_applySets_of_notkey si ws₁ c (fun w hw => ?_)
    intro heq
    refine hcnotpub (heq ▸ mediaKey_pub pr t2 hpr2 c w (Or.inl ⟨(hk1 w hw).1, ?_⟩))
    exact (hk1 w hw).2
  refine ⟨bc, ?_⟩
  rw [← hfr, ← hfr2]
  exact hsrc

theorem append_singleton_inj (a b : List String) (x y : String)
    (h : a ++ [x] = b ++ [y]) : a = b ∧ x = y := by
  have := List.append_inj' h (by simp)
  simpa using this

theorem prefix_ne_concat (k x : FPath) (y : String) (h : k <+: x) : k ≠ x ++ [y] := by
  intro heq
  have h1 := h.length_le
  rw [heq] at h1
  simp at h1

theorem mediaKeys_self (pr : FPath × FPath) (hp2 : pr.2 ≠ []) (item : FPath) :
    ∀ k ∈ buildChain [] (pr.2 ++ item.drop pr.1.length).dropLast,
      k ≠ pr.2 ++ item.drop pr.1.length ∧
      k ≠ (pr.2 ++ item.drop pr.1.length) ++ [item.getLastD ""] := by
  intro k hk
  have hne : pr.2 ++ item.drop pr.1.length ≠ [] := by
    intro he
    exact hp2 (List.append_eq_nil.1 he).1
  obtain ⟨hkpre, hkne⟩ := prefix_of_mem_chain_dropLast _ k hne hk
  exact ⟨hkne, prefix_ne_concat k _ _ hkpre⟩

theorem mediaKeys_disjoint (pr : FPath × FPath) (hp2 : pr.2 ≠ [])
    (item c : FPath) (hpre : pr.1 <+: item) (hprec : pr.1 <+: c)
    (hcne : c ≠ item)
    (hnoc1 : c <+: item → c = item) (hnoc2 : item <+: c → c = item) :
    (∀ k ∈ buildChain [] (pr.2 ++ c.drop pr.1.length).dropLast,
        k ≠ pr.2 ++ item.drop pr.1.length ∧
        k ≠ (pr.2 ++ item.drop pr.1.length) ++ [item.getLastD ""]) ∧
    (pr.2 ++ c.drop pr.1.length ≠ pr.2 ++ item.drop pr.1.length) ∧
    (pr.2 ++ c.drop pr.1.length ≠ (pr.2 ++ item.drop pr.1.length) ++ [item.getLastD ""]) ∧
    ((pr.2 ++ c.drop pr.1.length) ++ [c.getLastD ""] ≠ pr.2 ++ item.drop pr.1.length) ∧
    ((pr.2 ++ c.drop pr.1.length) ++ [c.getLastD ""] ≠
      (pr.2 ++ item.drop pr.1.length) ++ [item.getLastD ""]) := by
  obtain ⟨ri, hri⟩ := hpre
  obtain ⟨rc, hrc⟩ := hprec
  have hdi : item.drop pr.1.length = ri := by rw [← hri, List.drop_left]
  have hdc : c.drop pr.1.length = rc := by rw [← hrc, List.drop_left]
  have hrcri : rc ≠ ri := by
    intro he
    exact hcne (by rw [← hrc, ← hri, he])
  have hlift : ∀ u v : List String, (pr.1 ++ u <+: pr.1 ++ v) ↔ (u <+: v) :=
    fun u v => List.prefix_append_right_inj pr.1
  rw [hdi, hdc]
  refine ⟨?_, ?_, ?_, ?_, ?_⟩
  · intro k hk
    have hne : pr.2 ++ rc ≠ [] := by
      intro he
      exact hp2 (List.append_eq_nil.1 he).1
    obtain ⟨hkpre, hkne⟩ := prefix_of_mem_chain_dropLast _ k hne hk
    constructor
    · intro heq
      subst heq
      have h1 : pr.2 ++ ri <+: pr.2 ++ rc := hkpre
      have h2 : ri <+: rc := (List.prefix_append_right_inj pr.2).1 h1
      have h3 : item <+: c := by
        rw [← hri, ← hrc]
        exact (hlift ri rc).2 h2
      have := hnoc2 h3
      exact hcne this
    · intro heq
      subst heq
      have h1 : pr.2 ++ (ri ++ [item.getLastD ""]) <+: pr.2 ++ rc := by
        rw [← List.append_assoc]
        exact hkpre
      have h2 : ri ++ [item.getLastD ""] <+: rc := (List.prefix_append_right_inj pr.2).1 h1
      have h3 : ri <+: rc := (List.prefix_append _ _).trans h2
      have h4 : item <+: c := by
        rw [← hri, ← hrc]
        exact (hlift ri rc).2 h3
      have h5 := hnoc2 h4
      subst h5
      have h6 : rc = ri := by rw [← hdi, ← hdc]
      rw [h6] at h2
      have h7 := h2.length_le
      simp at h7
  · intro heq
    exact hrcri (List.append_cancel_left heq)
  · intro heq
    rw [List.append_assoc] at heq
    have h2 : rc = ri ++ [item.getLastD ""] := List.append_cancel_left heq
    have h3 : item <+: c := by
      rw [← hri, ← hrc, h2]
      exact (hlift ri (ri ++ [item.getLastD ""])).2 (List.prefix_append _ _)
    have h4 := hnoc2 h3
    subst h4
    have h6 : rc = ri := by rw [← hdi, ← hdc]
    rw [h6] at h2
    have : ri.length = ri.length + 1 := by
      conv_lhs => rw [h2]
      simp
    omega
  · intro heq
    have h2 : rc ++ [c.getLastD ""] = ri := by
      have h2a : pr.2 ++ (rc ++ [c.getLastD ""]) = pr.2 ++ ri := by
        rw [← List.append_assoc]
        exact heq
      exact List.append_cancel_left h2a
    have h3 : c <+: item := by
      rw [← hri, ← hrc, ← h2]
      exact (hlift rc (rc ++ [c.getLastD ""])).2 (List.prefix_append _ _)
    have h4 := hnoc1 h3
    subst h4
    have h6 : rc = ri := by rw [← hdi, ← hdc]
    rw [h6] at h2
    have hlen := congrArg List.length h2
    simp at hlen
  · intro heq
    obtain ⟨h2, _⟩ := append_singleton_inj _ _ _ _ heq
    exact hrcri (List.append_cancel_left h2)

theorem copyMediaItem_key_frame (pr : FPath × FPath) (s s₁ : FS) (c k : FPath)
    (h : copyMediaItem pr s c = some s₁)
    (h1 : ∀ q ∈ buildChain [] (pr.2 ++ c.drop pr.1.length).dropLast, q ≠ k)
    (h2 : pr.2 ++ c.drop pr.1.length ≠ k)
    (h3 : (pr.2 ++ c.drop pr.1.length) ++ [c.getLastD ""] ≠ k) :
    FS.lookup s₁ k = FS.lookup s k := by
  obtain ⟨ws, rfl, hk⟩ := copyMediaItem_writes pr s s₁ c h
  refine FS.lookup_applySets_of_notkey s ws k (fun w hw => ?_)
  rcases hk w hw with ⟨_, hmem⟩ | ⟨b, _, hkk⟩
  · exact h1 w.1 hmem
  · rcases hkk with h4 | h4 <;> rw [h4]
    · exact h2
    · exact h3

theorem copyMediaItem_pub_frame (pr : FPath × FPath) (t2 : List String)
    (hpr2 : pr.2 = "public" :: t2) (s s₁ : FS) (c q : FPath)
    (h : copyMediaItem pr s c = some s₁) (hq : ¬ PubKey q) :
    FS.lookup s₁ q = FS.lookup s q := by
  obtain ⟨ws, rfl, hk⟩ := copyMediaItem_writes pr s s₁ c h
  refine FS.lookup_applySets_of_notkey s ws q (fun w hw => ?_)
  intro heq
  exact hq (heq ▸ mediaKey_pub pr t2 hpr2 c w (hk w hw))

theorem itemsFold_key_frame (pr : FPath × FPath) (l : List FPath) (s s₂ : FS) (k : FPath)
    (h : l.foldlM (copyMediaItem pr) s = some s₂)
    (hk : ∀ c ∈ l,
      (∀ q ∈ buildChain [] (pr.2 ++ c.drop pr.1.length).dropLast, q ≠ k) ∧
      pr.2 ++ c.drop pr.1.length ≠ k ∧
      (pr.2 ++ c.drop pr.1.length) ++ [c.getLastD ""] ≠ k) :
    FS.lookup s₂ k = FS.lookup s k := by
  obtain ⟨ws, rfl, hkk⟩ := itemsFold_writes pr l s s₂ h
  refine FS.lookup_applySets_of_notkey s ws k (fun w hw => ?_)
  obtain ⟨c, hc, hkey⟩ := hkk w hw
  rcases hkey with ⟨_, hmem⟩ | ⟨b, _, hkkk⟩
  · exact (hk c hc).1 w.1 hmem
  · rcases hkkk with h4 | h4 <;> rw [h4]
    · exact (hk c hc).2.1
    · exact (hk c hc).2.2

theorem itemsFold_dirMono (pr : FPath × FPath) (l : List FPath) (s s₂ : FS) (q : FPath)
    (h : l.foldlM (copyMediaItem pr) s = some s₂)
    (hq : FS.lookup s q = some Node.dir) : FS.lookup s₂ q = some Node.dir :=
  foldlM_dirMono (copyMediaItem pr)
    (fun s s' a q' hs hq' => copyMediaItem_dirMono pr s s' a q' hs hq') l s s₂ q h hq

theorem itemsFold_pos (pr : FPath × FPath) (t1 t2 : List String)
    (hpr1 : pr.1 = "webxr-samples-main" :: t1) (hpr2 : pr.2 = "public" :: t2) :
    ∀ (l : List FPath) (s s₂ : FS),
    l.foldlM (copyMediaItem pr) s = some s₂ →
    ∀ (item : FPath) (b : String), item ∈ l →
    FS.lookup s item = some (Node.file b) →
    pr.1 <+: item → item ≠ pr.1 →
    (∀ c ∈ l, pr.1 <+: c ∧ c ≠ pr.1) →
    (∀ c ∈ l, (c <+: item → c = item) ∧ (item <+: c → c = item)) →
    (∀ q ∈ buildChain [] (pr.2 ++ item.drop pr.1.length).dropLast,
        FS.lookup s₂ q = some Node.dir) ∧
    (FS.lookup s (pr.2 ++ item.drop pr.1.length) ≠ some Node.dir →
      FS.lookup s₂ (pr.2 ++ item.drop pr.1.length) = some (Node.file b)) ∧
    (FS.lookup s (pr.2 ++ item.drop pr.1.length) = some Node.dir →
      FS.lookup s₂ (pr.2 ++ item.drop pr.1.length) = some Node.dir ∧
      FS.lookup s₂ ((pr.2 ++ item.drop pr.1.length) ++ [item.getLastD ""]) =
        some (Node.file b)) := by
  intro l
  induction l with
  | nil =>
    intro s s₂ h item b hmem
    simp at hmem
  | cons c cs ih =>
    intro s s₂ h item b hmem hitem hpre hneq hl hnochain
    rw [List.foldlM_cons] at h
    obtain ⟨s₁, hs₁, hrest⟩ := Option.bind_eq_some.1 h
    have hp2ne : pr.2 ≠ [] := by rw [hpr2]; simp
    obtain ⟨itail, hhead⟩ := head_of_prefix_cons _ _ item (hpr1 ▸ hpre)
    have hitem_notpub : ¬ PubKey item := fun hp =>
      pubKey_ne_cons item hp _ _ (by decide) hhead
    have hdest_ne_redir : pr.2 ++ item.drop pr.1.length ≠
        (pr.2 ++ item.drop pr.1.length) ++ [item.getLastD ""] :=
      prefix_ne_concat _ _ _ List.prefix_rfl
    by_cases hcs : item ∈ cs
    · have hitem1 : FS.lookup s₁ item = some (Node.file b) := by
        rw [copyMediaItem_pub_frame pr t2 hpr2 s s₁ c item hs₁ hitem_notpub]
        exact hitem
      have hl' : ∀ x ∈ cs, pr.1 <+: x ∧ x ≠ pr.1 :=
        fun x hx => hl x (List.mem_cons_of_mem _ hx)
      have hnochain' : ∀ x ∈ cs, (x <+: item → x = item) ∧ (item <+: x → x = item) :=
        fun x hx => hnochain x (List.mem_cons_of_mem _ hx)
      have ihr := ih s₁ s₂ hrest item b hcs hitem1 hpre hneq hl' hnochain'
      by_cases hceq : c = item
      · subst hceq
        unfold copyMediaItem FS.mkdirParents at hs₁
        obtain ⟨sm, hmk, hcp⟩ := Option.bind_eq_some.1 hs₁
        have hsm_item : FS.lookup sm c = some (Node.file b) := by
          obtain ⟨ws₁, hws, hk1⟩ := FS.mpf_writes _ _ _ _ hmk
          rw [hws]
          rw [FS.lookup_applySets_of_notkey _ _ _ (fun w hw => fun heq =>
            hitem_notpub (by
              rw [← heq]
              exact mediaKey_pub pr t2 hpr2 c w (Or.inl (hk1 w hw))))]
          exact hitem
        have hsm_dest : FS.lookup sm (pr.2 ++ c.drop pr.1.length) =
            FS.lookup s (pr.2 ++ c.drop pr.1.length) := by
          obtain ⟨ws₁, hws, hk1⟩ := FS.mpf_writes _ _ _ _ hmk
          rw [hws]
          refine FS.lookup_applySets_of_notkey _ _ _ (fun w hw => ?_)
          exact (mediaKeys_self pr hp2ne c w.1 ((hk1 w hw).2)).1
        obtain ⟨b', hsrc', hcase⟩ := FS.copy2_success _ _ _ _ hcp
        have hbb : b' = b := by
          rw [hsm_item] at hsrc'
          cases hsrc'
          rfl
        subst hbb
        rcases hcase with ⟨hnd, hw⟩ | ⟨hd, hw⟩
        · obtain ⟨hpost, _⟩ := FS.writeFile_post _ _ _ _ hw
          refine ⟨ihr.1, fun _ => ihr.2.1 (by rw [hpost]; simp), fun hdir => ?_⟩
          rw [← hsm_dest] at hdir
          exact absurd hdir hnd
        · have hkeyr : (pr.2 ++ c.drop pr.1.length) ++ [(c).getLastD ""] =
              (pr.2 ++ c.drop pr.1.length) ++ [c.getLastD ""] := rfl
          obtain ⟨hpost, hfr2⟩ := FS.writeFile_post _ _ _ _ hw
          have hs1_dest : FS.lookup s₁ (pr.2 ++ c.drop pr.1.length) = some Node.dir := by
            rw [hfr2 _ (fun heq => hdest_ne_redir heq)]
            exact hd
          refine ⟨ihr.1, fun hnd => ?_, fun _ => ihr.2.2 hs1_dest⟩
          rw [← hsm_dest] at hnd
          exact absurd hd hnd
      · have hdisj := mediaKeys_disjoint pr hp2ne item c hpre
          (hl c (List.mem_cons_self _ _)).1 hceq
          (hnochain c (List.mem_cons_self _ _)).1 (hnochain c (List.mem_cons_self _ _)).2
        have hfr_dest : FS.lookup s₁ (pr.2 ++ item.drop pr.1.length) =
            FS.lookup s (pr.2 ++ item.drop pr.1.length) :=
          copyMediaItem_key_frame pr s s₁ c _ hs₁
            (fun q hq => (hdisj.1 q hq).1) hdisj.2.1 hdisj.2.2.2.1
        refine ⟨ihr.1, fun hnd => ihr.2.1 (by rw [hfr_dest]; exact hnd),
          fun hd => ihr.2.2 (by rw [hfr_dest]; exact hd)⟩
    · have hceq : c = item := by
        rcases List.mem_cons.1 hmem with h4 | h4
        · exact h4.symm
        · exact absurd h4 hcs
      subst hceq
      unfold copyMediaItem FS.mkdirParents at hs₁
      obtain ⟨sm, hmk, hcp⟩ := Option.bind_eq_some.1 hs₁
      have hsm_item : FS.lookup sm c = some (Node.file b) := by
        obtain ⟨ws₁, hws, hk1⟩ := FS.mpf_writes _ _ _ _ hmk
        rw [hws]
        rw [FS.lookup_applySets_of_notkey _ _ _ (fun w hw => fun heq =>
          hitem_notpub (by
            rw [← heq]
            exact mediaKey_pub pr t2 hpr2 c w (Or.inl (hk1 w hw))))]
        exact hitem
      have hsm_dest : FS.lookup sm (pr.2 ++ c.drop pr.1.length) =
          FS.lookup s (pr.2 ++ c.drop pr.1.length) := by
        obtain ⟨ws₁, hws, hk1⟩ := FS.mpf_writes _ _ _ _ hmk
        rw [hws]
        refine FS.lookup_applySets_of_notkey _ _ _ (fun w hw => ?_)
        exact (mediaKeys_self pr hp2ne c w.1 ((hk1 w hw).2)).1
      have hchain_sm : ∀ q ∈ buildChain [] (pr.2 ++ c.drop pr.1.length).dropLast,
          FS.lookup sm q = some Node.dir := FS.mpf_post _ _ _ _ hmk
      obtain ⟨b', hsrc', hcase⟩ := FS.copy2_success _ _ _ _ hcp
      have hbb : b' = b := by
        rw [hsm_item] at hsrc'
        cases hsrc'
        rfl
      subst hbb
      have hdisjall : ∀ x ∈ cs,
          (∀ q ∈ buildChain [] (pr.2 ++ x.drop pr.1.length).dropLast,
            q ≠ pr.2 ++ c.drop pr.1.length ∧
            q ≠ (pr.2 ++ c.drop pr.1.length) ++ [c.getLastD ""]) ∧
          (pr.2 ++ x.drop pr.1.length ≠ pr.2 ++ c.drop pr.1.length) ∧
          (pr.2 ++ x.drop pr.1.length ≠ (pr.2 ++ c.drop pr.1.length) ++ [c.getLastD ""]) ∧
          ((pr.2 ++ x.drop pr.1.length) ++ [x.getLastD ""] ≠ pr.2 ++ c.drop pr.1.length) ∧
          ((pr.2 ++ x.drop pr.1.length) ++ [x.getLastD ""] ≠
            (pr.2 ++ c.drop pr.1.length) ++ [c.getLastD ""]) := by
        intro x hx
        have hxne : x ≠ c := fun he => hcs (he ▸ hx)
        exact mediaKeys_disjoint pr hp2ne c x hpre
          (hl x (List.mem_cons_of_mem _ hx)).1 hxne
          (fun hp => (hnochain x (List.mem_cons_of_mem _ hx)).1 hp)
          (fun hp => (hnochain x (List.mem_cons_of_mem _ hx)).2 hp)
      have hfr_dest_cs : FS.lookup s₂ (pr.2 ++ c.drop pr.1.length) =
          FS.lookup s₁ (pr.2 ++ c.drop pr.1.length) :=
        itemsFold_key_frame pr cs s₁ s₂ _ hrest (fun x hx =>
          ⟨fun q hq => (hdisjall x hx).1 q hq |>.1,
           (hdisjall x hx).2.1, (hdisjall x hx).2.2.2.1⟩)
      have hfr_redir_cs : FS.lookup s₂ ((pr.2 ++ c.drop pr.1.length) ++ [c.getLastD ""]) =
          FS.lookup s₁ ((pr.2 ++ c.drop pr.1.length) ++ [c.getLastD ""]) :=
        itemsFold_key_frame pr cs s₁ s₂ _ hrest (fun x hx =>
          ⟨fun q hq => (hdisjall x hx).1 q hq |>.2,
           (hdisjall x hx).2.2.1, (hdisjall x hx).2.2.2.2⟩)
      have hchain_s₂ : ∀ q ∈ buildChain [] (pr.2 ++ c.drop pr.1.length).dropLast,
          FS.lookup s₂ q = some Node.dir := by
        intro q hq
        have h1 : FS.lookup s₁ q = some Node.dir := by
          rcases hcase with ⟨_, hw⟩ | ⟨_, hw⟩ <;>
            exact FS.writeFile_dirMono _ _ _ _ _ hw (hchain_sm q hq)
        exact itemsFold_dirMono pr cs s₁ s₂ q hrest h1
      rcases hcase with ⟨hnd, hw⟩ | ⟨hd, hw⟩
      · obtain ⟨hpost, _⟩ := FS.writeFile_post _ _ _ _ hw
        refine ⟨hchain_s₂, fun _ => ?_, fun hdir => ?_⟩
        · rw [hfr_dest_cs, hpost]
        · rw [← hsm_dest] at hdir
          exact absurd hdir hnd
      · obtain ⟨hpost, hfr2⟩ := FS.writeFile_post _ _ _ _ hw
        have hs1_dest : FS.lookup s₁ (pr.2 ++ c.drop pr.1.length) = some Node.dir := by
          rw [hfr2 _ (fun heq => hdest_ne_redir heq)]
          exact hd
        refine ⟨hchain_s₂, fun hnd => ?_, fun _ => ?_⟩
        · rw [← hsm_dest] at hnd
          exact absurd hd hnd
        · exact ⟨by rw [hfr_dest_cs]; exact hs1_dest, by rw [hfr_redir_cs, hpost]⟩

theorem getLastD_append_right (l r : List String) (h : r ≠ []) :
    (l ++ r).getLastD "" = r.getLastD "" := by
  cases r with
  | nil => simp at h
  | cons a as =>
    have hx : ∃ x, (a :: as).getLast? = some x := by
      cases hx2 : (a :: as).getLast? with
      | none => simp [List.getLast?_eq_none_iff] at hx2
      | some v => exact ⟨v, rfl⟩
    obtain ⟨x, hx⟩ := hx
    simp [List.getLastD_eq_getLast?, List.getLast?_append, hx, Option.or]

theorem append_right_nil_of_eq (p r : List String) (h : p ++ r = p) : r = [] := by
  have := congrArg List.length h
  simp at this
  exact this

theorem moveMediaOne_gate_none (s : FS) (pr : FPath × FPath)
    (h : FS.lookup s pr.1 = none) : moveMediaOne s pr = some s := by
  unfold moveMediaOne
  rw [if_neg (by rw [h]; simp)]

theorem moveMediaOne_writes_pub (pr : FPath × FPath) (t2 : List String)
    (hpr2 : pr.2 = "public" :: t2) (s s₂ : FS) (h : moveMediaOne s pr = some s₂) :
    ∃ ws, s₂ = FS.applySets s ws ∧ ∀ w ∈ ws, PubKey w.1 := by
  unfold moveMediaOne at h
  by_cases hg : (FS.lookup s pr.1).isSome
  · rw [if_pos hg] at h
    obtain ⟨ws, hws, hk⟩ := itemsFold_writes pr _ s s₂ h
    refine ⟨ws, hws, fun w hw => ?_⟩
    obtain ⟨item, _, hkey⟩ := hk w hw
    exact mediaKey_pub pr t2 hpr2 item w hkey
  · rw [if_neg hg] at h
    have : s = s₂ := by simpa using h
    subst this
    exact ⟨[], rfl, by simp⟩

theorem moveMediaOne_dirMono (pr : FPath × FPath) (s s₂ : FS) (q : FPath)
    (h : moveMediaOne s pr = some s₂)
    (hq : FS.lookup s q = some Node.dir) : FS.lookup s₂ q = some Node.dir := by
  unfold moveMediaOne at h
  by_cases hg : (FS.lookup s pr.1).isSome
  · rw [if_pos hg] at h
    exact itemsFold_dirMono pr _ s s₂ q h hq
  · rw [if_neg hg] at h
    have : s = s₂ := by simpa using h
    exact this ▸ hq

theorem moveMediaOne_src_files (pr : FPath × FPath) (t1 t2 : List String)
    (hpr1 : pr.1 = "webxr-samples-main" :: t1) (hpr2 : pr.2 = "public" :: t2)
    (s s₂ : FS) (h : moveMediaOne s pr = some s₂)
    (hg : (FS.lookup s pr.1).isSome) :
    ∀ c ∈ FS.filesUnder s pr.1, ∃ bc, FS.lookup s c = some (Node.file bc) := by
  unfold moveMediaOne at h
  rw [if_pos hg] at h
  exact fun c hc => itemsFold_src_files pr t1 t2 hpr1 hpr2 _ s s₂
    (fun x hx => (FS.filesUnder_spec s pr.1 x hx).1) h c hc

theorem moveMediaOne_pos (pr : FPath × FPath) (t1 t2 : List String)
    (hpr1 : pr.1 = "webxr-samples-main" :: t1) (hpr2 : pr.2 = "public" :: t2)
    (s s₂ : FS) (h : moveMediaOne s pr = some s₂)
    (rel : FPath) (b : String) (hrel : rel ≠ [])
    (hsrc : FS.lookup s (pr.1 ++ rel) = some (Node.file b))
    (hgate : (FS.lookup s pr.1).isSome)
    (hnochain : ∀ c ∈ FS.filesUnder s pr.1,
      (c <+: pr.1 ++ rel → c = pr.1 ++ rel) ∧ (pr.1 ++ rel <+: c → c = pr.1 ++ rel)) :
    (∀ q ∈ buildChain [] (pr.2 ++ rel).dropLast, FS.lookup s₂ q = some Node.dir) ∧
    (FS.lookup s (pr.2 ++ rel) ≠ some Node.dir →
      FS.lookup s₂ (pr.2 ++ rel) = some (Node.file b)) ∧
    (FS.lookup s (pr.2 ++ rel) = some Node.dir →
      FS.lookup s₂ (pr.2 ++ rel) = some Node.dir ∧
      FS.lookup s₂ ((pr.2 ++ rel) ++ [rel.getLastD ""]) = some (Node.file b)) := by
  unfold moveMediaOne at h
  rw [if_pos hgate] at h
  have hne_item : pr.1 ++ rel ≠ pr.1 := by
    intro he
    exact hrel (append_right_nil_of_eq _ _ he)
  have hmem : pr.1 ++ rel ∈ FS.filesUnder s pr.1 :=
    FS.mem_filesUnder s pr.1 _ b hsrc (List.prefix_append _ _) hne_item
  have hdrop : (pr.1 ++ rel).drop pr.1.length = rel := List.drop_left _ _
  have hlast : (pr.1 ++ rel).getLastD "" = rel.getLastD "" :=
    getLastD_append_right _ _ hrel
  have hres := itemsFold_pos pr t1 t2 hpr1 hpr2 _ s s₂ h (pr.1 ++ rel) b hmem hsrc
    (List.prefix_append _ _) hne_item
    (fun c hc => FS.filesUnder_spec s pr.1 c hc) hnochain
  rw [hdrop, hlast] at hres
  exact hres

theorem FS.copy2_noop (fs : FS) (src dest : FPath) (b : String)
    (hsrc : FS.lookup fs src = some (Node.file b))
    (hcase : (FS.lookup fs dest = some (Node.file b) ∧
        FS.lookup fs dest.dropLast = some Node.dir) ∨
      (FS.lookup fs dest = some Node.dir ∧
        FS.lookup fs (dest ++ [src.getLastD ""]) = some (Node.file b))) :
    FS.copy2 fs src dest = some fs := by
  unfold FS.copy2
  rw [hsrc]
  rcases hcase with ⟨hdest, hpar⟩ | ⟨hdd, hred⟩
  · rw [hdest]
    show FS.writeFile fs dest b = some fs
    exact FS.writeFile_noop _ _ _ hdest hpar
  · rw [hdd]
    show FS.writeFile fs (dest ++ [src.getLastD ""]) b = some fs
    refine FS.writeFile_noop _ _ _ hred ?_
    rw [List.dropLast_concat]
    exact hdd

theorem copyMediaItem_noop (pr : FPath × FPath) (fs : FS) (c : FPath) (b : String)
    (hchain : ∀ q ∈ buildChain [] (pr.2 ++ c.drop pr.1.length).dropLast,
      FS.lookup fs q = some Node.dir)
    (hsrc : FS.lookup fs c = some (Node.file b))
    (hcase : (FS.lookup fs (pr.2 ++ c.drop pr.1.length) = some (Node.file b)) ∨
      (FS.lookup fs (pr.2 ++ c.drop pr.1.length) = some Node.dir ∧
        FS.lookup fs ((pr.2 ++ c.drop pr.1.length) ++ [c.getLastD ""]) =
          some (Node.file b))) :
    copyMediaItem pr fs c = some fs := by
  unfold copyMediaItem FS.mkdirParents
  rw [FS.mpf_noop _ _ _ hchain]
  show FS.copy2 fs c (pr.2 ++ c.drop pr.1.length) = some fs
  refine FS.copy2_noop fs c _ b hsrc ?_
  rcases hcase with hdest | ⟨hdd, hred⟩
  · refine Or.inl ⟨hdest, ?_⟩
    refine hchain _ ?_
    rw [mem_buildChain_nil]
  · exact Or.inr ⟨hdd, hred⟩

theorem moveMediaOne_writes_strong (pr : FPath × FPath) (t1 t2 : List String)
    (hpr1 : pr.1 = "webxr-samples-main" :: t1) (hpr2 : pr.2 = "public" :: t2)
    (s s₂ : FS) (h : moveMediaOne s pr = some s₂) :
    ∃ ws, s₂ = FS.applySets s ws ∧ ∀ w ∈ ws,
      (FS.lookup s pr.1).isSome ∧
      ∃ rel, rel ≠ [] ∧ (∃ b, FS.lookup s (pr.1 ++ rel) = some (Node.file b)) ∧
        (w.1 <+: pr.2 ++ rel ∨ w.1 = (pr.2 ++ rel) ++ [rel.getLastD ""]) := by
  have hsrcs := moveMediaOne_src_files pr t1 t2 hpr1 hpr2 s s₂ h
  unfold moveMediaOne at h
  by_cases hg : (FS.lookup s pr.1).isSome
  · rw [if_pos hg] at h
    obtain ⟨ws, hws, hk⟩ := itemsFold_writes pr _ s s₂ h
    refine ⟨ws, hws, fun w hw => ?_⟩
    obtain ⟨item, hitem, hkey⟩ := hk w hw
    obtain ⟨hipre, hine⟩ := FS.filesUnder_spec s pr.1 item hitem
    obtain ⟨rel, hrel⟩ := hipre
    have hrelne : rel ≠ [] := by
      intro he
      subst he
      exact hine (by rw [← hrel]; simp)
    obtain ⟨bc, hbc⟩ := hsrcs hg item hitem
    have hdrop : item.drop pr.1.length = rel := by rw [← hrel, List.drop_left]
    refine ⟨hg, rel, hrelne, ⟨bc, by rw [hrel]; exact hbc⟩, ?_⟩
    rcases hkey with ⟨_, hmem⟩ | ⟨b, _, hkk⟩
    · left
      rw [hdrop] at hmem
      have hne : pr.2 ++ rel ≠ [] := by
        intro he
        rw [hpr2] at he
        simp at he
      exact (prefix_of_mem_chain_dropLast _ _ hne hmem).1
    · rcases hkk with h4 | h4
      · left
        rw [h4, hdrop]
      · right
        rw [h4, hdrop]
        congr 1
        rw [← hrel]
        exact congrArg (fun z => [z]) (getLastD_append_right _ _ hrelne)
  · rw [if_neg hg] at h
    have : s = s₂ := by simpa using h
    subst this
    exact ⟨[], rfl, by simp⟩

theorem moveMediaFiles_eq (fs : FS) :
    moveMediaFiles fs =
      (moveMediaOne fs (["webxr-samples-main", "media", "textures"], ["public", "textures"])).bind
        (fun s₁ =>
          moveMediaOne s₁ (["webxr-samples-main", "media", "gltf"], ["public", "models"])) := by
  unfold moveMediaFiles textureSources
  simp only [List.foldlM_cons, List.foldlM_nil]
  cases h1 : moveMediaOne fs (["webxr-samples-main", "media", "textures"], ["public", "textures"]) with
  | none => rfl
  | some s₁ =>
    cases h2 : moveMediaOne s₁
        (["webxr-samples-main", "media", "gltf"], ["public", "models"]) <;>
      simp [h2]

theorem not_prefix_second_ne (a b2 c2 : String) (u v : FPath) (h : b2 ≠ c2) :
    ¬ (a :: b2 :: u <+: a :: c2 :: v) := by
  intro hp
  obtain ⟨_, hp2⟩ := List.cons_prefix_cons.1 hp
  obtain ⟨h3, _⟩ := List.cons_prefix_cons.1 hp2
  exact h h3

theorem ne_second (a b2 c2 : String) (u v : FPath) (h : b2 ≠ c2) :
    a :: b2 :: u ≠ a :: c2 :: v := by
  intro he
  injection he with _ h2
  injection h2 with h3 _
  exact h h3

theorem moveMediaFiles_writes_pub (fs fs₂ : FS) (h : moveMediaFiles fs = some fs₂) :
    ∃ ws, fs₂ = FS.applySets fs ws ∧ ∀ w ∈ ws, PubKey w.1 := by
  rw [moveMediaFiles_eq] at h
  obtain ⟨s₁, h1, h2⟩ := Option.bind_eq_some.1 h
  obtain ⟨ws₁, hw1, hk1⟩ := moveMediaOne_writes_pub _ ["textures"] rfl fs s₁ h1
  obtain ⟨ws₂, hw2, hk2⟩ := moveMediaOne_writes_pub _ ["models"] rfl s₁ fs₂ h2
  refine ⟨ws₁ ++ ws₂, by rw [FS.applySets_append, ← hw1, ← hw2], ?_⟩
  intro w hw
  rcases List.mem_append.1 hw with h3 | h3
  · exact hk1 w h3
  · exact hk2 w h3

theorem moveMediaFiles_dirMono (fs fs₂ : FS) (q : FPath)
    (h : moveMediaFiles fs = some fs₂)
    (hq : FS.lookup fs q = some Node.dir) : FS.lookup fs₂ q = some Node.dir := by
  rw [moveMediaFiles_eq] at h
  obtain ⟨s₁, h1, h2⟩ := Option.bind_eq_some.1 h
  exact moveMediaOne_dirMono _ s₁ fs₂ q h2 (moveMediaOne_dirMono _ fs s₁ q h1 hq)

theorem moveMediaFiles_pos (fs fs₂ : FS) (h : moveMediaFiles fs = some fs₂)
    (pr : FPath × FPath) (hpr : pr ∈ textureSources)
    (rel : FPath) (b : String) (hrel : rel ≠ [])
    (hsrc : FS.lookup fs (pr.1 ++ rel) = some (Node.file b))
    (hgate : (FS.lookup fs pr.1).isSome)
    (hnochain : ∀ c ∈ FS.filesUnder fs pr.1,
      (c <+: pr.1 ++ rel → c = pr.1 ++ rel) ∧ (pr.1 ++ rel <+: c → c = pr.1 ++ rel)) :
    (∀ q ∈ buildChain [] (pr.2 ++ rel).dropLast, FS.lookup fs₂ q = some Node.dir) ∧
    (FS.lookup fs (pr.2 ++ rel) ≠ some Node.dir →
      FS.lookup fs₂ (pr.2 ++ rel) = some (Node.file b)) ∧
    (FS.lookup fs (pr.2 ++ rel) = some Node.dir →
      FS.lookup fs₂ (pr.2 ++ rel) = some Node.dir ∧
      FS.lookup fs₂ ((pr.2 ++ rel) ++ [rel.getLastD ""]) = some (Node.file b)) := by
  rw [moveMediaFiles_eq] at h
  obtain ⟨s₁, h1, h2⟩ := Option.bind_eq_some.1 h
  have hpr' : pr = (["webxr-samples-main", "media", "textures"], ["public", "textures"]) ∨
      pr = (["webxr-samples-main", "media", "gltf"], ["public", "models"]) := by
    simpa [textureSources] using hpr
  rcases hpr' with rfl | rfl
  · have hres := moveMediaOne_pos _ ["media", "textures"] ["textures"] rfl rfl fs s₁ h1
      rel b hrel hsrc hgate hnochain
    obtain ⟨ws₂, hw2, hk2⟩ :=
      moveMediaOne_writes_strong _ ["media", "gltf"] ["models"] rfl rfl s₁ fs₂ h2
    have hfr_dest : FS.lookup fs₂ (["public", "textures"] ++ rel) =
        FS.lookup s₁ (["public", "textures"] ++ rel) := by
      rw [hw2]
      refine FS.lookup_applySets_of_notkey _ _ _ (fun w hw => ?_)
      obtain ⟨_, rel2, _, _, hkk⟩ := hk2 w hw
      rcases hkk with hp | he
      · intro heq
        rw [heq] at hp
        exact not_prefix_second_ne "public" "textures" "models" rel rel2 (by decide) hp
      · rw [he]
        exact ne_second "public" "models" "textures" (rel2 ++ [rel2.getLastD ""]) rel (by decide)
    have hfr_redir : FS.lookup fs₂ ((["public", "textures"] ++ rel) ++ [rel.getLastD ""]) =
        FS.lookup s₁ ((["public", "textures"] ++ rel) ++ [rel.getLastD ""]) := by
      rw [hw2]
      refine FS.lookup_applySets_of_notkey _ _ _ (fun w hw => ?_)
      obtain ⟨_, rel2, _, _, hkk⟩ := hk2 w hw
      rcases hkk with hp | he
      · intro heq
        rw [heq] at hp
        exact not_prefix_second_ne "public" "textures" "models"
          (rel ++ [rel.getLastD ""]) rel2 (by decide) hp
      · rw [he]
        exact ne_second "public" "models" "textures"
          (rel2 ++ [rel2.getLastD ""]) (rel ++ [rel.getLastD ""]) (by decide)
    refine ⟨fun q hq => moveMediaOne_dirMono _ s₁ fs₂ q h2 (hres.1 q hq),
      fun hnd => ?_, fun hd => ?_⟩
    · rw [hfr_dest]
      exact hres.2.1 hnd
    · exact ⟨by rw [hfr_dest]; exact (hres.2.2 hd).1,
        by rw [hfr_redir]; exact (hres.2.2 hd).2⟩
  · obtain ⟨ws₁, hw1, hk1⟩ :=
      moveMediaOne_writes_strong _ ["media", "textures"] ["textures"] rfl rfl fs s₁ h1
    have hpub1 : ∀ w ∈ ws₁, PubKey w.1 := by
      intro w hw
      obtain ⟨_, rel1, _, _, hkk⟩ := hk1 w hw
      rcases hkk with hp | he
      · exact pubKey_of_prefix ("textures" :: rel1) w.1 hp
      · rw [he]
        exact Or.inr ⟨"textures" :: (rel1 ++ [rel1.getLastD ""]), rfl⟩
    have hfr_src : FS.lookup s₁ (["webxr-samples-main", "media", "gltf"] ++ rel) =
        FS.lookup fs (["webxr-samples-main", "media", "gltf"] ++ rel) := by
      rw [hw1]
      refine FS.lookup_applySets_of_notkey _ _ _ (fun w hw => ?_)
      exact pubKey_ne_cons w.1 (hpub1 w hw) "webxr-samples-main"
        (["media", "gltf"] ++ rel) (by decide)
    have hfr_gate : FS.lookup s₁ ["webxr-samples-main", "media", "gltf"] =
        FS.lookup fs ["webxr-samples-main", "media", "gltf"] := by
      rw [hw1]
      refine FS.lookup_applySets_of_notkey _ _ _ (fun w hw => ?_)
      exact pubKey_ne_cons w.1 (hpub1 w hw) "webxr-samples-main" ["media", "gltf"] (by decide)
    have hfiles : FS.filesUnder s₁ ["webxr-samples-main", "media", "gltf"] =
        FS.filesUnder fs ["webxr-samples-main", "media", "gltf"] := by
      rw [hw1]
      refine FS.filesUnder_applySets _ _ _ (fun w hw => ?_)
      exact pubKey_not_strictly_under w.1 (hpub1 w hw) "webxr-samples-main"
        ["media", "gltf"] (by decide)
    have hfr_dest0 : FS.lookup s₁ (["public", "models"] ++ rel) =
        FS.lookup fs (["public", "models"] ++ rel) := by
      rw [hw1]
      refine FS.lookup_applySets_of_notkey _ _ _ (fun w hw => ?_)
      obtain ⟨_, rel1, _, _, hkk⟩ := hk1 w hw
      rcases hkk with hp | he
      · intro heq
        rw [heq] at hp
        exact not_prefix_second_ne "public" "models" "textures" rel rel1 (by decide) hp
      · rw [he]
        exact ne_second "public" "textures" "models" (rel1 ++ [rel1.getLastD ""]) rel (by decide)
    have hres := moveMediaOne_pos _ ["media", "gltf"] ["models"] rfl rfl s₁ fs₂ h2
      rel b hrel (by rw [hfr_src]; exact hsrc) (by rw [hfr_gate]; exact hgate)
      (fun c hc => hnochain c (hfiles ▸ hc))
    refine ⟨hres.1, fun hnd => hres.2.1 (by rw [hfr_dest0]; exact hnd),
      fun hd => hres.2.2 (by rw [hfr_dest0]; exact hd)⟩

theorem moveMediaFiles_writes_strong (fs fs₂ : FS) (h : moveMediaFiles fs = some fs₂) :
    ∃ ws, fs₂ = FS.applySets fs ws ∧ ∀ w ∈ ws, ∃ pr ∈ textureSources,
      (FS.lookup fs pr.1).isSome ∧
      ∃ rel, rel ≠ [] ∧ (∃ b, FS.lookup fs (pr.1 ++ rel) = some (Node.file b)) ∧
        (w.1 <+: pr.2 ++ rel ∨ w.1 = (pr.2 ++ rel) ++ [rel.getLastD ""]) := by
  rw [moveMediaFiles_eq] at h
  obtain ⟨s₁, h1, h2⟩ := Option.bind_eq_some.1 h
  obtain ⟨ws₁, hw1, hk1⟩ :=
    moveMediaOne_writes_strong _ ["media", "textures"] ["textures"] rfl rfl fs s₁ h1
  obtain ⟨ws₂, hw2, hk2⟩ :=
    moveMediaOne_writes_strong _ ["media", "gltf"] ["models"] rfl rfl s₁ fs₂ h2
  have hpub1 : ∀ w ∈ ws₁, PubKey w.1 := by
    intro w hw
    obtain ⟨_, rel1, _, _, hkk⟩ := hk1 w hw
    rcases hkk with hp | he
    · exact pubKey_of_prefix ("textures" :: rel1) w.1 hp
    · rw [he]
      exact Or.inr ⟨"textures" :: (rel1 ++ [rel1.getLastD ""]), rfl⟩
  have hfr : ∀ (p : FPath), ¬ PubKey p → FS.lookup s₁ p = FS.lookup fs p := by
    intro p hp
    rw [hw1]
    refine FS.lookup_applySets_of_notkey _ _ _ (fun w hw heq => ?_)
    exact hp (heq ▸ hpub1 w hw)
  refine ⟨ws₁ ++ ws₂, by rw [FS.applySets_append, ← hw1, ← hw2], ?_⟩
  intro w hw
  rcases List.mem_append.1 hw with h3 | h3
  · obtain ⟨hg, rel1, hrel1, hb1, hkk⟩ := hk1 w h3
    exact ⟨_, by simp [textureSources], hg, rel1, hrel1, hb1, hkk⟩
  · obtain ⟨hg, rel2, hrel2, ⟨b2, hb2⟩, hkk⟩ := hk2 w h3
    refine ⟨_, by simp [textureSources], ?_, rel2, hrel2, ⟨b2, ?_⟩, hkk⟩
    · show (FS.lookup fs ["webxr-samples-main", "media", "gltf"]).isSome = true
      rw [← hfr ["webxr-samples-main", "media", "gltf"]
        (fun hp => pubKey_ne_cons _ hp "webxr-samples-main" ["media", "gltf"] (by decide) rfl)]
      exact hg
    · show FS.lookup fs (["webxr-samples-main", "media", "gltf"] ++ rel2) =
        some (Node.file b2)
      rw [← hfr (["webxr-samples-main", "media", "gltf"] ++ rel2)
        (fun hp => pubKey_ne_cons _ hp "webxr-samples-main" (["media", "gltf"] ++ rel2)
          (by decide) rfl)]
      exact hb2

/-! ## Lemmas about the directory-structure step -/

theorem mkdirTree_writes (s s' : FS) (md : String × List String)
    (h : mkdirTree s md = some s') :
    ∃ ws, s' = FS.applySets s ws ∧ ∀ w ∈ ws, w.2 = Node.dir ∧
      (w.1 = [md.1] ∨ ∃ sd ∈ md.2, w.1 = [md.1, sd]) := by
  unfold mkdirTree at h
  obtain ⟨s₁, h1, h2⟩ := Option.bind_eq_some.1 h
  obtain ⟨ws₁, hw1, hk1⟩ := FS.mkdir1_writes s s₁ _ h1
  obtain ⟨ws₂, hw2, hk2⟩ := foldlM_writes (mkdirSub md.1)
    (fun sd w => w.2 = Node.dir ∧ w.1 = [md.1, sd])
    (fun s s' sd hs => by
      obtain ⟨ws, hws, hk⟩ := FS.mkdir1_writes s s' _ hs
      exact ⟨ws, hws, fun w hw => by rw [hk w hw]; exact ⟨rfl, rfl⟩⟩)
    md.2 s₁ s' h2
  refine ⟨ws₁ ++ ws₂, by rw [FS.applySets_append, ← hw1, ← hw2], ?_⟩
  intro w hw
  rcases List.mem_append.1 hw with h3 | h3
  · rw [hk1 w h3]
    exact ⟨rfl, Or.inl rfl⟩
  · obtain ⟨sd, hsd, hv, hkk⟩ := hk2 w h3
    exact ⟨hv, Or.inr ⟨sd, hsd, hkk⟩⟩

theorem mkdirTree_dirMono (s s' : FS) (md : String × List String) (q : FPath)
    (h : mkdirTree s md = some s') (hq : FS.lookup s q = some Node.dir) :
    FS.lookup s' q = some Node.dir := by
  unfold mkdirTree at h
  obtain ⟨s₁, h1, h2⟩ := Option.bind_eq_some.1 h
  exact foldlM_dirMono (mkdirSub md.1)
    (fun s s' sd q' hs hq' => FS.mkdir1_dirMono s s' _ q' hs hq')
    md.2 s₁ s' q h2 (FS.mkdir1_dirMono s s₁ _ q h1 hq)

theorem mkdirTree_post (s s' : FS) (md : String × List String)
    (h : mkdirTree s md = some s') :
    FS.lookup s' [md.1] = some Node.dir ∧
    ∀ sd ∈ md.2, FS.lookup s' [md.1, sd] = some Node.dir := by
  unfold mkdirTree at h
  obtain ⟨s₁, h1, h2⟩ := Option.bind_eq_some.1 h
  constructor
  · exact foldlM_dirMono (mkdirSub md.1)
      (fun s s' sd q' hs hq' => FS.mkdir1_dirMono s s' _ q' hs hq')
      md.2 s₁ s' _ h2 (FS.mkdir1_post s s₁ _ h1)
  · intro sd hsd
    obtain ⟨l₁, l₂, si, si', _, ha, hb, hc⟩ := foldlM_split _ md.2 s₁ s' sd hsd h2
    exact foldlM_dirMono (mkdirSub md.1)
      (fun s s' sd q' hs hq' => FS.mkdir1_dirMono s s' _ q' hs hq')
      l₂ si' s' _ hc (FS.mkdir1_post si si' _ hb)

theorem mkdirTree_noop (s : FS) (md : String × List String)
    (h1 : FS.lookup s [md.1] = some Node.dir)
    (h2 : ∀ sd ∈ md.2, FS.lookup s [md.1, sd] = some Node.dir) :
    mkdirTree s md = some s := by
  unfold mkdirTree
  rw [FS.mkdir1_noop s _ h1]
  show md.2.foldlM (mkdirSub md.1) s = some s
  exact foldlM_id _ _ _ (fun sd hsd => FS.mkdir1_noop s _ (h2 sd hsd))

theorem createDirectoryStructure_writes (fs fs₂ : FS)
    (h : createDirectoryStructure fs = some fs₂) :
    ∃ ws, fs₂ = FS.applySets fs ws ∧ ∀ w ∈ ws, w.2 = Node.dir ∧
      ∃ md ∈ newStructure, (w.1 = [md.1] ∨ ∃ sd ∈ md.2, w.1 = [md.1, sd]) := by
  obtain ⟨ws, hws, hk⟩ := foldlM_writes mkdirTree
    (fun md w => w.2 = Node.dir ∧ (w.1 = [md.1] ∨ ∃ sd ∈ md.2, w.1 = [md.1, sd]))
    (fun s s' md hs => mkdirTree_writes s s' md hs) newStructure fs fs₂ h
  refine ⟨ws, hws, fun w hw => ?_⟩
  obtain ⟨md, hmd, hv, hkk⟩ := hk w hw
  exact ⟨hv, md, hmd, hkk⟩

theorem createDirectoryStructure_dirMono (fs fs₂ : FS) (q : FPath)
    (h : createDirectoryStructure fs = some fs₂)
    (hq : FS.lookup fs q = some Node.dir) : FS.lookup fs₂ q = some Node.dir :=
  foldlM_dirMono mkdirTree
    (fun s s' md q' hs hq' => mkdirTree_dirMono s s' md q' hs hq')
    newStructure fs fs₂ q h hq

theorem createDirectoryStructure_post (fs fs₂ : FS)
    (h : createDirectoryStructure fs = some fs₂) :
    ∀ md ∈ newStructure, FS.lookup fs₂ [md.1] = some Node.dir ∧
      ∀ sd ∈ md.2, FS.lookup fs₂ [md.1, sd] = some Node.dir := by
  intro md hmd
  obtain ⟨l₁, l₂, si, si', _, ha, hb, hc⟩ := foldlM_split _ newStructure fs fs₂ md hmd h
  obtain ⟨hmain, hsubs⟩ := mkdirTree_post si si' md hb
  constructor
  · exact foldlM_dirMono mkdirTree
      (fun s s' md' q' hs hq' => mkdirTree_dirMono s s' md' q' hs hq')
      l₂ si' fs₂ _ hc hmain
  · intro sd hsd
    exact foldlM_dirMono mkdirTree
      (fun s s' md' q' hs hq' => mkdirTree_dirMono s s' md' q' hs hq')
      l₂ si' fs₂ _ hc (hsubs sd hsd)

theorem createDirectoryStructure_noop (fs : FS)
    (h : ∀ md ∈ newStructure, FS.lookup fs [md.1] = some Node.dir ∧
      ∀ sd ∈ md.2, FS.lookup fs [md.1, sd] = some Node.dir) :
    createDirectoryStructure fs = some fs :=
  foldlM_id _ _ _ (fun md hmd => mkdirTree_noop fs md (h md hmd).1 (h md hmd).2)

/-! ## Lemmas about the configuration and documentation steps -/

theorem createConfigFiles_parts (fs fs₂ : FS) (h : createConfigFiles fs = some fs₂) :
    FS.lookup fs [] = some Node.dir ∧
    FS.lookup fs₂ ["package.json"] = some (Node.file (JValue.dumps 0 packageJsonObj)) ∧
    FS.lookup fs₂ ["vercel.json"] = some (Node.file (JValue.dumps 0 vercelObj)) ∧
    FS.lookup fs₂ [".gitignore"] = some (Node.file gitignoreContent) ∧
    (∀ q, q ≠ ["package.json"] → q ≠ ["vercel.json"] → q ≠ [".gitignore"] →
      FS.lookup fs₂ q = FS.lookup fs q) := by
  unfold createConfigFiles at h
  obtain ⟨s₁, h1, hrest⟩ := Option.bind_eq_some.1 h
  obtain ⟨s₂, h2, h3⟩ := Option.bind_eq_some.1 hrest
  obtain ⟨p1, f1⟩ := FS.writeFile_post _ _ _ _ h1
  obtain ⟨p2, f2⟩ := FS.writeFile_post _ _ _ _ h2
  obtain ⟨p3, f3⟩ := FS.writeFile_post _ _ _ _ h3
  refine ⟨(FS.writeFile_success _ _ _ _ h1).2.1, ?_, ?_, ?_, ?_⟩
  · rw [f3 _ (by decide), f2 _ (by decide)]
    exact p1
  · rw [f3 _ (by decide)]
    exact p2
  · exact p3
  · intro q hq1 hq2 hq3
    rw [f3 _ hq3, f2 _ hq2, f1 _ hq1]

theorem createConfigFiles_writes (fs fs₂ : FS) (h : createConfigFiles fs = some fs₂) :
    ∃ ws, fs₂ = FS.applySets fs ws ∧ ∀ w ∈ ws, (∃ b, w.2 = Node.file b) ∧
      (w.1 = ["package.json"] ∨ w.1 = ["vercel.json"] ∨ w.1 = [".gitignore"]) := by
  unfold createConfigFiles at h
  obtain ⟨s₁, h1, hrest⟩ := Option.bind_eq_some.1 h
  obtain ⟨s₂, h2, h3⟩ := Option.bind_eq_some.1 hrest
  obtain ⟨w1, hw1, hk1⟩ := FS.writeFile_writes _ _ _ _ h1
  obtain ⟨w2, hw2, hk2⟩ := FS.writeFile_writes _ _ _ _ h2
  obtain ⟨w3, hw3, hk3⟩ := FS.writeFile_writes _ _ _ _ h3
  refine ⟨w1 ++ (w2 ++ w3), by
    rw [FS.applySets_append, FS.applySets_append, ← hw1, ← hw2, ← hw3], ?_⟩
  intro w hw
  rcases List.mem_append.1 hw with ha | hb
  · rw [hk1 w ha]; exact ⟨⟨_, rfl⟩, Or.inl rfl⟩
  · rcases List.mem_append.1 hb with hc | hd
    · rw [hk2 w hc]; exact ⟨⟨_, rfl⟩, Or.inr (Or.inl rfl)⟩
    · rw [hk3 w hd]; exact ⟨⟨_, rfl⟩, Or.inr (Or.inr rfl)⟩

theorem createConfigFiles_dirMono (fs fs₂ : FS) (q : FPath)
    (h : createConfigFiles fs = some fs₂)
    (hq : FS.lookup fs q = some Node.dir) : FS.lookup fs₂ q = some Node.dir := by
  unfold createConfigFiles at h
  obtain ⟨s₁, h1, hrest⟩ := Option.bind_eq_some.1 h
  obtain ⟨s₂, h2, h3⟩ := Option.bind_eq_some.1 hrest
  exact FS.writeFile_dirMono _ _ _ _ _ h3
    (FS.writeFile_dirMono _ _ _ _ _ h2 (FS.writeFile_dirMono _ _ _ _ _ h1 hq))

theorem createConfigFiles_noop (fs : FS)
    (hbase : FS.lookup fs [] = some Node.dir)
    (h1 : FS.lookup fs ["package.json"] = some (Node.file (JValue.dumps 0 packageJsonObj)))
    (h2 : FS.lookup fs ["vercel.json"] = some (Node.file (JValue.dumps 0 vercelObj)))
    (h3 : FS.lookup fs [".gitignore"] = some (Node.file gitignoreContent)) :
    createConfigFiles fs = some fs := by
  unfold createConfigFiles
  rw [FS.writeFile_noop _ _ _ h1 hbase]
  show (FS.writeFile fs ["vercel.json"] (JValue.dumps 0 vercelObj)).bind _ = some fs
  rw [FS.writeFile_noop _ _ _ h2 hbase]
  show FS.writeFile fs [".gitignore"] gitignoreContent = some fs
  exact FS.writeFile_noop _ _ _ h3 hbase

theorem createConfigFilesR_parts (fs fs₂ : FS) (h : createConfigFilesR fs = some fs₂) :
    FS.lookup fs [] = some Node.dir ∧
    FS.lookup fs₂ ["package.json"] = some (Node.file (JValue.dumps 0 packageJsonObj)) ∧
    FS.lookup fs₂ ["vercel.json"] = some (Node.file (JValue.dumps 0 vercelObjR)) ∧
    (∀ q, q ≠ ["package.json"] → q ≠ ["vercel.json"] →
      FS.lookup fs₂ q = FS.lookup fs q) := by
  unfold createConfigFilesR at h
  obtain ⟨s₁, h1, h2⟩ := Option.bind_eq_some.1 h
  obtain ⟨p1, f1⟩ := FS.writeFile_post _ _ _ _ h1
  obtain ⟨p2, f2⟩ := FS.writeFile_post _ _ _ _ h2
  refine ⟨(FS.writeFile_success _ _ _ _ h1).2.1, ?_, p2, ?_⟩
  · rw [f2 _ (by decide)]
    exact p1
  · intro q hq1 hq2
    rw [f2 _ hq2, f1 _ hq1]

theorem createConfigFilesR_noop (fs : FS)
    (hbase : FS.lookup fs [] = some Node.dir)
    (h1 : FS.lookup fs ["package.json"] = some (Node.file (JValue.dumps 0 packageJsonObj)))
    (h2 : FS.lookup fs ["vercel.json"] = some (Node.file (JValue.dumps 0 vercelObjR))) :
    createConfigFilesR fs = some fs := by
  unfold createConfigFilesR
  rw [FS.writeFile_noop _ _ _ h1 hbase]
  show FS.writeFile fs ["vercel.json"] (JValue.dumps 0 vercelObjR) = some fs
  exact FS.writeFile_noop _ _ _ h2 hbase

theorem createDocumentation_parts (fs fs₂ : FS) (h : createDocumentation fs = some fs₂) :
    FS.lookup fs [] = some Node.dir ∧
    FS.lookup fs₂ ["README.md"] = some (Node.file readmeContent) ∧
    FS.lookup fs₂ ["docs"] = some Node.dir ∧
    FS.lookup fs₂ ["docs", "TECHNICAL.md"] = some (Node.file techDoc) ∧
    (∀ q, q ≠ ["README.md"] → q ≠ ["docs"] → q ≠ ["docs", "TECHNICAL.md"] →
      FS.lookup fs₂ q = FS.lookup fs q) := by
  unfold createDocumentation at h
  obtain ⟨s₁, h1, hrest⟩ := Option.bind_eq_some.1 h
  obtain ⟨s₂, h2, h3⟩ := Option.bind_eq_some.1 hrest
  obtain ⟨p1, f1⟩ := FS.writeFile_post _ _ _ _ h1
  obtain ⟨p3, f3⟩ := FS.writeFile_post _ _ _ _ h3
  refine ⟨(FS.writeFile_success _ _ _ _ h1).2.1, ?_, ?_, p3, ?_⟩
  · rw [f3 _ (by decide)]
    obtain ⟨ws, hws, hk⟩ := FS.mkdir1_writes _ _ _ h2
    rw [hws, FS.lookup_applySets_of_notkey _ _ _ (fun w hw => by
      rw [hk w hw]
      decide)]
    exact p1
  · exact FS.writeFile_dirMono _ _ _ _ _ h3 (FS.mkdir1_post _ _ _ h2)
  · intro q hq1 hq2 hq3
    rw [f3 _ hq3]
    obtain ⟨ws, hws, hk⟩ := FS.mkdir1_writes _ _ _ h2
    rw [hws, FS.lookup_applySets_of_notkey _ _ _ (fun w hw => by
      rw [hk w hw]
      exact fun he => hq2 he.symm), f1 _ hq1]

theorem createDocumentation_writes (fs fs₂ : FS) (h : createDocumentation fs = some fs₂) :
    ∃ ws, fs₂ = FS.applySets fs ws ∧ ∀ w ∈ ws,
      (w.1 = ["README.md"] ∧ ∃ b, w.2 = Node.file b) ∨
      (w.1 = ["docs"] ∧ w.2 = Node.dir) ∨
      (w.1 = ["docs", "TECHNICAL.md"] ∧ ∃ b, w.2 = Node.file b) := by
  unfold createDocumentation at h
  obtain ⟨s₁, h1, hrest⟩ := Option.bind_eq_some.1 h
  obtain ⟨s₂, h2, h3⟩ := Option.bind_eq_some.1 hrest
  obtain ⟨w1, hw1, hk1⟩ := FS.writeFile_writes _ _ _ _ h1
  obtain ⟨w2, hw2, hk2⟩ := FS.mkdir1_writes _ _ _ h2
  obtain ⟨w3, hw3, hk3⟩ := FS.writeFile_writes _ _ _ _ h3
  refine ⟨w1 ++ (w2 ++ w3), by
    rw [FS.applySets_append, FS.applySets_append, ← hw1, ← hw2, ← hw3], ?_⟩
  intro w hw
  rcases List.mem_append.1 hw with ha | hb
  · rw [hk1 w ha]; exact Or.inl ⟨rfl, _, rfl⟩
  · rcases List.mem_append.1 hb with hc | hd
    · rw [hk2 w hc]; exact Or.inr (Or.inl ⟨rfl, rfl⟩)
    · rw [hk3 w hd]; exact Or.inr (Or.inr ⟨rfl, _, rfl⟩)

theorem createDocumentation_dirMono (fs fs₂ : FS) (q : FPath)
    (h : createDocumentation fs = some fs₂)
    (hq : FS.lookup fs q = some Node.dir) : FS.lookup fs₂ q = some Node.dir := by
  unfold createDocumentation at h
  obtain ⟨s₁, h1, hrest⟩ := Option.bind_eq_some.1 h
  obtain ⟨s₂, h2, h3⟩ := Option.bind_eq_some.1 hrest
  exact FS.writeFile_dirMono _ _ _ _ _ h3
    (FS.mkdir1_dirMono _ _ _ _ h2 (FS.writeFile_dirMono _ _ _ _ _ h1 hq))

theorem createDocumentation_noop (fs : FS)
    (hbase : FS.lookup fs [] = some Node.dir)
    (h1 : FS.lookup fs ["README.md"] = some (Node.file readmeContent))
    (h2 : FS.lookup fs ["docs"] = some Node.dir)
    (h3 : FS.lookup fs ["docs", "TECHNICAL.md"] = some (Node.file techDoc)) :
    createDocumentation fs = some fs := by
  unfold createDocumentation
  rw [FS.writeFile_noop _ _ _ h1 hbase]
  show (FS.mkdir1 fs ["docs"]).bind _ = some fs
  rw [FS.mkdir1_noop _ _ h2]
  show FS.writeFile fs ["docs", "TECHNICAL.md"] techDoc = some fs
  exact FS.writeFile_noop _ _ _ h3 h2

theorem createDocumentationR_parts (fs fs₂ : FS) (h : createDocumentationR fs = some fs₂) :
    FS.lookup fs [] = some Node.dir ∧
    FS.lookup fs₂ ["README.md"] = some (Node.file readmeContentR) ∧
    (∀ q, q ≠ ["README.md"] → FS.lookup fs₂ q = FS.lookup fs q) := by
  unfold createDocumentationR at h
  obtain ⟨p1, f1⟩ := FS.writeFile_post _ _ _ _ h
  exact ⟨(FS.writeFile_success _ _ _ _ h).2.1, p1, f1⟩

theorem createDocumentationR_noop (fs : FS)
    (hbase : FS.lookup fs [] = some Node.dir)
    (h1 : FS.lookup fs ["README.md"] = some (Node.file readmeContentR)) :
    createDocumentationR fs = some fs :=
  FS.writeFile_noop _ _ _ h1 hbase

/-! ## The copy loops instantiated, and run-level write characterization -/

theorem hneComps : ∀ (n : String) (m : FPath), m ≠ [] →
    ["Campus-Tour-NYUAD-main"] ++ [n] ≠ ["src", "components"] ++ m := by
  intro n m hm heq
  have h1 : "Campus-Tour-NYUAD-main" = "src" := by
    have := congrArg (fun l => l.headD "") heq
    simpa using this
  exact absurd h1 (by decide)

theorem hneUtils : ∀ (n : String) (m : FPath), m ≠ [] →
    ["webxr-samples-main", "js"] ++ [n] ≠ ["src", "utils"] ++ m := by
  intro n m hm heq
  have h1 : "webxr-samples-main" = "src" := by
    have := congrArg (fun l => l.headD "") heq
    simpa using this
  exact absurd h1 (by decide)

theorem copyComps_writes (fs fs₂ : FS) (h : copyComps fs = some fs₂) :
    ∃ ws, fs₂ = FS.applySets fs ws ∧ ∀ w ∈ ws, ∃ c ∈ aframeComponents,
      (∃ b, w.2 = Node.file b) ∧
      (w.1 = ["src", "components"] ++ [c] ∨ w.1 = ["src", "components"] ++ [c, c]) := by
  unfold copyComps at h
  exact copyFold_writes _ _ _ _ _ h

theorem copyComps_dirMono (fs fs₂ : FS) (q : FPath) (h : copyComps fs = some fs₂)
    (hq : FS.lookup fs q = some Node.dir) : FS.lookup fs₂ q = some Node.dir := by
  unfold copyComps at h
  exact foldlM_dirMono _ (fun s s' a q' hs hq' => copyStep_dirMono _ _ s s' a q' hs hq')
    _ fs fs₂ q h hq

theorem copyUtils_writes (fs fs₂ : FS) (h : copyUtils fs = some fs₂) :
    ∃ ws, fs₂ = FS.applySets fs ws ∧ ∀ w ∈ ws, ∃ u ∈ utilFiles,
      (∃ b, w.2 = Node.file b) ∧
      (w.1 = ["src", "utils"] ++ [u] ∨ w.1 = ["src", "utils"] ++ [u, u]) := by
  unfold copyUtils at h
  by_cases hg : (FS.lookup fs ["webxr-samples-main", "js"]).isSome
  · rw [if_pos hg] at h
    exact copyFold_writes _ _ _ _ _ h
  · rw [if_neg hg] at h
    have : fs = fs₂ := by simpa using h
    subst this
    exact ⟨[], rfl, by simp⟩

theorem copyUtils_dirMono (fs fs₂ : FS) (q : FPath) (h : copyUtils fs = some fs₂)
    (hq : FS.lookup fs q = some Node.dir) : FS.lookup fs₂ q = some Node.dir := by
  unfold copyUtils at h
  by_cases hg : (FS.lookup fs ["webxr-samples-main", "js"]).isSome
  · rw [if_pos hg] at h
    exact foldlM_dirMono _ (fun s s' a q' hs hq' => copyStep_dirMono _ _ s s' a q' hs hq')
      _ fs fs₂ q h hq
  · rw [if_neg hg] at h
    have : fs = fs₂ := by simpa using h
    exact this ▸ hq

theorem moveAssets_dirMono (fs fs₂ : FS) (q : FPath) (h : moveAssets fs = some fs₂)
    (hq : FS.lookup fs q = some Node.dir) : FS.lookup fs₂ q = some Node.dir := by
  unfold moveAssets at h
  obtain ⟨s₁, h1, hrest⟩ := Option.bind_eq_some.1 h
  obtain ⟨s₂, h2, h3⟩ := Option.bind_eq_some.1 hrest
  exact moveMediaFiles_dirMono s₂ fs₂ q h3
    (copyUtils_dirMono s₁ s₂ q h2 (copyComps_dirMono fs s₁ q h1 hq))

/-- The set of paths any step of the scripts may write: the base path
itself, paths under `public`, `src` or `docs`, and the four generated root
files. -/
def TouchKey (k : FPath) : Prop :=
  k = [] ∨ (∃ t, k = "public" :: t) ∨ (∃ t, k = "src" :: t) ∨ (∃ t, k = "docs" :: t) ∨
  k = ["package.json"] ∨ k = ["vercel.json"] ∨ k = [".gitignore"] ∨ k = ["README.md"]

theorem moveAssets_writes (fs fs₂ : FS) (h : moveAssets fs = some fs₂) :
    ∃ ws, fs₂ = FS.applySets fs ws ∧ ∀ w ∈ ws, TouchKey w.1 := by
  unfold moveAssets at h
  obtain ⟨s₁, h1, hrest⟩ := Option.bind_eq_some.1 h
  obtain ⟨s₂, h2, h3⟩ := Option.bind_eq_some.1 hrest
  obtain ⟨w1, hw1, hk1⟩ := copyComps_writes fs s₁ h1
  obtain ⟨w2, hw2, hk2⟩ := copyUtils_writes s₁ s₂ h2
  obtain ⟨w3, hw3, hk3⟩ := moveMediaFiles_writes_pub s₂ fs₂ h3
  refine ⟨w1 ++ (w2 ++ w3), by
    rw [FS.applySets_append, FS.applySets_append, ← hw1, ← hw2, ← hw3], ?_⟩
  intro w hw
  rcases List.mem_append.1 hw with ha | hb
  · obtain ⟨c, _, _, hk⟩ := hk1 w ha
    rcases hk with hk | hk <;> rw [hk] <;>
      exact Or.inr (Or.inr (Or.inl ⟨_, rfl⟩))
  · rcases List.mem_append.1 hb with hc | hd
    · obtain ⟨u, _, _, hk⟩ := hk2 w hc
      rcases hk with hk | hk <;> rw [hk] <;>
        exact Or.inr (Or.inr (Or.inl ⟨_, rfl⟩))
    · rcases hk3 w hd with hk | ⟨t, hk⟩
      · exact Or.inl hk
      · exact Or.inr (Or.inl ⟨t, hk⟩)

theorem createDirectoryStructure_touch (fs fs₂ : FS)
    (h : createDirectoryStructure fs = some fs₂) :
    ∃ ws, fs₂ = FS.applySets fs ws ∧ ∀ w ∈ ws, TouchKey w.1 := by
  obtain ⟨ws, hws, hk⟩ := createDirectoryStructure_writes fs fs₂ h
  refine ⟨ws, hws, fun w hw => ?_⟩
  obtain ⟨_, md, hmd, hkk⟩ := hk w hw
  have hmd3 : md.1 = "public" ∨ md.1 = "src" ∨ md.1 = "docs" := by
    have h9 : md ∈ newStructure := hmd
    simp only [newStructure, List.mem_cons, List.mem_singleton,
      List.not_mem_nil, or_false] at h9
    rcases h9 with h4 | h4 | h4 <;> rw [h4] <;> simp
  rcases hkk with hk1 | ⟨sd, _, hk1⟩ <;> rw [hk1] <;>
    rcases hmd3 with h5 | h5 | h5 <;> rw [h5]
  · exact Or.inr (Or.inl ⟨[], rfl⟩)
  · exact Or.inr (Or.inr (Or.inl ⟨[], rfl⟩))
  · exact Or.inr (Or.inr (Or.inr (Or.inl ⟨[], rfl⟩)))
  · exact Or.inr (Or.inl ⟨[sd], rfl⟩)
  · exact Or.inr (Or.inr (Or.inl ⟨[sd], rfl⟩))
  · exact Or.inr (Or.inr (Or.inr (Or.inl ⟨[sd], rfl⟩)))

theorem bind_decomp (x : Option FS) (f : FS → Option FS) (r : FS)
    (h : x.bind f = some r) : ∃ s, x = some s ∧ f s = some r :=
  Option.bind_eq_some.1 h

theorem cleanRun_eq (fs : FS) :
    cleanRun fs = (createDirectoryStructure fs).bind (fun s₁ =>
      (moveAssets s₁).bind (fun s₂ =>
        (createConfigFiles s₂).bind createDocumentation)) := by
  unfold cleanRun
  cases createDirectoryStructure fs with
  | none => rfl
  | some s₁ =>
    show (moveAssets s₁).bind _ = (moveAssets s₁).bind _
    cases moveAssets s₁ with
    | none => rfl
    | some s₂ =>
      show (createConfigFiles s₂).bind _ = (createConfigFiles s₂).bind _
      cases createConfigFiles s₂ with
      | none => rfl
      | some s₃ =>
        show (createDocumentation s₃).bind _ = createDocumentation s₃
        unfold createIndexHtml cleanupOldFiles
        cases createDocumentation s₃ <;> rfl

theorem cleanRun_writes (fs fs₂ : FS) (h : cleanRun fs = some fs₂) :
    ∃ ws, fs₂ = FS.applySets fs ws ∧ ∀ w ∈ ws, TouchKey w.1 := by
  rw [cleanRun_eq] at h
  obtain ⟨s₁, h1, hrest⟩ := Option.bind_eq_some.1 h
  obtain ⟨s₂, h2, hrest2⟩ := Option.bind_eq_some.1 hrest
  obtain ⟨s₃, h3, h4⟩ := Option.bind_eq_some.1 hrest2
  obtain ⟨w1, hw1, hk1⟩ := createDirectoryStructure_touch fs s₁ h1
  obtain ⟨w2, hw2, hk2⟩ := moveAssets_writes s₁ s₂ h2
  obtain ⟨w3, hw3, hk3⟩ := createConfigFiles_writes s₂ s₃ h3
  obtain ⟨w4, hw4, hk4⟩ := createDocumentation_writes s₃ fs₂ h4
  refine ⟨w1 ++ (w2 ++ (w3 ++ w4)), by
    rw [FS.applySets_append, FS.applySets_append, FS.applySets_append,
      ← hw1, ← hw2, ← hw3, ← hw4], ?_⟩
  intro w hw
  rcases List.mem_append.1 hw with ha | hb
  · exact hk1 w ha
  rcases List.mem_append.1 hb with hc | hd
  · exact hk2 w hc
  rcases List.mem_append.1 hd with he | hf
  · rcases (hk3 w he).2 with hk | hk | hk <;> rw [hk]
    · exact Or.inr (Or.inr (Or.inr (Or.inr (Or.inl rfl))))
    · exact Or.inr (Or.inr (Or.inr (Or.inr (Or.inr (Or.inl rfl)))))
    · exact Or.inr (Or.inr (Or.inr (Or.inr (Or.inr (Or.inr (Or.inl rfl))))))
  · rcases hk4 w hf with ⟨hk, _⟩ | ⟨hk, _⟩ | ⟨hk, _⟩ <;> rw [hk]
    · exact Or.inr (Or.inr (Or.inr (Or.inr (Or.inr (Or.inr (Or.inr rfl))))))
    · exact Or.inr (Or.inr (Or.inr (Or.inl ⟨[], rfl⟩)))
    · exact Or.inr (Or.inr (Or.inr (Or.inl ⟨["TECHNICAL.md"], rfl⟩)))

theorem createConfigFilesR_writes (fs fs₂ : FS) (h : createConfigFilesR fs = some fs₂) :
    ∃ ws, fs₂ = FS.applySets fs ws ∧ ∀ w ∈ ws, (∃ b, w.2 = Node.file b) ∧
      (w.1 = ["package.json"] ∨ w.1 = ["vercel.json"]) := by
  unfold createConfigFilesR at h
  obtain ⟨s₁, h1, h2⟩ := Option.bind_eq_some.1 h
  obtain ⟨w1, hw1, hk1⟩ := FS.writeFile_writes _ _ _ _ h1
  obtain ⟨w2, hw2, hk2⟩ := FS.writeFile_writes _ _ _ _ h2
  refine ⟨w1 ++ w2, by rw [FS.applySets_append, ← hw1, ← hw2], ?_⟩
  intro w hw
  rcases List.mem_append.1 hw with ha | hb
  · rw [hk1 w ha]; exact ⟨⟨_, rfl⟩, Or.inl rfl⟩
  · rw [hk2 w hb]; exact ⟨⟨_, rfl⟩, Or.inr rfl⟩

theorem restructureRun_writes (fs fs₂ : FS) (h : restructureRun fs = some fs₂) :
    ∃ ws, fs₂ = FS.applySets fs ws ∧ ∀ w ∈ ws, TouchKey w.1 := by
  unfold restructureRun at h
  obtain ⟨s₁, h1, hrest⟩ := Option.bind_eq_some.1 h
  obtain ⟨s₂, h2, hrest2⟩ := Option.bind_eq_some.1 hrest
  obtain ⟨s₃, h3, h4⟩ := Option.bind_eq_some.1 hrest2
  obtain ⟨w1, hw1, hk1⟩ := createDirectoryStructure_touch fs s₁ h1
  obtain ⟨w2, hw2, hk2⟩ := moveAssets_writes s₁ s₂ h2
  obtain ⟨w3, hw3, hk3⟩ := createConfigFilesR_writes s₂ s₃ h3
  obtain ⟨w4, hw4, hk4⟩ := FS.writeFile_writes _ _ _ _ h4
  refine ⟨w1 ++ (w2 ++ (w3 ++ w4)), by
    rw [FS.applySets_append, FS.applySets_append, FS.applySets_append,
      ← hw1, ← hw2, ← hw3, ← hw4], ?_⟩
  intro w hw
  rcases List.mem_append.1 hw with ha | hb
  · exact hk1 w ha
  rcases List.mem_append.1 hb with hc | hd
  · exact hk2 w hc
  rcases List.mem_append.1 hd with he | hf
  · rcases (hk3 w he).2 with hk | hk <;> rw [hk]
    · exact Or.inr (Or.inr (Or.inr (Or.inr (Or.inl rfl))))
    · exact Or.inr (Or.inr (Or.inr (Or.inr (Or.inr (Or.inl rfl)))))
  · rw [hk4 w hf]
    exact Or.inr (Or.inr (Or.inr (Or.inr (Or.inr (Or.inr (Or.inr rfl))))))

/-! ## Legacy-directory frame -/

theorem touchKey_shape (k : FPath) (h : TouchKey k) :
    k = [] ∨ ∃ hk tk, k = hk :: tk ∧
      hk ∈ ["public", "src", "docs", "package.json", "vercel.json",
        ".gitignore", "README.md"] := by
  rcases h with rfl | ⟨t, rfl⟩ | ⟨t, rfl⟩ | ⟨t, rfl⟩ | rfl | rfl | rfl | rfl
  · exact Or.inl rfl
  · exact Or.inr ⟨_, _, rfl, by decide⟩
  · exact Or.inr ⟨_, _, rfl, by decide⟩
  · exact Or.inr ⟨_, _, rfl, by decide⟩
  · exact Or.inr ⟨_, _, rfl, by decide⟩
  · exact Or.inr ⟨_, _, rfl, by decide⟩
  · exact Or.inr ⟨_, _, rfl, by decide⟩
  · exact Or.inr ⟨_, _, rfl, by decide⟩

theorem touchKey_ne_legacy (k : FPath) (h : TouchKey k) (d : String)
    (hd : d ∈ oldDirs) (t : FPath) : k ≠ d :: t := by
  rcases touchKey_shape k h with rfl | ⟨hk, tk, rfl, hmem⟩
  · simp
  · intro heq
    injection heq with h1 _
    have : ∀ x ∈ ["public", "src", "docs", "package.json", "vercel.json",
        ".gitignore", "README.md"], ∀ y ∈ oldDirs, x ≠ y := by decide
    exact this hk hmem d hd h1

theorem cleanRun_legacy_frame (fs fs₂ : FS) (h : cleanRun fs = some fs₂)
    (d : String) (hd : d ∈ oldDirs) (t : FPath) :
    FS.lookup fs₂ (d :: t) = FS.lookup fs (d :: t) := by
  obtain ⟨ws, rfl, hk⟩ := cleanRun_writes fs fs₂ h
  exact FS.lookup_applySets_of_notkey fs ws _
    (fun w hw => touchKey_ne_legacy w.1 (hk w hw) d hd t)

theorem restructureRun_legacy_frame (fs fs₂ : FS) (h : restructureRun fs = some fs₂)
    (d : String) (hd : d ∈ oldDirs) (t : FPath) :
    FS.lookup fs₂ (d :: t) = FS.lookup fs (d :: t) := by
  obtain ⟨ws, rfl, hk⟩ := restructureRun_writes fs fs₂ h
  exact FS.lookup_applySets_of_notkey fs ws _
    (fun w hw => touchKey_ne_legacy w.1 (hk w hw) d hd t)

/-! ## Demonstration states used by the claim witnesses -/

/-- A small well-formed legacy project: `Campus-Tour-NYUAD-main` contains
`pinchable.js` but not `menu.js`; `webxr-samples-main` has a `js` utility
and a `media/textures` tree with one file and one empty subdirectory. -/
def demoFS : FS :=
  [([], Node.dir),
   (["Campus-Tour-NYUAD-main"], Node.dir),
   (["Campus-Tour-NYUAD-main", "pinchable.js"], Node.file "PINCH"),
   (["webxr-samples-main"], Node.dir),
   (["webxr-samples-main", "js"], Node.dir),
   (["webxr-samples-main", "js", "hit-test.js"], Node.file "HIT"),
   (["webxr-samples-main", "media"], Node.dir),
   (["webxr-samples-main", "media", "textures"], Node.dir),
   (["webxr-samples-main", "media", "textures", "sub"], Node.dir),
   (["webxr-samples-main", "media", "textures", "sub", "t.png"], Node.file "TEX"),
   (["webxr-samples-main", "media", "textures", "empty"], Node.dir)]

/-- The result of `clean.py run()` on `demoFS`. -/
def demoCleanOut : FS := (cleanRun demoFS).getD []

theorem opt_eq_some_getD {α : Type} (o : Option α) (d : α) (h : o.isSome = true) :
    o = some (o.getD d) := by cases o <;> simp at h ⊢

/-- The result of `restructure_project.py run()` on `demoFS`. -/
def demoRestructureOut : FS := (restructureRun demoFS).getD []

/-- **C4.** No run of `run()` ever deletes a legacy directory: every path
under each of the fixed legacy directory names (`Campus-Tour-NYUAD-main`,
`webxr-samples-main`, `.git`) has exactly the same node after a completed
run as before, in both scripts; and the `cleanup_old_files` step itself
(whose `shutil.rmtree` is commented out in the source) performs no
filesystem mutation at all, so the deletion action is unreachable. -/
theorem claim_C4_no_legacy_deletion (fs fs₂ : FS) :
    (cleanRun fs = some fs₂ →
      ∀ d ∈ oldDirs, ∀ t : FPath, FS.lookup fs₂ (d :: t) = FS.lookup fs (d :: t)) ∧
    (restructureRun fs = some fs₂ →
      ∀ d ∈ oldDirs, ∀ t : FPath, FS.lookup fs₂ (d :: t) = FS.lookup fs (d :: t)) ∧
    cleanupOldFiles fs = some fs :=
  ⟨fun h d hd t => cleanRun_legacy_frame fs fs₂ h d hd t,
   fun h d hd t => restructureRun_legacy_frame fs fs₂ h d hd t,
   rfl⟩

set_option maxRecDepth 8000 in
/-- Witness for C4: on the demonstration state, the run completes and the
legacy component file is still in place afterwards. -/
theorem claim_C4_witness :
    cleanRun demoFS = some demoCleanOut ∧
    FS.lookup demoCleanOut ["Campus-Tour-NYUAD-main", "pinchable.js"] =
      some (Node.file "PINCH") := by
  have hrun : cleanRun demoFS = some demoCleanOut :=
    opt_eq_some_getD (cleanRun demoFS) [] (by decide)
  refine ⟨hrun, ?_⟩
  rw [(claim_C4_no_legacy_deletion demoFS demoCleanOut).1 hrun
    "Campus-Tour-NYUAD-main" (by decide) ["pinchable.js"]]
  decide

/-! ## Run-level directory postconditions (C2) -/

theorem createConfigFilesR_dirMono (fs fs₂ : FS) (q : FPath)
    (h : createConfigFilesR fs = some fs₂)
    (hq : FS.lookup fs q = some Node.dir) : FS.lookup fs₂ q = some Node.dir := by
  unfold createConfigFilesR at h
  obtain ⟨s₁, h1, h2⟩ := Option.bind_eq_some.1 h
  exact FS.writeFile_dirMono _ _ _ _ _ h2 (FS.writeFile_dirMono _ _ _ _ _ h1 hq)

theorem cleanRun_dirs_post (fs fs₂ : FS) (h : cleanRun fs = some fs₂) :
    ∀ md ∈ newStructure, FS.lookup fs₂ [md.1] = some Node.dir ∧
      ∀ sd ∈ md.2, FS.lookup fs₂ [md.1, sd] = some Node.dir := by
  rw [cleanRun_eq] at h
  obtain ⟨s₁, h1, hrest⟩ := Option.bind_eq_some.1 h
  obtain ⟨s₂, h2, hrest2⟩ := Option.bind_eq_some.1 hrest
  obtain ⟨s₃, h3, h4⟩ := Option.bind_eq_some.1 hrest2
  intro md hmd
  obtain ⟨ha, hb⟩ := createDirectoryStructure_post fs s₁ h1 md hmd
  constructor
  · exact createDocumentation_dirMono s₃ fs₂ _ h4 (createConfigFiles_dirMono s₂ s₃ _ h3
      (moveAssets_dirMono s₁ s₂ _ h2 ha))
  · intro sd hsd
    exact createDocumentation_dirMono s₃ fs₂ _ h4 (createConfigFiles_dirMono s₂ s₃ _ h3
      (moveAssets_dirMono s₁ s₂ _ h2 (hb sd hsd)))

theorem restructureRun_dirs_post (fs fs₂ : FS) (h : restructureRun fs = some fs₂) :
    ∀ md ∈ newStructure, FS.lookup fs₂ [md.1] = some Node.dir ∧
      ∀ sd ∈ md.2, FS.lookup fs₂ [md.1, sd] = some Node.dir := by
  unfold restructureRun at h
  obtain ⟨s₁, h1, hrest⟩ := Option.bind_eq_some.1 h
  obtain ⟨s₂, h2, hrest2⟩ := Option.bind_eq_some.1 hrest
  obtain ⟨s₃, h3, h4⟩ := Option.bind_eq_some.1 hrest2
  intro md hmd
  obtain ⟨ha, hb⟩ := createDirectoryStructure_post fs s₁ h1 md hmd
  constructor
  · exact FS.writeFile_dirMono _ _ _ _ _ h4 (createConfigFilesR_dirMono s₂ s₃ _ h3
      (moveAssets_dirMono s₁ s₂ _ h2 ha))
  · intro sd hsd
    exact FS.writeFile_dirMono _ _ _ _ _ h4 (createConfigFilesR_dirMono s₂ s₃ _ h3
      (moveAssets_dirMono s₁ s₂ _ h2 (hb sd hsd)))

/-- **C2.** After either script's `run()` completes, every directory of the
fixed plan (`public` with `assets`/`models`/`textures`/`audio`, `src` with
`components`/`utils`/`styles`, and `docs`) exists as a directory in the
resulting state; and a state in which all planned directories already exist
passes the directory-creation step unchanged and without error. -/
theorem claim_C2_plan_dirs_exist (fs fs₂ : FS) :
    ((cleanRun fs = some fs₂ ∨ restructureRun fs = some fs₂) →
      ∀ md ∈ newStructure, FS.lookup fs₂ [md.1] = some Node.dir ∧
        ∀ sd ∈ md.2, FS.lookup fs₂ [md.1, sd] = some Node.dir) ∧
    ((∀ md ∈ newStructure, FS.lookup fs [md.1] = some Node.dir ∧
        ∀ sd ∈ md.2, FS.lookup fs [md.1, sd] = some Node.dir) →
      createDirectoryStructure fs = some fs) := by
  constructor
  · rintro (h | h)
    · exact cleanRun_dirs_post fs fs₂ h
    · exact restructureRun_dirs_post fs fs₂ h
  · exact createDirectoryStructure_noop fs

/-- Witness for C2: on the demonstration state the run completes and the
planned `src/components` directory exists afterwards. -/
theorem claim_C2_witness :
    cleanRun demoFS = some demoCleanOut ∧
    FS.lookup demoCleanOut ["src", "components"] = some Node.dir := by
  have hrun : cleanRun demoFS = some demoCleanOut :=
    opt_eq_some_getD (cleanRun demoFS) [] (by decide)
  refine ⟨hrun, ?_⟩
  exact ((claim_C2_plan_dirs_exist demoFS demoCleanOut).1 (Or.inl hrun)
    ("src", ["components", "utils", "styles"]) (by decide)).2 "components" (by decide)

/-! ## Run-level configuration-file postconditions (C6) -/

theorem cleanRun_configs (fs fs₂ : FS) (h : cleanRun fs = some fs₂) :
    FS.lookup fs₂ ["package.json"] = some (Node.file (JValue.dumps 0 packageJsonObj)) ∧
    FS.lookup fs₂ ["vercel.json"] = some (Node.file (JValue.dumps 0 vercelObj)) ∧
    FS.lookup fs₂ [".gitignore"] = some (Node.file gitignoreContent) := by
  rw [cleanRun_eq] at h
  obtain ⟨s₁, h1, hrest⟩ := Option.bind_eq_some.1 h
  obtain ⟨s₂, h2, hrest2⟩ := Option.bind_eq_some.1 hrest
  obtain ⟨s₃, h3, h4⟩ := Option.bind_eq_some.1 hrest2
  obtain ⟨_, hp, hv, hg, _⟩ := createConfigFiles_parts s₂ s₃ h3
  obtain ⟨_, _, _, _, hfr⟩ := createDocumentation_parts s₃ fs₂ h4
  refine ⟨?_, ?_, ?_⟩
  · rw [hfr _ (by decide) (by decide) (by decide)]; exact hp
  · rw [hfr _ (by decide) (by decide) (by decide)]; exact hv
  · rw [hfr _ (by decide) (by decide) (by decide)]; exact hg

theorem restructureRun_configs (fs fs₂ : FS) (h : restructureRun fs = some fs₂) :
    FS.lookup fs₂ ["package.json"] = some (Node.file (JValue.dumps 0 packageJsonObj)) ∧
    FS.lookup fs₂ ["vercel.json"] = some (Node.file (JValue.dumps 0 vercelObjR)) := by
  unfold restructureRun at h
  obtain ⟨s₁, h1, hrest⟩ := Option.bind_eq_some.1 h
  obtain ⟨s₂, h2, hrest2⟩ := Option.bind_eq_some.1 hrest
  obtain ⟨s₃, h3, h4⟩ := Option.bind_eq_some.1 hrest2
  obtain ⟨_, hp, hv, _⟩ := createConfigFilesR_parts s₂ s₃ h3
  obtain ⟨_, _, hfr⟩ := createDocumentationR_parts s₃ fs₂ h4
  exact ⟨by rw [hfr _ (by decide)]; exact hp, by rw [hfr _ (by decide)]; exact hv⟩

/-- The top-level field names of a JSON object value. -/
def JValue.topKeys : JValue → List String
  | JValue.obj fields => fields.map Prod.fst
  | _ => []

/-- **C6.** After every completed run of either script, `package.json`
holds exactly the indented serialization of the literal package object
(whose top-level fields are exactly name, version, description, author,
license, scripts, keywords, repository) and `vercel.json` holds exactly the
indented serialization of the literal deployment object (whose top-level
fields are exactly version, builds, routes, headers; the
`restructure_project.py` variant carries one extra Permissions-Policy
header entry inside the headers field). -/
theorem claim_C6_config_file_contents (fs fs₂ : FS) :
    (cleanRun fs = some fs₂ →
      FS.lookup fs₂ ["package.json"] = some (Node.file (JValue.dumps 0 packageJsonObj)) ∧
      FS.lookup fs₂ ["vercel.json"] = some (Node.file (JValue.dumps 0 vercelObj))) ∧
    (restructureRun fs = some fs₂ →
      FS.lookup fs₂ ["package.json"] = some (Node.file (JValue.dumps 0 packageJsonObj)) ∧
      FS.lookup fs₂ ["vercel.json"] = some (Node.file (JValue.dumps 0 vercelObjR))) ∧
    packageJsonObj.topKeys = ["name", "version", "description", "author",
      "license", "scripts", "keywords", "repository"] ∧
    vercelObj.topKeys = ["version", "builds", "routes", "headers"] ∧
    vercelObjR.topKeys = ["version", "builds", "routes", "headers"] := by
  refine ⟨fun h => ?_, fun h => restructureRun_configs fs fs₂ h, rfl, rfl, rfl⟩
  obtain ⟨hp, hv, _⟩ := cleanRun_configs fs fs₂ h
  exact ⟨hp, hv⟩

/-- Witness for C6: on the demonstration state the run completes and the
package descriptor afterwards is the serialized literal object. -/
theorem claim_C6_witness :
    cleanRun demoFS = some demoCleanOut ∧
    FS.lookup demoCleanOut ["package.json"] =
      some (Node.file (JValue.dumps 0 packageJsonObj)) := by
  have hrun : cleanRun demoFS = some demoCleanOut :=
    opt_eq_some_getD (cleanRun demoFS) [] (by decide)
  exact ⟨hrun, ((claim_C6_config_file_contents demoFS demoCleanOut).1 hrun).1⟩

/-! ## Precise key sets for the directory and asset steps -/

/-- Every path the directory-creation step may write, as a concrete list. -/
def planKeys : List FPath :=
  [["public"], ["public", "assets"], ["public", "models"], ["public", "textures"],
   ["public", "audio"], ["src"], ["src", "components"], ["src", "utils"],
   ["src", "styles"], ["docs"]]

theorem createDirectoryStructure_keys (fs fs₂ : FS)
    (h : createDirectoryStructure fs = some fs₂) :
    ∃ ws, fs₂ = FS.applySets fs ws ∧ ∀ w ∈ ws, w.2 = Node.dir ∧ w.1 ∈ planKeys := by
  obtain ⟨ws, hws, hk⟩ := createDirectoryStructure_writes fs fs₂ h
  refine ⟨ws, hws, fun w hw => ?_⟩
  obtain ⟨hv, md, hmd, hkk⟩ := hk w hw
  refine ⟨hv, ?_⟩
  simp only [newStructure, List.mem_cons, List.mem_singleton,
    List.not_mem_nil, or_false] at hmd
  rcases hmd with h4 | h4 | h4 <;> subst h4 <;>
    rcases hkk with h5 | ⟨sd, hsd, h5⟩ <;> rw [h5]
  · decide
  · exact (show ∀ x ∈ ["assets", "models", "textures", "audio"],
      ([("public" : String), x] : FPath) ∈ planKeys by decide) sd hsd
  · decide
  · exact (show ∀ x ∈ ["components", "utils", "styles"],
      ([("src" : String), x] : FPath) ∈ planKeys by decide) sd hsd
  · decide
  · exact (show ∀ x ∈ ([] : List String),
      ([("docs" : String), x] : FPath) ∈ planKeys by decide) sd hsd

/-- The keys the asset-moving step may write: the base path, and paths under
`public` or `src`. -/
def AssetKey (k : FPath) : Prop :=
  k = [] ∨ (∃ t, k = "public" :: t) ∨ (∃ t, k = "src" :: t)

theorem moveAssets_writes_asset (fs fs₂ : FS) (h : moveAssets fs = some fs₂) :
    ∃ ws, fs₂ = FS.applySets fs ws ∧ ∀ w ∈ ws, AssetKey w.1 := by
  unfold moveAssets at h
  obtain ⟨s₁, h1, hrest⟩ := Option.bind_eq_some.1 h
  obtain ⟨s₂, h2, h3⟩ := Option.bind_eq_some.1 hrest
  obtain ⟨w1, hw1, hk1⟩ := copyComps_writes fs s₁ h1
  obtain ⟨w2, hw2, hk2⟩ := copyUtils_writes s₁ s₂ h2
  obtain ⟨w3, hw3, hk3⟩ := moveMediaFiles_writes_pub s₂ fs₂ h3
  refine ⟨w1 ++ (w2 ++ w3), by
    rw [FS.applySets_append, FS.applySets_append, ← hw1, ← hw2, ← hw3], ?_⟩
  intro w hw
  rcases List.mem_append.1 hw with ha | hb
  · obtain ⟨c, _, _, hk⟩ := hk1 w ha
    rcases hk with hk | hk <;> rw [hk] <;>
      exact Or.inr (Or.inr ⟨_, rfl⟩)
  · rcases List.mem_append.1 hb with hc | hd
    · obtain ⟨u, _, _, hk⟩ := hk2 w hc
      rcases hk with hk | hk <;> rw [hk] <;>
        exact Or.inr (Or.inr ⟨_, rfl⟩)
    · rcases hk3 w hd with hk | ⟨t, hk⟩
      · exact Or.inl hk
      · exact Or.inr (Or.inl ⟨t, hk⟩)

theorem assetKey_ne (k : FPath) (h : AssetKey k) (d : String) (t : FPath)
    (hd : d ≠ "public") (hs : d ≠ "src") : k ≠ d :: t := by
  rcases h with rfl | ⟨u, rfl⟩ | ⟨u, rfl⟩
  · simp
  · intro heq; injection heq with h1 _; exact hd h1.symm
  · intro heq; injection heq with h1 _; exact hs h1.symm

/-- Paths untouched by `restructure_project.py`: it never writes
`.gitignore` nor `docs/TECHNICAL.md`. -/
theorem restructureRun_gitignore_tech_frame (fs fs₂ : FS)
    (h : restructureRun fs = some fs₂) :
    FS.lookup fs₂ [".gitignore"] = FS.lookup fs [".gitignore"] ∧
    FS.lookup fs₂ ["docs", "TECHNICAL.md"] = FS.lookup fs ["docs", "TECHNICAL.md"] := by
  unfold restructureRun at h
  obtain ⟨s₁, h1, hrest⟩ := Option.bind_eq_some.1 h
  obtain ⟨s₂, h2, hrest2⟩ := Option.bind_eq_some.1 hrest
  obtain ⟨s₃, h3, h4⟩ := Option.bind_eq_some.1 hrest2
  obtain ⟨wd, hwd, hkd⟩ := createDirectoryStructure_keys fs s₁ h1
  obtain ⟨wa, hwa, hka⟩ := moveAssets_writes_asset s₁ s₂ h2
  obtain ⟨wc, hwc, hkc⟩ := createConfigFilesR_writes s₂ s₃ h3
  obtain ⟨wr, hwr, hkr⟩ := FS.writeFile_writes _ _ _ _ h4
  have hd : ∀ q ∈ wd, q.1 ≠ [".gitignore"] ∧ q.1 ≠ ["docs", "TECHNICAL.md"] := by
    intro q hq
    have hm := (hkd q hq).2
    revert hm
    unfold planKeys
    intro hm
    simp only [List.mem_cons, List.not_mem_nil, or_false] at hm
    rcases hm with hm|hm|hm|hm|hm|hm|hm|hm|hm|hm <;> rw [hm] <;> exact ⟨by decide, by decide⟩
  constructor
  · rw [hwr, FS.lookup_applySets_of_notkey _ _ _ (fun w hw => by
      rw [hkr w hw]; decide)]
    rw [hwc, FS.lookup_applySets_of_notkey _ _ _ (fun w hw => by
      rcases (hkc w hw).2 with hk | hk <;> rw [hk] <;> decide)]
    rw [hwa, FS.lookup_applySets_of_notkey _ _ _ (fun w hw =>
      assetKey_ne w.1 (hka w hw) _ _ (by decide) (by decide))]
    rw [hwd, FS.lookup_applySets_of_notkey _ _ _ (fun w hw => (hd w hw).1)]
  · rw [hwr, FS.lookup_applySets_of_notkey _ _ _ (fun w hw => by
      rw [hkr w hw]; decide)]
    rw [hwc, FS.lookup_applySets_of_notkey _ _ _ (fun w hw => by
      rcases (hkc w hw).2 with hk | hk <;> rw [hk] <;> decide)]
    rw [hwa, FS.lookup_applySets_of_notkey _ _ _ (fun w hw =>
      assetKey_ne w.1 (hka w hw) _ _ (by decide) (by decide))]
    rw [hwd, FS.lookup_applySets_of_notkey _ _ _ (fun w hw => (hd w hw).2)]

/-- **C7 (amended).** `clean.py run()` writes the README, the technical
documentation file `docs/TECHNICAL.md` (its parent directory `docs` is
created first), and the generated `.gitignore`, all with their fixed
template contents. `restructure_project.py run()` writes only its README
template: it never writes `.gitignore` or `docs/TECHNICAL.md` — both paths
are left exactly as they were before the run, so the original claim that
every run produces a `.gitignore` and the technical documentation is false
for that script. -/
theorem claim_C7_documentation_outputs (fs fs₂ : FS) :
    (cleanRun fs = some fs₂ →
      FS.lookup fs₂ ["README.md"] = some (Node.file readmeContent) ∧
      FS.lookup fs₂ ["docs", "TECHNICAL.md"] = some (Node.file techDoc) ∧
      FS.lookup fs₂ [".gitignore"] = some (Node.file gitignoreContent)) ∧
    (restructureRun fs = some fs₂ →
      FS.lookup fs₂ ["README.md"] = some (Node.file readmeContentR) ∧
      FS.lookup fs₂ [".gitignore"] = FS.lookup fs [".gitignore"] ∧
      FS.lookup fs₂ ["docs", "TECHNICAL.md"] = FS.lookup fs ["docs", "TECHNICAL.md"]) := by
  constructor
  · intro h
    have hg := (cleanRun_configs fs fs₂ h).2.2
    rw [cleanRun_eq] at h
    obtain ⟨s₁, h1, hrest⟩ := Option.bind_eq_some.1 h
    obtain ⟨s₂, h2, hrest2⟩ := Option.bind_eq_some.1 hrest
    obtain ⟨s₃, h3, h4⟩ := Option.bind_eq_some.1 hrest2
    obtain ⟨_, hr, _, ht, _⟩ := createDocumentation_parts s₃ fs₂ h4
    exact ⟨hr, ht, hg⟩
  · intro h
    have hfr := restructureRun_gitignore_tech_frame fs fs₂ h
    unfold restructureRun at h
    obtain ⟨s₁, h1, hrest⟩ := Option.bind_eq_some.1 h
    obtain ⟨s₂, h2, hrest2⟩ := Option.bind_eq_some.1 hrest
    obtain ⟨s₃, h3, h4⟩ := Option.bind_eq_some.1 hrest2
    obtain ⟨_, hr, _⟩ := createDocumentationR_parts s₃ fs₂ h4
    exact ⟨hr, hfr.1, hfr.2⟩

/-- Counterexample to C7 as stated: a completed `restructure_project.py`
run whose output contains neither a `.gitignore` nor `docs/TECHNICAL.md`. -/
theorem claim_C7_counterexample :
    restructureRun demoFS = some demoRestructureOut ∧
    FS.lookup demoRestructureOut [".gitignore"] = none ∧
    FS.lookup demoRestructureOut ["docs", "TECHNICAL.md"] = none :=
  ⟨opt_eq_some_getD (restructureRun demoFS) [] (by decide), by decide, by decide⟩

/-- Witness for C7: `clean.py` does produce the technical documentation. -/
theorem claim_C7_witness :
    cleanRun demoFS = some demoCleanOut ∧
    FS.lookup demoCleanOut ["docs", "TECHNICAL.md"] = some (Node.file techDoc) := by
  have hrun : cleanRun demoFS = some demoCleanOut :=
    opt_eq_some_getD (cleanRun demoFS) [] (by decide)
  exact ⟨hrun, ((claim_C7_documentation_outputs demoFS demoCleanOut).1 hrun).2.1⟩

/-! ## Process exit behaviour (C8) -/

/-- `clean.py` as a process: `run()` either completes (exit status 0) or an
unhandled Python exception aborts the interpreter (exit status 1). -/
def cleanMain (fs : FS) : Nat :=
  match cleanRun fs with
  | some _ => 0
  | none => 1

/-- `restructure_project.py` as a process. -/
def restructureMain (fs : FS) : Nat :=
  match restructureRun fs with
  | some _ => 0
  | none => 1

/-- A base path whose planned directory `public` is obstructed by a regular
file: `mkdir(exist_ok=True)` raises `FileExistsError` there. -/
def badFS : FS := [([], Node.dir), (["public"], Node.file "X")]

/-- **C8 (amended).** The process exits 0 exactly when `run()` completes;
on states where a filesystem operation raises an unhandled exception (for
example a regular file sitting where a planned directory must be created)
the run aborts and the interpreter exits with a non-zero status, so "no
failure path produces a non-zero exit" is false. -/
theorem claim_C8_exit_status (fs : FS) :
    (cleanMain fs = 0 ↔ ∃ fs₂, cleanRun fs = some fs₂) ∧
    (restructureMain fs = 0 ↔ ∃ fs₂, restructureRun fs = some fs₂) := by
  constructor
  · unfold cleanMain
    cases h : cleanRun fs with
    | none =>
      constructor
      · intro h0; exact absurd h0 (by decide)
      · rintro ⟨s, hs⟩; exact Option.noConfusion hs
    | some s => exact ⟨fun _ => ⟨s, rfl⟩, fun _ => rfl⟩
  · unfold restructureMain
    cases h : restructureRun fs with
    | none =>
      constructor
      · intro h0; exact absurd h0 (by decide)
      · rintro ⟨s, hs⟩; exact Option.noConfusion hs
    | some s => exact ⟨fun _ => ⟨s, rfl⟩, fun _ => rfl⟩

/-- Counterexample to C8 as stated: a state on which both scripts abort
with a non-zero exit status. -/
theorem claim_C8_counterexample :
    cleanMain badFS = 1 ∧ restructureMain badFS = 1 ∧ cleanRun badFS = none ∧
    restructureRun badFS = none := by decide

/-! ## Transport frames across the pipeline, and well-formedness facts -/

theorem head_ne_ne (a b : String) (t u : FPath) (h : a ≠ b) : a :: t ≠ b :: u := by
  intro he
  injection he with h1 _
  exact h h1

theorem dirs_frame_head (fs fs₂ : FS) (h : createDirectoryStructure fs = some fs₂)
    (d : String) (t : FPath) (h1 : d ≠ "public") (h2 : d ≠ "src") (h3 : d ≠ "docs") :
    FS.lookup fs₂ (d :: t) = FS.lookup fs (d :: t) := by
  obtain ⟨ws, rfl, hk⟩ := createDirectoryStructure_keys fs _ h
  refine FS.lookup_applySets_of_notkey _ _ _ (fun w hw => ?_)
  have hm := (hk w hw).2
  revert hm
  unfold planKeys
  intro hm
  simp only [List.mem_cons, List.not_mem_nil, or_false] at hm
  rcases hm with hm|hm|hm|hm|hm|hm|hm|hm|hm|hm <;> rw [hm] <;>
    first
      | exact head_ne_ne _ _ _ _ (Ne.symm h1)
      | exact head_ne_ne _ _ _ _ (Ne.symm h2)
      | exact head_ne_ne _ _ _ _ (Ne.symm h3)

theorem dirs_frame_len (fs fs₂ : FS) (h : createDirectoryStructure fs = some fs₂)
    (q : FPath) (hq : 3 ≤ q.length) : FS.lookup fs₂ q = FS.lookup fs q := by
  obtain ⟨ws, rfl, hk⟩ := createDirectoryStructure_keys fs _ h
  refine FS.lookup_applySets_of_notkey _ _ _ (fun w hw => ?_)
  intro he
  have hm := (hk w hw).2
  rw [he] at hm
  have hlen : ∀ x ∈ planKeys, List.length x < 3 := by decide
  have := hlen q hm
  omega

theorem copyComps_frame_head (fs fs₂ : FS) (h : copyComps fs = some fs₂)
    (d : String) (t : FPath) (hd : d ≠ "src") :
    FS.lookup fs₂ (d :: t) = FS.lookup fs (d :: t) := by
  obtain ⟨ws, rfl, hk⟩ := copyComps_writes fs _ h
  refine FS.lookup_applySets_of_notkey _ _ _ (fun w hw => ?_)
  obtain ⟨c, _, _, hkey⟩ := hk w hw
  rcases hkey with h4 | h4 <;> rw [h4]
  · show ("src" :: "components" :: [c] : FPath) ≠ d :: t
    exact head_ne_ne _ _ _ _ (Ne.symm hd)
  · show ("src" :: "components" :: [c, c] : FPath) ≠ d :: t
    exact head_ne_ne _ _ _ _ (Ne.symm hd)

theorem copyComps_frame_utils (fs fs₂ : FS) (h : copyComps fs = some fs₂) (t : FPath) :
    FS.lookup fs₂ ("src" :: "utils" :: t) = FS.lookup fs ("src" :: "utils" :: t) := by
  obtain ⟨ws, rfl, hk⟩ := copyComps_writes fs _ h
  refine FS.lookup_applySets_of_notkey _ _ _ (fun w hw => ?_)
  obtain ⟨c, _, _, hkey⟩ := hk w hw
  rcases hkey with h4 | h4 <;> rw [h4]
  · exact ne_second "src" "components" "utils" [c] t (by decide)
  · exact ne_second "src" "components" "utils" [c, c] t (by decide)

theorem copyUtils_frame_head (fs fs₂ : FS) (h : copyUtils fs = some fs₂)
    (d : String) (t : FPath) (hd : d ≠ "src") :
    FS.lookup fs₂ (d :: t) = FS.lookup fs (d :: t) := by
  obtain ⟨ws, rfl, hk⟩ := copyUtils_writes fs _ h
  refine FS.lookup_applySets_of_notkey _ _ _ (fun w hw => ?_)
  obtain ⟨u, _, _, hkey⟩ := hk w hw
  rcases hkey with h4 | h4 <;> rw [h4]
  · show ("src" :: "utils" :: [u] : FPath) ≠ d :: t
    exact head_ne_ne _ _ _ _ (Ne.symm hd)
  · show ("src" :: "utils" :: [u, u] : FPath) ≠ d :: t
    exact head_ne_ne _ _ _ _ (Ne.symm hd)

theorem copyUtils_frame_comps (fs fs₂ : FS) (h : copyUtils fs = some fs₂) (t : FPath) :
    FS.lookup fs₂ ("src" :: "components" :: t) =
      FS.lookup fs ("src" :: "components" :: t) := by
  obtain ⟨ws, rfl, hk⟩ := copyUtils_writes fs _ h
  refine FS.lookup_applySets_of_notkey _ _ _ (fun w hw => ?_)
  obtain ⟨u, _, _, hkey⟩ := hk w hw
  rcases hkey with h4 | h4 <;> rw [h4]
  · exact ne_second "src" "utils" "components" [u] t (by decide)
  · exact ne_second "src" "utils" "components" [u, u] t (by decide)

theorem moveMediaFiles_frame_head (fs fs₂ : FS) (h : moveMediaFiles fs = some fs₂)
    (d : String) (t : FPath) (hd : d ≠ "public") :
    FS.lookup fs₂ (d :: t) = FS.lookup fs (d :: t) := by
  obtain ⟨ws, rfl, hk⟩ := moveMediaFiles_writes_pub fs _ h
  exact FS.lookup_applySets_of_notkey _ _ _
    (fun w hw => pubKey_ne_cons w.1 (hk w hw) d t hd)

theorem cleanTail_frame (s₂ fs₂ : FS)
    (h : (createConfigFiles s₂).bind createDocumentation = some fs₂)
    (d : String) (t : FPath) (h1 : d ≠ "package.json") (h2 : d ≠ "vercel.json")
    (h3 : d ≠ ".gitignore") (h4 : d ≠ "README.md") (h5 : d ≠ "docs") :
    FS.lookup fs₂ (d :: t) = FS.lookup s₂ (d :: t) := by
  obtain ⟨s₃, hc, hd'⟩ := Option.bind_eq_some.1 h
  obtain ⟨_, _, _, _, hfrc⟩ := createConfigFiles_parts s₂ s₃ hc
  obtain ⟨_, _, _, _, hfrd⟩ := createDocumentation_parts s₃ fs₂ hd'
  rw [hfrd _ (head_ne_ne _ _ _ _ h4) (head_ne_ne _ _ _ _ h5)
    (head_ne_ne _ _ _ _ h5)]
  exact hfrc _ (head_ne_ne _ _ _ _ h1) (head_ne_ne _ _ _ _ h2)
    (head_ne_ne _ _ _ _ h3)

theorem restructureTail_frame (s₂ fs₂ : FS)
    (h : (createConfigFilesR s₂).bind createDocumentationR = some fs₂)
    (d : String) (t : FPath) (h1 : d ≠ "package.json") (h2 : d ≠ "vercel.json")
    (h4 : d ≠ "README.md") :
    FS.lookup fs₂ (d :: t) = FS.lookup s₂ (d :: t) := by
  obtain ⟨s₃, hc, hd'⟩ := Option.bind_eq_some.1 h
  obtain ⟨_, _, _, hfrc⟩ := createConfigFilesR_parts s₂ s₃ hc
  obtain ⟨_, _, hfrd⟩ := createDocumentationR_parts s₃ fs₂ hd'
  rw [hfrd _ (head_ne_ne _ _ _ _ h4)]
  exact hfrc _ (head_ne_ne _ _ _ _ h1) (head_ne_ne _ _ _ _ h2)

theorem wf_prefix_dir (fs : FS) (hwf : FS.WF fs) (p q : FPath) (n : Node)
    (h : FS.lookup fs p = some n) (hpre : q <+: p) (hne : q ≠ p) :
    FS.lookup fs q = some Node.dir :=
  hwf (p, n) (FS.lookup_mem fs p n h) q ((mem_buildChain_nil p q).2 hpre) hne

theorem wf_parent_dir (fs : FS) (hwf : FS.WF fs) (p : FPath) (u : String) (n : Node)
    (h : FS.lookup fs (p ++ [u]) = some n) : FS.lookup fs p = some Node.dir :=
  wf_prefix_dir fs hwf (p ++ [u]) p n h (List.prefix_append p [u]) (fun he => by
    have := congrArg List.length he
    simp at this)

theorem wf_nochain (fs : FS) (hwf : FS.WF fs) (item c : FPath) (b bc : String)
    (hitem : FS.lookup fs item = some (Node.file b))
    (hc : FS.lookup fs c = some (Node.file bc)) :
    (c <+: item → c = item) ∧ (item <+: c → c = item) := by
  constructor
  · intro hp
    by_contra hne
    have := wf_prefix_dir fs hwf item c _ hitem hp hne
    exact absurd (hc.symm.trans this) (by simp)
  · intro hp
    by_contra hne
    have := wf_prefix_dir fs hwf c item _ hc hp (fun he => hne he.symm)
    exact absurd (hitem.symm.trans this) (by simp)

/-! ## Component and utility copy facts through `move_assets` -/

theorem assets_comps_pos (fs s₁ sA : FS)
    (h1 : createDirectoryStructure fs = some s₁) (h2 : moveAssets s₁ = some sA)
    (comp : String) (hc : comp ∈ aframeComponents) (b : String)
    (hsrc : FS.lookup fs ("Campus-Tour-NYUAD-main" :: [comp]) = some (Node.file b)) :
    (FS.lookup fs ("src" :: "components" :: [comp]) ≠ some Node.dir →
      FS.lookup sA ("src" :: "components" :: [comp]) = some (Node.file b)) ∧
    (FS.lookup fs ("src" :: "components" :: [comp]) = some Node.dir →
      FS.lookup sA ("src" :: "components" :: [comp]) = some Node.dir ∧
      FS.lookup sA ("src" :: "components" :: [comp, comp]) = some (Node.file b)) := by
  unfold moveAssets at h2
  obtain ⟨sC, hC, hrest⟩ := Option.bind_eq_some.1 h2
  obtain ⟨sU, hU, hM⟩ := Option.bind_eq_some.1 hrest
  have hsrc1 : FS.lookup s₁ ("Campus-Tour-NYUAD-main" :: [comp]) = some (Node.file b) :=
    (dirs_frame_head fs s₁ h1 "Campus-Tour-NYUAD-main" [comp]
      (by decide) (by decide) (by decide)).trans hsrc
  have hdest1 : FS.lookup s₁ ("src" :: "components" :: [comp]) =
      FS.lookup fs ("src" :: "components" :: [comp]) :=
    dirs_frame_len fs s₁ h1 _ (by simp)
  have hposC := copyFold_pos ["Campus-Tour-NYUAD-main"] ["src", "components"]
    aframeComponents s₁ sC comp b hneComps hC hc hsrc1
  have htr : ∀ t : FPath,
      FS.lookup sA ("src" :: "components" :: t) =
        FS.lookup sC ("src" :: "components" :: t) := by
    intro t
    rw [moveMediaFiles_frame_head sU sA hM "src" ("components" :: t) (by decide)]
    exact copyUtils_frame_comps sC sU hU t
  constructor
  · intro hnd
    rw [htr [comp]]
    refine hposC.1 ?_
    show FS.lookup s₁ ("src" :: "components" :: [comp]) ≠ some Node.dir
    rw [hdest1]
    exact hnd
  · intro hd
    have hd1 : FS.lookup s₁ (["src", "components"] ++ [comp]) = some Node.dir := by
      show FS.lookup s₁ ("src" :: "components" :: [comp]) = some Node.dir
      rw [hdest1]
      exact hd
    obtain ⟨ha, hb⟩ := hposC.2 hd1
    exact ⟨by rw [htr [comp]]; exact ha, by rw [htr [comp, comp]]; exact hb⟩

theorem assets_comps_absent (fs s₁ sA : FS)
    (h1 : createDirectoryStructure fs = some s₁) (h2 : moveAssets s₁ = some sA)
    (comp : String) (hc : comp ∈ aframeComponents)
    (hsrc : FS.lookup fs ("Campus-Tour-NYUAD-main" :: [comp]) = none) :
    FS.lookup sA ("src" :: "components" :: [comp]) =
      FS.lookup fs ("src" :: "components" :: [comp]) := by
  unfold moveAssets at h2
  obtain ⟨sC, hC, hrest⟩ := Option.bind_eq_some.1 h2
  obtain ⟨sU, hU, hM⟩ := Option.bind_eq_some.1 hrest
  have hsrc1 : FS.lookup s₁ ("Campus-Tour-NYUAD-main" :: [comp]) = none :=
    (dirs_frame_head fs s₁ h1 "Campus-Tour-NYUAD-main" [comp]
      (by decide) (by decide) (by decide)).trans hsrc
  have habs := copyFold_absent ["Campus-Tour-NYUAD-main"] ["src", "components"]
    aframeComponents s₁ sC comp hneComps hC hc hsrc1
  rw [moveMediaFiles_frame_head sU sA hM "src" ("components" :: [comp]) (by decide),
    copyUtils_frame_comps sC sU hU [comp]]
  show FS.lookup sC (["src", "components"] ++ [comp]) =
    FS.lookup fs (["src", "components"] ++ [comp])
  rw [habs]
  exact dirs_frame_len fs s₁ h1 _ (by simp)

theorem assets_utils_pos (fs s₁ sA : FS)
    (h1 : createDirectoryStructure fs = some s₁) (h2 : moveAssets s₁ = some sA)
    (u : String) (hu : u ∈ utilFiles) (b : String)
    (hgate : (FS.lookup fs ["webxr-samples-main", "js"]).isSome)
    (hsrc : FS.lookup fs ("webxr-samples-main" :: "js" :: [u]) = some (Node.file b)) :
    (FS.lookup fs ("src" :: "utils" :: [u]) ≠ some Node.dir →
      FS.lookup sA ("src" :: "utils" :: [u]) = some (Node.file b)) ∧
    (FS.lookup fs ("src" :: "utils" :: [u]) = some Node.dir →
      FS.lookup sA ("src" :: "utils" :: [u]) = some Node.dir ∧
      FS.lookup sA ("src" :: "utils" :: [u, u]) = some (Node.file b)) := by
  unfold moveAssets at h2
  obtain ⟨sC, hC, hrest⟩ := Option.bind_eq_some.1 h2
  obtain ⟨sU, hU, hM⟩ := Option.bind_eq_some.1 hrest
  have hwfr : ∀ t : FPath,
      FS.lookup sC ("webxr-samples-main" :: t) = FS.lookup fs ("webxr-samples-main" :: t) := by
    intro t
    rw [copyComps_frame_head s₁ sC hC "webxr-samples-main" t (by decide)]
    exact dirs_frame_head fs s₁ h1 "webxr-samples-main" t (by decide) (by decide) (by decide)
  have hgateC : (FS.lookup sC ["webxr-samples-main", "js"]).isSome := by
    rw [hwfr ["js"]]
    exact hgate
  have hsrcC : FS.lookup sC ("webxr-samples-main" :: "js" :: [u]) = some (Node.file b) := by
    rw [hwfr ("js" :: [u])]
    exact hsrc
  have hdestC : FS.lookup sC ("src" :: "utils" :: [u]) =
      FS.lookup fs ("src" :: "utils" :: [u]) := by
    rw [copyComps_frame_utils s₁ sC hC [u]]
    exact dirs_frame_len fs s₁ h1 _ (by simp)
  unfold copyUtils at hU
  rw [if_pos hgateC] at hU
  have hposU := copyFold_pos ["webxr-samples-main", "js"] ["src", "utils"]
    utilFiles sC sU u b hneUtils hU hu hsrcC
  have htr : ∀ t : FPath,
      FS.lookup sA ("src" :: "utils" :: t) = FS.lookup sU ("src" :: "utils" :: t) :=
    fun t => moveMediaFiles_frame_head sU sA hM "src" ("utils" :: t) (by decide)
  constructor
  · intro hnd
    rw [htr [u]]
    refine hposU.1 ?_
    show FS.lookup sC ("src" :: "utils" :: [u]) ≠ some Node.dir
    rw [hdestC]
    exact hnd
  · intro hd
    have hd1 : FS.lookup sC (["src", "utils"] ++ [u]) = some Node.dir := by
      show FS.lookup sC ("src" :: "utils" :: [u]) = some Node.dir
      rw [hdestC]
      exact hd
    obtain ⟨ha, hb⟩ := hposU.2 hd1
    exact ⟨by rw [htr [u]]; exact ha, by rw [htr [u, u]]; exact hb⟩

theorem assets_utils_absent (fs s₁ sA : FS)
    (h1 : createDirectoryStructure fs = some s₁) (h2 : moveAssets s₁ = some sA)
    (u : String) (hu : u ∈ utilFiles)
    (hsrc : FS.lookup fs ("webxr-samples-main" :: "js" :: [u]) = none) :
    FS.lookup sA ("src" :: "utils" :: [u]) = FS.lookup fs ("src" :: "utils" :: [u]) := by
  unfold moveAssets at h2
  obtain ⟨sC, hC, hrest⟩ := Option.bind_eq_some.1 h2
  obtain ⟨sU, hU, hM⟩ := Option.bind_eq_some.1 hrest
  have hwfr : ∀ t : FPath,
      FS.lookup sC ("webxr-samples-main" :: t) = FS.lookup fs ("webxr-samples-main" :: t) := by
    intro t
    rw [copyComps_frame_head s₁ sC hC "webxr-samples-main" t (by decide)]
    exact dirs_frame_head fs s₁ h1 "webxr-samples-main" t (by decide) (by decide) (by decide)
  have hdestC : FS.lookup sC ("src" :: "utils" :: [u]) =
      FS.lookup fs ("src" :: "utils" :: [u]) := by
    rw [copyComps_frame_utils s₁ sC hC [u]]
    exact dirs_frame_len fs s₁ h1 _ (by simp)
  have htr : FS.lookup sA ("src" :: "utils" :: [u]) =
      FS.lookup sU ("src" :: "utils" :: [u]) :=
    moveMediaFiles_frame_head sU sA hM "src" ("utils" :: [u]) (by decide)
  unfold copyUtils at hU
  by_cases hg : (FS.lookup sC ["webxr-samples-main", "js"]).isSome
  · rw [if_pos hg] at hU
    have hsrcC : FS.lookup sC ("webxr-samples-main" :: "js" :: [u]) = none := by
      rw [hwfr ("js" :: [u])]
      exact hsrc
    have habs := copyFold_absent ["webxr-samples-main", "js"] ["src", "utils"]
      utilFiles sC sU u hneUtils hU hu hsrcC
    rw [htr]
    show FS.lookup sU (["src", "utils"] ++ [u]) = FS.lookup fs (["src", "utils"] ++ [u])
    rw [habs]
    exact hdestC
  · rw [if_neg hg] at hU
    have : sC = sU := by simpa using hU
    rw [htr, ← this]
    exact hdestC

/-! ## Copy facts at full-run level -/

theorem run_comps_pos (fs fs₂ : FS)
    (hrun : cleanRun fs = some fs₂ ∨ restructureRun fs = some fs₂)
    (comp : String) (hc : comp ∈ aframeComponents) (b : String)
    (hsrc : FS.lookup fs ("Campus-Tour-NYUAD-main" :: [comp]) = some (Node.file b)) :
    (FS.lookup fs ("src" :: "components" :: [comp]) ≠ some Node.dir →
      FS.lookup fs₂ ("src" :: "components" :: [comp]) = some (Node.file b)) ∧
    (FS.lookup fs ("src" :: "components" :: [comp]) = some Node.dir →
      FS.lookup fs₂ ("src" :: "components" :: [comp]) = some Node.dir ∧
      FS.lookup fs₂ ("src" :: "components" :: [comp, comp]) = some (Node.file b)) := by
  rcases hrun with h | h
  · rw [cleanRun_eq] at h
    obtain ⟨s₁, h1, hrest⟩ := Option.bind_eq_some.1 h
    obtain ⟨sA, h2, htail⟩ := Option.bind_eq_some.1 hrest
    have hpos := assets_comps_pos fs s₁ sA h1 h2 comp hc b hsrc
    have htr : ∀ t : FPath,
        FS.lookup fs₂ ("src" :: t) = FS.lookup sA ("src" :: t) :=
      fun t => cleanTail_frame sA fs₂ htail "src" t
        (by decide) (by decide) (by decide) (by decide) (by decide)
    refine ⟨fun hnd => ?_, fun hd => ?_⟩
    · rw [htr ("components" :: [comp])]
      exact hpos.1 hnd
    · obtain ⟨ha, hb⟩ := hpos.2 hd
      exact ⟨by rw [htr ("components" :: [comp])]; exact ha,
        by rw [htr ("components" :: [comp, comp])]; exact hb⟩
  · unfold restructureRun at h
    obtain ⟨s₁, h1, hrest⟩ := Option.bind_eq_some.1 h
    obtain ⟨sA, h2, htail⟩ := Option.bind_eq_some.1 hrest
    have hpos := assets_comps_pos fs s₁ sA h1 h2 comp hc b hsrc
    have htr : ∀ t : FPath,
        FS.lookup fs₂ ("src" :: t) = FS.lookup sA ("src" :: t) :=
      fun t => restructureTail_frame sA fs₂ htail "src" t
        (by decide) (by decide) (by decide)
    refine ⟨fun hnd => ?_, fun hd => ?_⟩
    · rw [htr ("components" :: [comp])]
      exact hpos.1 hnd
    · obtain ⟨ha, hb⟩ := hpos.2 hd
      exact ⟨by rw [htr ("components" :: [comp])]; exact ha,
        by rw [htr ("components" :: [comp, comp])]; exact hb⟩

theorem run_comps_absent (fs fs₂ : FS)
    (hrun : cleanRun fs = some fs₂ ∨ restructureRun fs = some fs₂)
    (comp : String) (hc : comp ∈ aframeComponents)
    (hsrc : FS.lookup fs ("Campus-Tour-NYUAD-main" :: [comp]) = none) :
    FS.lookup fs₂ ("src" :: "components" :: [comp]) =
      FS.lookup fs ("src" :: "components" :: [comp]) := by
  rcases hrun with h | h
  · rw [cleanRun_eq] at h
    obtain ⟨s₁, h1, hrest⟩ := Option.bind_eq_some.1 h
    obtain ⟨sA, h2, htail⟩ := Option.bind_eq_some.1 hrest
    rw [cleanTail_frame sA fs₂ htail "src" ("components" :: [comp])
      (by decide) (by decide) (by decide) (by decide) (by decide)]
    exact assets_comps_absent fs s₁ sA h1 h2 comp hc hsrc
  · unfold restructureRun at h
    obtain ⟨s₁, h1, hrest⟩ := Option.bind_eq_some.1 h
    obtain ⟨sA, h2, htail⟩ := Option.bind_eq_some.1 hrest
    rw [restructureTail_frame sA fs₂ htail "src" ("components" :: [comp])
      (by decide) (by decide) (by decide)]
    exact assets_comps_absent fs s₁ sA h1 h2 comp hc hsrc

theorem run_utils_pos (fs fs₂ : FS)
    (hrun : cleanRun fs = some fs₂ ∨ restructureRun fs = some fs₂)
    (u : String) (hu : u ∈ utilFiles) (b : String)
    (hgate : (FS.lookup fs ["webxr-samples-main", "js"]).isSome)
    (hsrc : FS.lookup fs ("webxr-samples-main" :: "js" :: [u]) = some (Node.file b)) :
    (FS.lookup fs ("src" :: "utils" :: [u]) ≠ some Node.dir →
      FS.lookup fs₂ ("src" :: "utils" :: [u]) = some (Node.file b)) ∧
    (FS.lookup fs ("src" :: "utils" :: [u]) = some Node.dir →
      FS.lookup fs₂ ("src" :: "utils" :: [u]) = some Node.dir ∧
      FS.lookup fs₂ ("src" :: "utils" :: [u, u]) = some (Node.file b)) := by
  rcases hrun with h | h
  · rw [cleanRun_eq] at h
    obtain ⟨s₁, h1, hrest⟩ := Option.bind_eq_some.1 h
    obtain ⟨sA, h2, htail⟩ := Option.bind_eq_some.1 hrest
    have hpos := assets_utils_pos fs s₁ sA h1 h2 u hu b hgate hsrc
    have htr : ∀ t : FPath,
        FS.lookup fs₂ ("src" :: t) = FS.lookup sA ("src" :: t) :=
      fun t => cleanTail_frame sA fs₂ htail "src" t
        (by decide) (by decide) (by decide) (by decide) (by decide)
    refine ⟨fun hnd => ?_, fun hd => ?_⟩
    · rw [htr ("utils" :: [u])]
      exact hpos.1 hnd
    · obtain ⟨ha, hb⟩ := hpos.2 hd
      exact ⟨by rw [htr ("utils" :: [u])]; exact ha,
        by rw [htr ("utils" :: [u, u])]; exact hb⟩
  · unfold restructureRun at h
    obtain ⟨s₁, h1, hrest⟩ := Option.bind_eq_some.1 h
    obtain ⟨sA, h2, htail⟩ := Option.bind_eq_some.1 hrest
    have hpos := assets_utils_pos fs s₁ sA h1 h2 u hu b hgate hsrc
    have htr : ∀ t : FPath,
        FS.lookup fs₂ ("src" :: t) = FS.lookup sA ("src" :: t) :=
      fun t => restructureTail_frame sA fs₂ htail "src" t
        (by decide) (by decide) (by decide)
    refine ⟨fun hnd => ?_, fun hd => ?_⟩
    · rw [htr ("utils" :: [u])]
      exact hpos.1 hnd
    · obtain ⟨ha, hb⟩ := hpos.2 hd
      exact ⟨by rw [htr ("utils" :: [u])]; exact ha,
        by rw [htr ("utils" :: [u, u])]; exact hb⟩

theorem run_utils_absent (fs fs₂ : FS)
    (hrun : cleanRun fs = some fs₂ ∨ restructureRun fs = some fs₂)
    (u : String) (hu : u ∈ utilFiles)
    (hsrc : FS.lookup fs ("webxr-samples-main" :: "js" :: [u]) = none) :
    FS.lookup fs₂ ("src" :: "utils" :: [u]) = FS.lookup fs ("src" :: "utils" :: [u]) := by
  rcases hrun with h | h
  · rw [cleanRun_eq] at h
    obtain ⟨s₁, h1, hrest⟩ := Option.bind_eq_some.1 h
    obtain ⟨sA, h2, htail⟩ := Option.bind_eq_some.1 hrest
    rw [cleanTail_frame sA fs₂ htail "src" ("utils" :: [u])
      (by decide) (by decide) (by decide) (by decide) (by decide)]
    exact assets_utils_absent fs s₁ sA h1 h2 u hu hsrc
  · unfold restructureRun at h
    obtain ⟨s₁, h1, hrest⟩ := Option.bind_eq_some.1 h
    obtain ⟨sA, h2, htail⟩ := Option.bind_eq_some.1 hrest
    rw [restructureTail_frame sA fs₂ htail "src" ("utils" :: [u])
      (by decide) (by decide) (by decide)]
    exact assets_utils_absent fs s₁ sA h1 h2 u hu hsrc

/-- **C1 (amended).** For every name in the fixed component list, if
`Campus-Tour-NYUAD-main/<name>` holds a file before a completed run of
either script, then afterwards `src/components/<name>` holds a file with
identical bytes — provided no directory sits at the destination path; when
a directory does sit there, `shutil.copy2` instead drops the file inside
that directory as `src/components/<name>/<name>`. If the source is absent,
the destination path is left exactly as it was and the skip is not a fault
(the copy step is the identity). The same holds for the fixed utility list
under `webxr-samples-main/js` with destination `src/utils`. -/
theorem claim_C1_asset_copy (fs fs₂ : FS)
    (hrun : cleanRun fs = some fs₂ ∨ restructureRun fs = some fs₂) :
    (∀ comp ∈ aframeComponents, ∀ b : String,
      FS.lookup fs ("Campus-Tour-NYUAD-main" :: [comp]) = some (Node.file b) →
      (FS.lookup fs ("src" :: "components" :: [comp]) ≠ some Node.dir →
        FS.lookup fs₂ ("src" :: "components" :: [comp]) = some (Node.file b)) ∧
      (FS.lookup fs ("src" :: "components" :: [comp]) = some Node.dir →
        FS.lookup fs₂ ("src" :: "components" :: [comp, comp]) = some (Node.file b))) ∧
    (∀ comp ∈ aframeComponents,
      FS.lookup fs ("Campus-Tour-NYUAD-main" :: [comp]) = none →
      FS.lookup fs₂ ("src" :: "components" :: [comp]) =
        FS.lookup fs ("src" :: "components" :: [comp]) ∧
      copyStep ["Campus-Tour-NYUAD-main"] ["src", "components"] fs comp = some fs) ∧
    (∀ u ∈ utilFiles, ∀ b : String,
      (FS.lookup fs ["webxr-samples-main", "js"]).isSome →
      FS.lookup fs ("webxr-samples-main" :: "js" :: [u]) = some (Node.file b) →
      FS.lookup fs ("src" :: "utils" :: [u]) ≠ some Node.dir →
      FS.lookup fs₂ ("src" :: "utils" :: [u]) = some (Node.file b)) ∧
    (∀ u ∈ utilFiles,
      FS.lookup fs ("webxr-samples-main" :: "js" :: [u]) = none →
      FS.lookup fs₂ ("src" :: "utils" :: [u]) = FS.lookup fs ("src" :: "utils" :: [u])) := by
  refine ⟨fun comp hc b hsrc => ?_, fun comp hc hsrc => ?_,
    fun u hu b hg hsrc hnd => ?_, fun u hu hsrc => ?_⟩
  · have hpos := run_comps_pos fs fs₂ hrun comp hc b hsrc
    exact ⟨hpos.1, fun hd => (hpos.2 hd).2⟩
  · refine ⟨run_comps_absent fs fs₂ hrun comp hc hsrc, ?_⟩
    exact copyStep_noop _ _ fs comp (Or.inl hsrc)
  · exact (run_utils_pos fs fs₂ hrun u hu b hg hsrc).1 hnd
  · exact run_utils_absent fs fs₂ hrun u hu hsrc

/-- A state where a directory occupies the destination path of a component
that exists at the legacy source. -/
def compDirFS : FS :=
  [([], Node.dir),
   (["Campus-Tour-NYUAD-main"], Node.dir),
   (["Campus-Tour-NYUAD-main", "pinchable.js"], Node.file "PINCH"),
   (["src"], Node.dir),
   (["src", "components"], Node.dir),
   (["src", "components", "pinchable.js"], Node.dir)]

def compDirOut : FS := (cleanRun compDirFS).getD []

/-- Counterexample to C1 as stated: `pinchable.js` exists at the legacy
source, the run completes, yet no file with its bytes sits at the
destination path `src/components/pinchable.js` — a directory does, and the
bytes land one level deeper at `src/components/pinchable.js/pinchable.js`,
because `shutil.copy2` into an existing directory copies the file into it. -/
theorem claim_C1_counterexample :
    cleanRun compDirFS = some compDirOut ∧
    FS.lookup compDirFS ["Campus-Tour-NYUAD-main", "pinchable.js"] =
      some (Node.file "PINCH") ∧
    FS.lookup compDirOut ["src", "components", "pinchable.js"] = some Node.dir ∧
    FS.lookup compDirOut ["src", "components", "pinchable.js", "pinchable.js"] =
      some (Node.file "PINCH") :=
  ⟨opt_eq_some_getD (cleanRun compDirFS) [] (by decide), by decide, by decide, by decide⟩

/-- Witness for C1: on the demonstration state (`pinchable.js` present,
`menu.js` absent), the run completes, the destination holds the identical
bytes, and no `menu.js` appears at the destination. -/
theorem claim_C1_witness :
    cleanRun demoFS = some demoCleanOut ∧
    FS.lookup demoCleanOut ["src", "components", "pinchable.js"] =
      some (Node.file "PINCH") ∧
    FS.lookup demoCleanOut ["src", "components", "menu.js"] = none := by
  have hrun : cleanRun demoFS = some demoCleanOut :=
    opt_eq_some_getD (cleanRun demoFS) [] (by decide)
  refine ⟨hrun, ?_, ?_⟩
  · exact ((claim_C1_asset_copy demoFS demoCleanOut (Or.inl hrun)).1 "pinchable.js"
      (by decide) "PINCH" (by decide)).1 (by decide)
  · have habs := ((claim_C1_asset_copy demoFS demoCleanOut (Or.inl hrun)).2.1 "menu.js"
      (by decide) (by decide)).1
    rw [habs]
    decide

theorem cleanRun_docs_post (fs fs₂ : FS) (h : cleanRun fs = some fs₂) :
    FS.lookup fs₂ ["README.md"] = some (Node.file readmeContent) ∧
    FS.lookup fs₂ ["docs"] = some Node.dir ∧
    FS.lookup fs₂ ["docs", "TECHNICAL.md"] = some (Node.file techDoc) := by
  rw [cleanRun_eq] at h
  obtain ⟨s₁, h1, hrest⟩ := Option.bind_eq_some.1 h
  obtain ⟨s₂, h2, hrest2⟩ := Option.bind_eq_some.1 hrest
  obtain ⟨s₃, h3, h4⟩ := Option.bind_eq_some.1 hrest2
  obtain ⟨_, hr, hd, ht, _⟩ := createDocumentation_parts s₃ fs₂ h4
  exact ⟨hr, hd, ht⟩

theorem restructureRun_readme (fs fs₂ : FS) (h : restructureRun fs = some fs₂) :
    FS.lookup fs₂ ["README.md"] = some (Node.file readmeContentR) := by
  unfold restructureRun at h
  obtain ⟨s₁, h1, hrest⟩ := Option.bind_eq_some.1 h
  obtain ⟨s₂, h2, hrest2⟩ := Option.bind_eq_some.1 hrest
  obtain ⟨s₃, h3, h4⟩ := Option.bind_eq_some.1 hrest2
  exact (createDocumentationR_parts s₃ fs₂ h4).2.1

/-- **C9.** Every completed run overwrites the generated outputs
unconditionally: whatever the prior state held at `package.json`,
`vercel.json` or `README.md`, afterwards each equals its fixed template;
and a copied asset whose destination held a regular file with different
bytes afterwards holds exactly the legacy source bytes — nothing is
preserved or merged. -/
theorem claim_C9_unconditional_overwrite (fs fs₂ : FS) :
    (cleanRun fs = some fs₂ →
      FS.lookup fs₂ ["package.json"] = some (Node.file (JValue.dumps 0 packageJsonObj)) ∧
      FS.lookup fs₂ ["vercel.json"] = some (Node.file (JValue.dumps 0 vercelObj)) ∧
      FS.lookup fs₂ ["README.md"] = some (Node.file readmeContent)) ∧
    (restructureRun fs = some fs₂ →
      FS.lookup fs₂ ["package.json"] = some (Node.file (JValue.dumps 0 packageJsonObj)) ∧
      FS.lookup fs₂ ["README.md"] = some (Node.file readmeContentR)) ∧
    ((cleanRun fs = some fs₂ ∨ restructureRun fs = some fs₂) →
      ∀ comp ∈ aframeComponents, ∀ b b₀ : String,
        FS.lookup fs ("Campus-Tour-NYUAD-main" :: [comp]) = some (Node.file b) →
        FS.lookup fs ("src" :: "components" :: [comp]) = some (Node.file b₀) →
        FS.lookup fs₂ ("src" :: "components" :: [comp]) = some (Node.file b)) := by
  refine ⟨fun h => ?_, fun h => ?_, fun hrun comp hc b b₀ hsrc hdest0 => ?_⟩
  · obtain ⟨hp, hv, _⟩ := cleanRun_configs fs fs₂ h
    exact ⟨hp, hv, (cleanRun_docs_post fs fs₂ h).1⟩
  · exact ⟨(restructureRun_configs fs fs₂ h).1, restructureRun_readme fs fs₂ h⟩
  · refine (run_comps_pos fs fs₂ hrun comp hc b hsrc).1 ?_
    rw [hdest0]
    simp

/-- Witness for C9: a prior `package.json` with other bytes is replaced by
the serialized template, and a destination component file with different
bytes is replaced by the legacy source bytes. -/
def overwriteFS : FS :=
  [([], Node.dir),
   (["package.json"], Node.file "OLD"),
   (["README.md"], Node.file "OLDREADME"),
   (["Campus-Tour-NYUAD-main"], Node.dir),
   (["Campus-Tour-NYUAD-main", "pinchable.js"], Node.file "NEW"),
   (["src"], Node.dir),
   (["src", "components"], Node.dir),
   (["src", "components", "pinchable.js"], Node.file "STALE")]

def overwriteOut : FS := (cleanRun overwriteFS).getD []

theorem claim_C9_witness :
    cleanRun overwriteFS = some overwriteOut ∧
    FS.lookup overwriteFS ["package.json"] = some (Node.file "OLD") ∧
    FS.lookup overwriteOut ["package.json"] =
      some (Node.file (JValue.dumps 0 packageJsonObj)) ∧
    FS.lookup overwriteOut ["src", "components", "pinchable.js"] =
      some (Node.file "NEW") := by
  have hrun : cleanRun overwriteFS = some overwriteOut :=
    opt_eq_some_getD (cleanRun overwriteFS) [] (by decide)
  refine ⟨hrun, by decide, ?_, ?_⟩
  · exact ((claim_C9_unconditional_overwrite overwriteFS overwriteOut).1 hrun).1
  · exact (claim_C9_unconditional_overwrite overwriteFS overwriteOut).2.2 (Or.inl hrun)
      "pinchable.js" (by decide) "NEW" "STALE" (by decide) (by decide)

/-! ## Media facts at full-run level -/

theorem not_under_head (d : String) (t0 : FPath) (k : FPath) (e : String) (u : FPath)
    (hk : k = e :: u) (hne : e ≠ d) : ¬ ((d :: t0) <+: k ∧ k ≠ d :: t0) := by
  rintro ⟨hpre, _⟩
  rw [hk] at hpre
  exact hne ((List.cons_prefix_cons.1 hpre).1).symm

theorem dirs_filesUnder_webxr (fs s₁ : FS) (h : createDirectoryStructure fs = some s₁)
    (t0 : FPath) :
    FS.filesUnder s₁ ("webxr-samples-main" :: t0) =
      FS.filesUnder fs ("webxr-samples-main" :: t0) := by
  obtain ⟨ws, rfl, hk⟩ := createDirectoryStructure_keys fs _ h
  refine FS.filesUnder_applySets _ _ _ (fun w hw => ?_)
  have hm := (hk w hw).2
  revert hm
  unfold planKeys
  intro hm
  simp only [List.mem_cons, List.not_mem_nil, or_false] at hm
  rcases hm with hm|hm|hm|hm|hm|hm|hm|hm|hm|hm <;>
    exact not_under_head _ t0 _ _ _ hm (by decide)

theorem copyComps_filesUnder_webxr (fs s₁ : FS) (h : copyComps fs = some s₁)
    (t0 : FPath) :
    FS.filesUnder s₁ ("webxr-samples-main" :: t0) =
      FS.filesUnder fs ("webxr-samples-main" :: t0) := by
  obtain ⟨ws, rfl, hk⟩ := copyComps_writes fs _ h
  refine FS.filesUnder_applySets _ _ _ (fun w hw => ?_)
  obtain ⟨c, _, _, hkey⟩ := hk w hw
  rcases hkey with h4 | h4 <;>
    exact not_under_head _ t0 _ "src" _ h4 (by decide)

theorem copyUtils_filesUnder_webxr (fs s₁ : FS) (h : copyUtils fs = some s₁)
    (t0 : FPath) :
    FS.filesUnder s₁ ("webxr-samples-main" :: t0) =
      FS.filesUnder fs ("webxr-samples-main" :: t0) := by
  obtain ⟨ws, rfl, hk⟩ := copyUtils_writes fs _ h
  refine FS.filesUnder_applySets _ _ _ (fun w hw => ?_)
  obtain ⟨u, _, _, hkey⟩ := hk w hw
  rcases hkey with h4 | h4 <;>
    exact not_under_head _ t0 _ "src" _ h4 (by decide)

theorem moveMediaFiles_src_files (fs fs₂ : FS) (h : moveMediaFiles fs = some fs₂)
    (pr : FPath × FPath) (hpr : pr ∈ textureSources)
    (hg : (FS.lookup fs pr.1).isSome) :
    ∀ c ∈ FS.filesUnder fs pr.1, ∃ bc, FS.lookup fs c = some (Node.file bc) := by
  rw [moveMediaFiles_eq] at h
  obtain ⟨s₁, h1, h2⟩ := Option.bind_eq_some.1 h
  have hpr' : pr = (["webxr-samples-main", "media", "textures"], ["public", "textures"]) ∨
      pr = (["webxr-samples-main", "media", "gltf"], ["public", "models"]) := by
    simpa [textureSources] using hpr
  rcases hpr' with rfl | rfl
  · exact moveMediaOne_src_files _ ["media", "textures"] ["textures"] rfl rfl fs s₁ h1 hg
  · obtain ⟨ws₁, hw1, hk1⟩ :=
      moveMediaOne_writes_strong _ ["media", "textures"] ["textures"] rfl rfl fs s₁ h1
    have hpub1 : ∀ w ∈ ws₁, PubKey w.1 := by
      intro w hw
      obtain ⟨_, rel1, _, _, hkk⟩ := hk1 w hw
      rcases hkk with hp | he
      · exact pubKey_of_prefix ("textures" :: rel1) w.1 hp
      · rw [he]
        exact Or.inr ⟨"textures" :: (rel1 ++ [rel1.getLastD ""]), rfl⟩
    have hfr : ∀ t : FPath,
        FS.lookup s₁ ("webxr-samples-main" :: t) =
          FS.lookup fs ("webxr-samples-main" :: t) := by
      intro t
      rw [hw1]
      exact FS.lookup_applySets_of_notkey _ _ _ (fun w hw =>
        pubKey_ne_cons w.1 (hpub1 w hw) "webxr-samples-main" t (by decide))
    have hfiles : FS.filesUnder s₁ ["webxr-samples-main", "media", "gltf"] =
        FS.filesUnder fs ["webxr-samples-main", "media", "gltf"] := by
      rw [hw1]
      exact FS.filesUnder_applySets _ _ _ (fun w hw =>
        pubKey_not_strictly_under w.1 (hpub1 w hw) "webxr-samples-main"
          ["media", "gltf"] (by decide))
    intro c hc
    have hgs : (FS.lookup s₁ ["webxr-samples-main", "media", "gltf"]).isSome := by
      rw [hfr ["media", "gltf"]]
      exact hg
    have hcs := moveMediaOne_src_files _ ["media", "gltf"] ["models"] rfl rfl s₁ fs₂ h2
      hgs c (by rw [hfiles]; exact hc)
    obtain ⟨bc, hbc⟩ := hcs
    obtain ⟨ct, rfl⟩ := head_of_prefix_cons "webxr-samples-main" ["media", "gltf"] c
      (FS.filesUnder_spec fs _ c hc).1
    exact ⟨bc, by rw [← hfr ct]; exact hbc⟩


theorem run_media_pos (fs fs₂ : FS)
    (hrun : cleanRun fs = some fs₂ ∨ restructureRun fs = some fs₂)
    (hwf : FS.WF fs)
    (pr : FPath × FPath) (hpr : pr ∈ textureSources)
    (rel : FPath) (b : String) (hrel : rel ≠ [])
    (hsrc : FS.lookup fs (pr.1 ++ rel) = some (Node.file b)) :
    (∀ q ∈ buildChain [] (pr.2 ++ rel).dropLast, FS.lookup fs₂ q = some Node.dir) ∧
    (FS.lookup fs (pr.2 ++ rel) ≠ some Node.dir →
      FS.lookup fs₂ (pr.2 ++ rel) = some (Node.file b)) ∧
    (FS.lookup fs (pr.2 ++ rel) = some Node.dir →
      FS.lookup fs₂ (pr.2 ++ rel) = some Node.dir ∧
      FS.lookup fs₂ ((pr.2 ++ rel) ++ [rel.getLastD ""]) = some (Node.file b)) := by
  have hpr' : pr = (["webxr-samples-main", "media", "textures"], ["public", "textures"]) ∨
      pr = (["webxr-samples-main", "media", "gltf"], ["public", "models"]) := by
    simpa [textureSources] using hpr
  obtain ⟨t1, t2, hp1, hp2, ht2len⟩ :
      ∃ t1 t2, pr.1 = "webxr-samples-main" :: t1 ∧ pr.2 = "public" :: t2 ∧
        t2.length = 1 := by
    rcases hpr' with rfl | rfl
    · exact ⟨["media", "textures"], ["textures"], rfl, rfl, rfl⟩
    · exact ⟨["media", "gltf"], ["models"], rfl, rfl, rfl⟩
  have hgate : (FS.lookup fs pr.1).isSome := by
    have hd : FS.lookup fs pr.1 = some Node.dir := by
      refine wf_prefix_dir fs hwf (pr.1 ++ rel) pr.1 _ hsrc (List.prefix_append _ _) ?_
      intro he
      have := congrArg List.length he
      rcases List.exists_cons_of_ne_nil hrel with ⟨x, xs, rfl⟩
      simp at this
    rw [hd]
    rfl
  have hsteps : ∃ s₁ sC sU sA,
      createDirectoryStructure fs = some s₁ ∧ copyComps s₁ = some sC ∧
      copyUtils sC = some sU ∧ moveMediaFiles sU = some sA ∧
      ((createConfigFiles sA).bind createDocumentation = some fs₂ ∨
       (createConfigFilesR sA).bind createDocumentationR = some fs₂) := by
    rcases hrun with h | h
    · rw [cleanRun_eq] at h
      obtain ⟨s₁, h1, hrest⟩ := Option.bind_eq_some.1 h
      obtain ⟨sA, h2, htail⟩ := Option.bind_eq_some.1 hrest
      unfold moveAssets at h2
      obtain ⟨sC, hC, hrest2⟩ := Option.bind_eq_some.1 h2
      obtain ⟨sU, hU, hM⟩ := Option.bind_eq_some.1 hrest2
      exact ⟨s₁, sC, sU, sA, h1, hC, hU, hM, Or.inl htail⟩
    · unfold restructureRun at h
      obtain ⟨s₁, h1, hrest⟩ := Option.bind_eq_some.1 h
      obtain ⟨sA, h2, htail⟩ := Option.bind_eq_some.1 hrest
      unfold moveAssets at h2
      obtain ⟨sC, hC, hrest2⟩ := Option.bind_eq_some.1 h2
      obtain ⟨sU, hU, hM⟩ := Option.bind_eq_some.1 hrest2
      exact ⟨s₁, sC, sU, sA, h1, hC, hU, hM, Or.inr htail⟩
  obtain ⟨s₁, sC, sU, sA, h1, hC, hU, hM, htail⟩ := hsteps
  have hwfr : ∀ t : FPath,
      FS.lookup sU ("webxr-samples-main" :: t) =
        FS.lookup fs ("webxr-samples-main" :: t) := by
    intro t
    rw [copyUtils_frame_head sC sU hU _ t (by decide),
      copyComps_frame_head s₁ sC hC _ t (by decide)]
    exact dirs_frame_head fs s₁ h1 _ t (by decide) (by decide) (by decide)
  have hsrcU : FS.lookup sU (pr.1 ++ rel) = some (Node.file b) := by
    rw [hp1] at hsrc ⊢
    show FS.lookup sU ("webxr-samples-main" :: (t1 ++ rel)) = some (Node.file b)
    rw [hwfr (t1 ++ rel)]
    exact hsrc
  have hgU : (FS.lookup sU pr.1).isSome := by
    rw [hp1] at hgate ⊢
    rw [hwfr t1]
    exact hgate
  have hfilesU : FS.filesUnder sU pr.1 = FS.filesUnder fs pr.1 := by
    rw [hp1, copyUtils_filesUnder_webxr sC sU hU t1, copyComps_filesUnder_webxr s₁ sC hC t1]
    exact dirs_filesUnder_webxr fs s₁ h1 t1
  have hnochainU : ∀ c ∈ FS.filesUnder sU pr.1,
      (c <+: pr.1 ++ rel → c = pr.1 ++ rel) ∧ (pr.1 ++ rel <+: c → c = pr.1 ++ rel) := by
    intro c hc
    have hcf : c ∈ FS.filesUnder fs pr.1 := by
      rw [← hfilesU]
      exact hc
    obtain ⟨bc, hbc⟩ := moveMediaFiles_src_files sU sA hM pr hpr hgU c hc
    have hpre := (FS.filesUnder_spec fs pr.1 c hcf).1
    rw [hp1] at hpre
    obtain ⟨ct, rfl⟩ := head_of_prefix_cons "webxr-samples-main" t1 c hpre
    have hcfs : FS.lookup fs ("webxr-samples-main" :: ct) = some (Node.file bc) := by
      rw [← hwfr ct]
      exact hbc
    exact wf_nochain fs hwf (pr.1 ++ rel) _ b bc hsrc hcfs
  have hpos := moveMediaFiles_pos sU sA hM pr hpr rel b hrel hsrcU hgU hnochainU
  have htmono : ∀ q, FS.lookup sA q = some Node.dir → FS.lookup fs₂ q = some Node.dir := by
    rcases htail with ht | ht
    · obtain ⟨s₃, hc3, hd4⟩ := Option.bind_eq_some.1 ht
      exact fun q hq => createDocumentation_dirMono s₃ fs₂ q hd4
        (createConfigFiles_dirMono sA s₃ q hc3 hq)
    · obtain ⟨s₃, hc3, hd4⟩ := Option.bind_eq_some.1 ht
      exact fun q hq => FS.writeFile_dirMono _ _ _ _ _ hd4
        (createConfigFilesR_dirMono sA s₃ q hc3 hq)
  have htfr : ∀ t : FPath, FS.lookup fs₂ ("public" :: t) = FS.lookup sA ("public" :: t) := by
    rcases htail with ht | ht
    · exact fun t => cleanTail_frame sA fs₂ ht "public" t
        (by decide) (by decide) (by decide) (by decide) (by decide)
    · exact fun t => restructureTail_frame sA fs₂ ht "public" t
        (by decide) (by decide) (by decide)
  have hdestU : FS.lookup sU (pr.2 ++ rel) = FS.lookup fs (pr.2 ++ rel) := by
    rw [hp2]
    show FS.lookup sU ("public" :: (t2 ++ rel)) = FS.lookup fs ("public" :: (t2 ++ rel))
    rw [copyUtils_frame_head sC sU hU _ (t2 ++ rel) (by decide),
      copyComps_frame_head s₁ sC hC _ (t2 ++ rel) (by decide)]
    refine dirs_frame_len fs s₁ h1 _ ?_
    have hrl : 1 ≤ rel.length := List.length_pos.2 hrel
    simp only [List.length_cons, List.length_append, ht2len]
    omega
  have hdest2 : ∀ t : FPath, FS.lookup fs₂ ("public" :: t) = FS.lookup sA ("public" :: t) :=
    htfr
  refine ⟨fun q hq => htmono q (hpos.1 q hq), fun hnd => ?_, fun hd => ?_⟩
  · have := hpos.2.1 (by rw [hdestU]; exact hnd)
    rw [hp2] at this ⊢
    show FS.lookup fs₂ ("public" :: (t2 ++ rel)) = some (Node.file b)
    rw [hdest2 (t2 ++ rel)]
    exact this
  · obtain ⟨ha, hb⟩ := hpos.2.2 (by rw [hdestU]; exact hd)
    constructor
    · rw [hp2] at ha ⊢
      show FS.lookup fs₂ ("public" :: (t2 ++ rel)) = some Node.dir
      rw [hdest2 (t2 ++ rel)]
      exact ha
    · rw [hp2] at hb ⊢
      show FS.lookup fs₂ ("public" :: (t2 ++ rel ++ [rel.getLastD ""])) = some (Node.file b)
      rw [hdest2 (t2 ++ rel ++ [rel.getLastD ""])]
      exact hb

/-- **C5 (amended).** For a well-formed prior state and a completed run of
either script: every regular file at relative path `rel` under an existing
legacy media directory afterwards exists with identical content at the same
relative path under the corresponding destination, with every intermediate
destination directory created — provided no directory already sits at that
destination path; when one does, `shutil.copy2` places the file inside it,
at `destination/rel/<basename>`. An absent legacy media directory makes the
media step skip that pair without fault. -/
theorem claim_C5_media_copy_preserves_relpath (fs fs₂ : FS)
    (hrun : cleanRun fs = some fs₂ ∨ restructureRun fs = some fs₂)
    (hwf : FS.WF fs) :
    (∀ pr ∈ textureSources, ∀ rel : FPath, ∀ b : String, rel ≠ [] →
      FS.lookup fs (pr.1 ++ rel) = some (Node.file b) →
      (∀ q ∈ buildChain [] (pr.2 ++ rel).dropLast, FS.lookup fs₂ q = some Node.dir) ∧
      (FS.lookup fs (pr.2 ++ rel) ≠ some Node.dir →
        FS.lookup fs₂ (pr.2 ++ rel) = some (Node.file b)) ∧
      (FS.lookup fs (pr.2 ++ rel) = some Node.dir →
        FS.lookup fs₂ ((pr.2 ++ rel) ++ [rel.getLastD ""]) = some (Node.file b))) ∧
    (∀ pr ∈ textureSources, FS.lookup fs pr.1 = none → moveMediaOne fs pr = some fs) := by
  refine ⟨fun pr hpr rel b hrel hsrc => ?_, fun pr _ hnone => moveMediaOne_gate_none fs pr hnone⟩
  have hpos := run_media_pos fs fs₂ hrun hwf pr hpr rel b hrel hsrc
  exact ⟨hpos.1, hpos.2.1, fun hd => (hpos.2.2 hd).2⟩

/-- A media source file whose mirrored destination path is an existing
directory. -/
def mediaDirFS : FS :=
  [([], Node.dir),
   (["webxr-samples-main"], Node.dir),
   (["webxr-samples-main", "media"], Node.dir),
   (["webxr-samples-main", "media", "textures"], Node.dir),
   (["webxr-samples-main", "media", "textures", "t.png"], Node.file "TEX"),
   (["public"], Node.dir),
   (["public", "textures"], Node.dir),
   (["public", "textures", "t.png"], Node.dir)]

def mediaDirRunOut : FS := (cleanRun mediaDirFS).getD []

/-- Counterexample to C5 as stated: the legacy texture file `t.png` exists,
the run completes, yet no file with its content sits at the same relative
path under `public/textures` — a directory does, and the content lands one
level deeper. -/
theorem claim_C5_counterexample :
    cleanRun mediaDirFS = some mediaDirRunOut ∧
    FS.lookup mediaDirFS ["webxr-samples-main", "media", "textures", "t.png"] =
      some (Node.file "TEX") ∧
    FS.lookup mediaDirRunOut ["public", "textures", "t.png"] = some Node.dir ∧
    FS.lookup mediaDirRunOut ["public", "textures", "t.png", "t.png"] =
      some (Node.file "TEX") :=
  ⟨opt_eq_some_getD (cleanRun mediaDirFS) [] (by decide), by decide, by decide, by decide⟩

/-- Witness for C5: the deeper file `sub/t.png` of the demonstration state
is copied to `public/textures/sub/t.png` with identical content, with the
intermediate directory `public/textures/sub` created. -/
theorem claim_C5_witness :
    cleanRun demoFS = some demoCleanOut ∧
    FS.lookup demoCleanOut ["public", "textures", "sub", "t.png"] =
      some (Node.file "TEX") ∧
    FS.lookup demoCleanOut ["public", "textures", "sub"] = some Node.dir := by
  have hrun : cleanRun demoFS = some demoCleanOut :=
    opt_eq_some_getD (cleanRun demoFS) [] (by decide)
  have hres := (claim_C5_media_copy_preserves_relpath demoFS demoCleanOut
    (Or.inl hrun) (by decide)).1
    (["webxr-samples-main", "media", "textures"], ["public", "textures"])
    (by decide) ["sub", "t.png"] "TEX" (by decide) (by decide)
  exact ⟨hrun, hres.2.1 (by decide), hres.1 ["public", "textures", "sub"] (by decide)⟩

/-- **C10 (amended).** The recursive media copy touches nothing except
prefixes of mirrored destination paths of regular files actually present
under an existing legacy media directory — destination directories are
created only as parents of copied files, and a subtree with no regular
file beneath it causes no destination entry at all — except that when a
directory already occupies a mirrored destination path, the copy
additionally writes `destination-path/<basename>` inside it. -/
theorem claim_C10_media_frame (fs fs₂ : FS) (h : moveMediaFiles fs = some fs₂)
    (q : FPath)
    (hq : ∀ pr ∈ textureSources, (FS.lookup fs pr.1).isSome →
      ∀ c ∈ FS.filesUnder fs pr.1,
        ¬ (q <+: pr.2 ++ c.drop pr.1.length) ∧
        q ≠ (pr.2 ++ c.drop pr.1.length) ++ [(c.drop pr.1.length).getLastD ""]) :
    FS.lookup fs₂ q = FS.lookup fs q := by
  obtain ⟨ws, rfl, hk⟩ := moveMediaFiles_writes_strong fs fs₂ h
  refine FS.lookup_applySets_of_notkey _ _ _ (fun w hw => ?_)
  obtain ⟨pr, hpr, hg, rel, hrel, ⟨b, hb⟩, hkk⟩ := hk w hw
  have hne_item : pr.1 ++ rel ≠ pr.1 := by
    intro he
    exact hrel (append_right_nil_of_eq _ _ he)
  have hmem : pr.1 ++ rel ∈ FS.filesUnder fs pr.1 :=
    FS.mem_filesUnder fs pr.1 _ b hb (List.prefix_append _ _) hne_item
  have hdrop : (pr.1 ++ rel).drop pr.1.length = rel := List.drop_left _ _
  have hres := hq pr hpr hg (pr.1 ++ rel) hmem
  rw [hdrop] at hres
  intro he
  rcases hkk with hp | hp
  · exact hres.1 (by rw [← he]; exact hp)
  · exact hres.2 (by rw [← he]; exact hp)

def mediaDemoOut : FS := (moveMediaFiles demoFS).getD []

/-- Witness for C10: the empty source subdirectory `textures/empty` of the
demonstration state produces no destination entry `public/textures/empty`. -/
theorem claim_C10_witness :
    moveMediaFiles demoFS = some mediaDemoOut ∧
    FS.lookup demoFS ["webxr-samples-main", "media", "textures", "empty"] =
      some Node.dir ∧
    FS.lookup mediaDemoOut ["public", "textures", "empty"] = none := by
  have hrun : moveMediaFiles demoFS = some mediaDemoOut :=
    opt_eq_some_getD (moveMediaFiles demoFS) [] (by decide)
  refine ⟨hrun, by decide, ?_⟩
  rw [claim_C10_media_frame demoFS mediaDemoOut hrun
    ["public", "textures", "empty"] (by decide)]
  decide

def mediaDirStepOut : FS := (moveMediaFiles mediaDirFS).getD []

/-- Counterexample to C10 as stated: with a directory already at the
mirrored destination path, the media step writes a file one level deeper —
a destination entry that mirrors no legacy source file. -/
theorem claim_C10_counterexample :
    moveMediaFiles mediaDirFS = some mediaDirStepOut ∧
    FS.lookup mediaDirStepOut ["public", "textures", "t.png", "t.png"] =
      some (Node.file "TEX") ∧
    FS.lookup mediaDirFS ["public", "textures", "t.png", "t.png"] = none ∧
    FS.lookup mediaDirFS
      ["webxr-samples-main", "media", "textures", "t.png", "t.png"] = none :=
  ⟨opt_eq_some_getD (moveMediaFiles mediaDirFS) [] (by decide),
   by decide, by decide, by decide⟩

/-! ## Remaining run-level facts needed for idempotence (C3) -/

theorem run_steps (fs fs₂ : FS)
    (hrun : cleanRun fs = some fs₂ ∨ restructureRun fs = some fs₂) :
    ∃ s₁ sC sU sA,
      createDirectoryStructure fs = some s₁ ∧ copyComps s₁ = some sC ∧
      copyUtils sC = some sU ∧ moveMediaFiles sU = some sA ∧
      ((createConfigFiles sA).bind createDocumentation = some fs₂ ∨
       (createConfigFilesR sA).bind createDocumentationR = some fs₂) := by
  rcases hrun with h | h
  · rw [cleanRun_eq] at h
    obtain ⟨s₁, h1, hrest⟩ := Option.bind_eq_some.1 h
    obtain ⟨sA, h2, htail⟩ := Option.bind_eq_some.1 hrest
    unfold moveAssets at h2
    obtain ⟨sC, hC, hrest2⟩ := Option.bind_eq_some.1 h2
    obtain ⟨sU, hU, hM⟩ := Option.bind_eq_some.1 hrest2
    exact ⟨s₁, sC, sU, sA, h1, hC, hU, hM, Or.inl htail⟩
  · unfold restructureRun at h
    obtain ⟨s₁, h1, hrest⟩ := Option.bind_eq_some.1 h
    obtain ⟨sA, h2, htail⟩ := Option.bind_eq_some.1 hrest
    unfold moveAssets at h2
    obtain ⟨sC, hC, hrest2⟩ := Option.bind_eq_some.1 h2
    obtain ⟨sU, hU, hM⟩ := Option.bind_eq_some.1 hrest2
    exact ⟨s₁, sC, sU, sA, h1, hC, hU, hM, Or.inr htail⟩

theorem run_comps_src_ok (fs fs₂ : FS)
    (hrun : cleanRun fs = some fs₂ ∨ restructureRun fs = some fs₂)
    (comp : String) (hc : comp ∈ aframeComponents) :
    FS.lookup fs ("Campus-Tour-NYUAD-main" :: [comp]) = none ∨
      ∃ b, FS.lookup fs ("Campus-Tour-NYUAD-main" :: [comp]) = some (Node.file b) := by
  obtain ⟨s₁, sC, sU, sA, h1, hC, hU, hM, _⟩ := run_steps fs fs₂ hrun
  unfold copyComps at hC
  have hres := copyFold_src_ok ["Campus-Tour-NYUAD-main"] ["src", "components"]
    aframeComponents s₁ sC comp hneComps hC hc
  have hfr : FS.lookup s₁ ("Campus-Tour-NYUAD-main" :: [comp]) =
      FS.lookup fs ("Campus-Tour-NYUAD-main" :: [comp]) :=
    dirs_frame_head fs s₁ h1 _ [comp] (by decide) (by decide) (by decide)
  rcases hres with hn | ⟨b, hb⟩
  · left
    rw [← hfr]
    exact hn
  · right
    exact ⟨b, by rw [← hfr]; exact hb⟩

theorem run_utils_src_ok (fs fs₂ : FS)
    (hrun : cleanRun fs = some fs₂ ∨ restructureRun fs = some fs₂)
    (u : String) (hu : u ∈ utilFiles)
    (hg : (FS.lookup fs ["webxr-samples-main", "js"]).isSome) :
    FS.lookup fs ("webxr-samples-main" :: "js" :: [u]) = none ∨
      ∃ b, FS.lookup fs ("webxr-samples-main" :: "js" :: [u]) = some (Node.file b) := by
  obtain ⟨s₁, sC, sU, sA, h1, hC, hU, hM, _⟩ := run_steps fs fs₂ hrun
  have hwfr : ∀ t : FPath,
      FS.lookup sC ("webxr-samples-main" :: t) = FS.lookup fs ("webxr-samples-main" :: t) := by
    intro t
    rw [copyComps_frame_head s₁ sC hC _ t (by decide)]
    exact dirs_frame_head fs s₁ h1 _ t (by decide) (by decide) (by decide)
  have hgC : (FS.lookup sC ["webxr-samples-main", "js"]).isSome := by
    rw [hwfr ["js"]]
    exact hg
  unfold copyUtils at hU
  rw [if_pos hgC] at hU
  have hres := copyFold_src_ok ["webxr-samples-main", "js"] ["src", "utils"]
    utilFiles sC sU u hneUtils hU hu
  rcases hres with hn | ⟨b, hb⟩
  · left
    rw [← hwfr ("js" :: [u])]
    exact hn
  · right
    exact ⟨b, by rw [← hwfr ("js" :: [u])]; exact hb⟩

theorem run_media_src_files (fs fs₂ : FS)
    (hrun : cleanRun fs = some fs₂ ∨ restructureRun fs = some fs₂)
    (pr : FPath × FPath) (hpr : pr ∈ textureSources)
    (hg : (FS.lookup fs pr.1).isSome) :
    ∀ c ∈ FS.filesUnder fs pr.1, ∃ bc, FS.lookup fs c = some (Node.file bc) := by
  obtain ⟨s₁, sC, sU, sA, h1, hC, hU, hM, _⟩ := run_steps fs fs₂ hrun
  have hpr' : pr = (["webxr-samples-main", "media", "textures"], ["public", "textures"]) ∨
      pr = (["webxr-samples-main", "media", "gltf"], ["public", "models"]) := by
    simpa [textureSources] using hpr
  obtain ⟨t1, hp1⟩ : ∃ t1, pr.1 = "webxr-samples-main" :: t1 := by
    rcases hpr' with rfl | rfl
    · exact ⟨["media", "textures"], rfl⟩
    · exact ⟨["media", "gltf"], rfl⟩
  have hwfr : ∀ t : FPath,
      FS.lookup sU ("webxr-samples-main" :: t) = FS.lookup fs ("webxr-samples-main" :: t) := by
    intro t
    rw [copyUtils_frame_head sC sU hU _ t (by decide),
      copyComps_frame_head s₁ sC hC _ t (by decide)]
    exact dirs_frame_head fs s₁ h1 _ t (by decide) (by decide) (by decide)
  have hfilesU : FS.filesUnder sU pr.1 = FS.filesUnder fs pr.1 := by
    rw [hp1, copyUtils_filesUnder_webxr sC sU hU t1, copyComps_filesUnder_webxr s₁ sC hC t1]
    exact dirs_filesUnder_webxr fs s₁ h1 t1
  have hgU : (FS.lookup sU pr.1).isSome := by
    rw [hp1] at hg ⊢
    rw [hwfr t1]
    exact hg
  intro c hc
  obtain ⟨bc, hbc⟩ := moveMediaFiles_src_files sU sA hM pr hpr hgU c
    (by rw [hfilesU]; exact hc)
  have hpre := (FS.filesUnder_spec fs pr.1 c hc).1
  rw [hp1] at hpre
  obtain ⟨ct, rfl⟩ := head_of_prefix_cons "webxr-samples-main" t1 c hpre
  exact ⟨bc, by rw [← hwfr ct]; exact hbc⟩

theorem cleanRun_base_dir (fs fs₂ : FS) (h : cleanRun fs = some fs₂) :
    FS.lookup fs₂ [] = some Node.dir := by
  rw [cleanRun_eq] at h
  obtain ⟨s₁, h1, hrest⟩ := Option.bind_eq_some.1 h
  obtain ⟨s₂, h2, hrest2⟩ := Option.bind_eq_some.1 hrest
  obtain ⟨s₃, h3, h4⟩ := Option.bind_eq_some.1 hrest2
  exact createDocumentation_dirMono s₃ fs₂ [] h4
    (createConfigFiles_dirMono s₂ s₃ [] h3 (createConfigFiles_parts s₂ s₃ h3).1)

theorem restructureRun_base_dir (fs fs₂ : FS) (h : restructureRun fs = some fs₂) :
    FS.lookup fs₂ [] = some Node.dir := by
  unfold restructureRun at h
  obtain ⟨s₁, h1, hrest⟩ := Option.bind_eq_some.1 h
  obtain ⟨s₂, h2, hrest2⟩ := Option.bind_eq_some.1 hrest
  obtain ⟨s₃, h3, h4⟩ := Option.bind_eq_some.1 hrest2
  exact FS.writeFile_dirMono _ _ _ _ _ h4
    (createConfigFilesR_dirMono s₂ s₃ [] h3 (createConfigFilesR_parts s₂ s₃ h3).1)

theorem run_filesUnder_webxr (fs fs₂ : FS)
    (hrun : cleanRun fs = some fs₂ ∨ restructureRun fs = some fs₂) (t0 : FPath) :
    FS.filesUnder fs₂ ("webxr-samples-main" :: t0) =
      FS.filesUnder fs ("webxr-samples-main" :: t0) := by
  have hws : ∃ ws, fs₂ = FS.applySets fs ws ∧ ∀ w ∈ ws, TouchKey w.1 := by
    rcases hrun with h | h
    · exact cleanRun_writes fs fs₂ h
    · exact restructureRun_writes fs fs₂ h
  obtain ⟨ws, rfl, hk⟩ := hws
  refine FS.filesUnder_applySets _ _ _ (fun w hw => ?_)
  rcases touchKey_shape w.1 (hk w hw) with hnil | ⟨hd, tk, hcons, hmem⟩
  · rintro ⟨hpre, _⟩
    rw [hnil] at hpre
    have := List.prefix_nil.1 hpre
    simp at this
  · refine not_under_head _ t0 _ hd tk hcons ?_
    exact (show ∀ x ∈ ["public", "src", "docs", "package.json", "vercel.json",
      ".gitignore", "README.md"], x ≠ "webxr-samples-main" by decide) hd hmem

theorem run_dirs_post (fs fs₂ : FS)
    (hrun : cleanRun fs = some fs₂ ∨ restructureRun fs = some fs₂) :
    ∀ md ∈ newStructure, FS.lookup fs₂ [md.1] = some Node.dir ∧
      ∀ sd ∈ md.2, FS.lookup fs₂ [md.1, sd] = some Node.dir := by
  rcases hrun with h | h
  · exact cleanRun_dirs_post fs fs₂ h
  · exact restructureRun_dirs_post fs fs₂ h

theorem run_legacy_frame (fs fs₂ : FS)
    (hrun : cleanRun fs = some fs₂ ∨ restructureRun fs = some fs₂)
    (d : String) (hd : d ∈ oldDirs) (t : FPath) :
    FS.lookup fs₂ (d :: t) = FS.lookup fs (d :: t) := by
  rcases hrun with h | h
  · exact cleanRun_legacy_frame fs fs₂ h d hd t
  · exact restructureRun_legacy_frame fs fs₂ h d hd t

theorem run_assets_noop (fs fs₂ : FS)
    (hrun : cleanRun fs = some fs₂ ∨ restructureRun fs = some fs₂)
    (hwf : FS.WF fs) :
    createDirectoryStructure fs₂ = some fs₂ ∧ moveAssets fs₂ = some fs₂ := by
  have hdirs := run_dirs_post fs fs₂ hrun
  have hleg := run_legacy_frame fs fs₂ hrun
  have hsubsrc : FS.lookup fs₂ ["src", "components"] = some Node.dir :=
    (hdirs ("src", ["components", "utils", "styles"]) (by decide)).2 "components" (by decide)
  have hsubutils : FS.lookup fs₂ ["src", "utils"] = some Node.dir :=
    (hdirs ("src", ["components", "utils", "styles"]) (by decide)).2 "utils" (by decide)
  refine ⟨createDirectoryStructure_noop fs₂ hdirs, ?_⟩
  have hcomps : copyComps fs₂ = some fs₂ := by
    unfold copyComps
    refine foldlM_id _ _ _ (fun comp hc => ?_)
    refine copyStep_noop _ _ fs₂ comp ?_
    have hfrsrc : FS.lookup fs₂ (["Campus-Tour-NYUAD-main"] ++ [comp]) =
        FS.lookup fs (["Campus-Tour-NYUAD-main"] ++ [comp]) :=
      hleg "Campus-Tour-NYUAD-main" (by decide) [comp]
    rcases run_comps_src_ok fs fs₂ hrun comp hc with hnone | ⟨b, hb⟩
    · exact Or.inl (by rw [hfrsrc]; exact hnone)
    · refine Or.inr ⟨b, by rw [hfrsrc]; exact hb, ?_⟩
      by_cases hd : FS.lookup fs ("src" :: "components" :: [comp]) = some Node.dir
      · obtain ⟨ha, hb2⟩ := (run_comps_pos fs fs₂ hrun comp hc b hb).2 hd
        exact Or.inr ⟨ha, hb2⟩
      · have hfile := (run_comps_pos fs fs₂ hrun comp hc b hb).1 hd
        exact Or.inl ⟨hsubsrc, hfile⟩
  have hutils : copyUtils fs₂ = some fs₂ := by
    unfold copyUtils
    have hgfr : FS.lookup fs₂ ["webxr-samples-main", "js"] =
        FS.lookup fs ["webxr-samples-main", "js"] :=
      hleg "webxr-samples-main" (by decide) ["js"]
    by_cases hg : (FS.lookup fs ["webxr-samples-main", "js"]).isSome
    · rw [if_pos (by rw [hgfr]; exact hg)]
      refine foldlM_id _ _ _ (fun u hu => ?_)
      refine copyStep_noop _ _ fs₂ u ?_
      have hfrsrc : FS.lookup fs₂ (["webxr-samples-main", "js"] ++ [u]) =
          FS.lookup fs (["webxr-samples-main", "js"] ++ [u]) :=
        hleg "webxr-samples-main" (by decide) ("js" :: [u])
      rcases run_utils_src_ok fs fs₂ hrun u hu hg with hnone | ⟨b, hb⟩
      · exact Or.inl (by rw [hfrsrc]; exact hnone)
      · refine Or.inr ⟨b, by rw [hfrsrc]; exact hb, ?_⟩
        by_cases hd : FS.lookup fs ("src" :: "utils" :: [u]) = some Node.dir
        · obtain ⟨ha, hb2⟩ := (run_utils_pos fs fs₂ hrun u hu b hg hb).2 hd
          exact Or.inr ⟨ha, hb2⟩
        · have hfile := (run_utils_pos fs fs₂ hrun u hu b hg hb).1 hd
          exact Or.inl ⟨hsubutils, hfile⟩
    · rw [if_neg (by rw [hgfr]; exact hg)]
  have hmediaone : ∀ pr ∈ textureSources, moveMediaOne fs₂ pr = some fs₂ := by
    intro pr hpr
    have hpr' : pr = (["webxr-samples-main", "media", "textures"], ["public", "textures"]) ∨
        pr = (["webxr-samples-main", "media", "gltf"], ["public", "models"]) := by
      simpa [textureSources] using hpr
    obtain ⟨t1, hp1⟩ : ∃ t1, pr.1 = "webxr-samples-main" :: t1 := by
      rcases hpr' with rfl | rfl
      · exact ⟨["media", "textures"], rfl⟩
      · exact ⟨["media", "gltf"], rfl⟩
    have hgfr : FS.lookup fs₂ pr.1 = FS.lookup fs pr.1 := by
      rw [hp1]
      exact hleg "webxr-samples-main" (by decide) t1
    cases hg : FS.lookup fs pr.1 with
    | none => exact moveMediaOne_gate_none fs₂ pr (by rw [hgfr, hg])
    | some n =>
      have hgs : (FS.lookup fs pr.1).isSome := by rw [hg]; rfl
      unfold moveMediaOne
      rw [if_pos (by rw [hgfr, hg]; rfl)]
      have hfu : FS.filesUnder fs₂ pr.1 = FS.filesUnder fs pr.1 := by
        rw [hp1]
        exact run_filesUnder_webxr fs fs₂ hrun t1
      rw [hfu]
      refine foldlM_id _ _ _ (fun c hc => ?_)
      obtain ⟨bc, hbc⟩ := run_media_src_files fs fs₂ hrun pr hpr hgs c hc
      obtain ⟨hpre, hne⟩ := FS.filesUnder_spec fs pr.1 c hc
      obtain ⟨rel, rfl⟩ := hpre
      have hrelne : rel ≠ [] := by
        rintro rfl
        exact hne (by simp)
      have hpos := run_media_pos fs fs₂ hrun hwf pr hpr rel bc hrelne hbc
      have hdrop : (pr.1 ++ rel).drop pr.1.length = rel := List.drop_left _ _
      refine copyMediaItem_noop pr fs₂ (pr.1 ++ rel) bc ?_ ?_ ?_
      · rw [hdrop]
        exact hpos.1
      · rw [hp1]
        rw [hp1] at hbc
        show FS.lookup fs₂ ("webxr-samples-main" :: (t1 ++ rel)) = some (Node.file bc)
        rw [hleg "webxr-samples-main" (by decide) (t1 ++ rel)]
        exact hbc
      · rw [hdrop]
        by_cases hdd : FS.lookup fs (pr.2 ++ rel) = some Node.dir
        · obtain ⟨ha, hbred⟩ := hpos.2.2 hdd
          refine Or.inr ⟨ha, ?_⟩
          rw [getLastD_append_right pr.1 rel hrelne]
          exact hbred
        · exact Or.inl (hpos.2.1 hdd)
  have hmedia : moveMediaFiles fs₂ = some fs₂ := by
    rw [moveMediaFiles_eq,
      hmediaone (["webxr-samples-main", "media", "textures"], ["public", "textures"])
        (by decide)]
    exact hmediaone (["webxr-samples-main", "media", "gltf"], ["public", "models"])
      (by decide)
  unfold moveAssets
  rw [hcomps]
  show (copyUtils fs₂).bind moveMediaFiles = some fs₂
  rw [hutils]
  exact hmedia

theorem cleanRun_idem (fs fs₂ : FS) (hwf : FS.WF fs) (h : cleanRun fs = some fs₂) :
    cleanRun fs₂ = some fs₂ := by
  obtain ⟨hdirs2, hassets2⟩ := run_assets_noop fs fs₂ (Or.inl h) hwf
  have hbase := cleanRun_base_dir fs fs₂ h
  obtain ⟨hp, hv, hg⟩ := cleanRun_configs fs fs₂ h
  obtain ⟨hr, hdd, ht⟩ := cleanRun_docs_post fs fs₂ h
  have hcfg : createConfigFiles fs₂ = some fs₂ :=
    createConfigFiles_noop fs₂ hbase hp hv hg
  have hdoc : createDocumentation fs₂ = some fs₂ :=
    createDocumentation_noop fs₂ hbase hr hdd ht
  rw [cleanRun_eq, hdirs2]
  show (moveAssets fs₂).bind _ = some fs₂
  rw [hassets2]
  show (createConfigFiles fs₂).bind _ = some fs₂
  rw [hcfg]
  exact hdoc

theorem restructureRun_idem (fs fs₂ : FS) (hwf : FS.WF fs)
    (h : restructureRun fs = some fs₂) : restructureRun fs₂ = some fs₂ := by
  obtain ⟨hdirs2, hassets2⟩ := run_assets_noop fs fs₂ (Or.inr h) hwf
  have hbase := restructureRun_base_dir fs fs₂ h
  obtain ⟨hp, hv⟩ := restructureRun_configs fs fs₂ h
  have hr := restructureRun_readme fs fs₂ h
  have hcfg : createConfigFilesR fs₂ = some fs₂ :=
    createConfigFilesR_noop fs₂ hbase hp hv
  have hdoc : createDocumentationR fs₂ = some fs₂ :=
    createDocumentationR_noop fs₂ hbase hr
  show (createDirectoryStructure fs₂).bind _ = some fs₂
  rw [hdirs2]
  show (moveAssets fs₂).bind _ = some fs₂
  rw [hassets2]
  show (createConfigFilesR fs₂).bind _ = some fs₂
  rw [hcfg]
  exact hdoc

/-- **C3.** Running `run()` a second time on the completed output of a
first run (from any well-formed starting state) returns exactly the same
filesystem state: the second run re-creates already-present directories and
re-copies already-copied files, changing nothing — for both scripts. -/
theorem claim_C3_run_idempotent (fs fs₂ : FS) (hwf : FS.WF fs) :
    (cleanRun fs = some fs₂ → cleanRun fs₂ = some fs₂) ∧
    (restructureRun fs = some fs₂ → restructureRun fs₂ = some fs₂) :=
  ⟨fun h => cleanRun_idem fs fs₂ hwf h, fun h => restructureRun_idem fs fs₂ hwf h⟩

/-- Witness for C3: on the demonstration state the run completes, and
running again on the result reproduces it exactly. -/
theorem claim_C3_witness :
    FS.WF demoFS ∧ cleanRun demoFS = some demoCleanOut ∧
    cleanRun demoCleanOut = some demoCleanOut := by
  have hwf : FS.WF demoFS := by decide
  have hrun : cleanRun demoFS = some demoCleanOut :=
    opt_eq_some_getD (cleanRun demoFS) [] (by decide)
  exact ⟨hwf, hrun, (claim_C3_run_idempotent demoFS demoCleanOut hwf).1 hrun⟩
